import Mathlib

/-!
Chunk catalog builder for HDF4 files (`build_dmrpp_util_h4.cc`).

A shallow embedding of `modules/dmrpp_module/build_dmrpp_h4/build_dmrpp_util_h4.cc`.

* C `int` / `int32` values are `Int`; results of `int` arithmetic and conversions to `int` go
  through `wrap_int32`. `unsigned long long` values are `Nat` below `2^64`; conversions to them go
  through `wrap_uint64`.
* The HDF4 library is an external collaborator. What it answers for one data set is a value of
  `SDS`; an open file is a function from data set names to `SDS`.
* Effects on the outside world (text on `std::cerr`, block-location queries, opening and closing
  the file, the document on `std::cout`) are recorded, in order, as a list of `Event`s.
* A call either returns, or ends the process with `exit(1)`, or leaves with a C++ exception, or
  performs an integer division by zero: see `Outcome`.
-/

namespace build_dmrpp_util_h4

/-! ## Machine integers and HDF4 constants -/

/-- Value stored in a C `int` (32 bits, two's complement) for the mathematical value `x`. -/
def wrap_int32 (x : Int) : Int := (x + 2147483648) % 4294967296 - 2147483648

/-- Value stored in an `unsigned long long` (64 bits) for the mathematical value `x`. -/
def wrap_uint64 (x : Int) : Nat := (x % 18446744073709551616).toNat

/-- HDF4 `FAIL` (hdf.h). -/
def FAIL : Int := -1

/-- HDF4 `SUCCEED` (hdf.h). -/
def SUCCEED : Int := 0

/-- HDF4 chunking flag `HDF_NONE` (hproto.h / hchunks.h). -/
def HDF_NONE : Int := 0

/-- HDF4 chunking flag `HDF_CHUNK`. -/
def HDF_CHUNK : Int := 1

/-- HDF4 chunking flag `HDF_COMP` (`HDF_CHUNK | 0x2`). -/
def HDF_COMP : Int := 3

/-- HDF4 chunking flag `HDF_NBIT` (`HDF_CHUNK | 0x4`). -/
def HDF_NBIT : Int := 5

/-! ## The backing store (HDF4 library answers) -/

/-- One physical data block as `SDgetdatainfo` reports it. -/
structure Block where
  offset : Int
  length : Int
deriving DecidableEq, Repr

/-- HDF4 compression type `COMP_CODE_NONE` (hcomp.h). -/
def COMP_CODE_NONE : Int := 0

/-- HDF4 compression type `COMP_CODE_RLE`: run-length encoding. -/
def COMP_CODE_RLE : Int := 1

/-- HDF4 compression type `COMP_CODE_DEFLATE`: gzip deflate. -/
def COMP_CODE_DEFLATE : Int := 4

/-- The parts of `HDF_CHUNK_DEF` the claims are about: the two chunk-length arrays that the code
reads, `cdef.chunk_lengths` and `cdef.comp.chunk_lengths`, and the compression type the store
reports, `cdef.comp.comp_type`, which the code does not read. -/
structure HDF_CHUNK_DEF where
  chunk_lengths : List Int
  comp_chunk_lengths : List Int
  comp_type : Int
deriving DecidableEq, Repr

/-- What the HDF4 library answers for one scientific data set. `none` is the library's `FAIL`.
* `SDgetinfo`: rank, dimsizes, data_type;
* `SDgetchunkinfo`: cdef, chunk_flag;
* `Hgetntinfo`: `info.byte_order`;
* `SDcheckempty`: is_empty;
* `blocks origin`: the data blocks located at the chunk coordinate `origin`. -/
structure SDS where
  SDgetinfo : Option (Int × List Int × Int)
  SDgetchunkinfo : Option (HDF_CHUNK_DEF × Int)
  Hgetntinfo : Option String
  SDcheckempty : Option Int
  blocks : List Int → Option (List Block)

/-- HDF4 library call `SDgetdatainfo(sdsid, origin, 0, info_count, offsets, lengths)`.
With `info_count = 0` (and null arrays) it returns the number of data blocks. Otherwise it
retrieves at most `info_count` blocks into the two arrays and returns how many it retrieved.
It returns `FAIL` when the block locations cannot be reported. -/
def SDgetdatainfo (sds : SDS) (origin : List Int) (info_count : Int) : Int × List Int × List Int :=
  match sds.blocks origin with
  | none => (FAIL, [], [])
  | some bs =>
    if info_count = 0 then ((bs.length : Int), [], [])
    else
      let got := bs.take info_count.toNat
      ((got.length : Int), got.map Block.offset, got.map Block.length)

/-! ## Effects and outcomes -/

/-- Observable effects, in the order they happen.
* `ERROR x`: the text of `ERROR(x)` / `FAIL_ERROR(x)` on `std::cerr`;
* `VERBOSE x`: text written to `std::cerr` under `VERBOSE(...)`;
* `query origin`: one `read_chunk` call, asking the store for the blocks at `origin`;
* `SDstart`, `Hclose`: the file handle is opened, closed;
* `cout_document`: the serialized document is written to `std::cout`. -/
inductive Event where
  | ERROR (x : String)
  | VERBOSE (x : String)
  | query (origin : List Int)
  | SDstart
  | Hclose
  | cout_document
deriving DecidableEq, Repr

/-- How a call ends.
* `returned a`: normal return;
* `exited`: `FAIL_ERROR` called `exit(1)`;
* `thrown what`: a C++ exception of class `what` leaves the call;
* `undefined`: an integer division (or remainder) by zero was executed. -/
inductive Outcome (α : Type) where
  | returned (a : α)
  | exited
  | thrown (what : String)
  | undefined
deriving DecidableEq, Repr

/-- A finished call: the events it caused, in order, and how it ended. -/
structure Run (α : Type) where
  trace : List Event
  result : Outcome α

/-- Normal return without effects. -/
def Run.ret {α : Type} (a : α) : Run α := ⟨[], Outcome.returned a⟩

/-- Sequential composition: `f` runs only when `x` returned. -/
def Run.bind {α β : Type} (x : Run α) (f : α → Run β) : Run β :=
  match x.result with
  | Outcome.returned a => ⟨x.trace ++ (f a).trace, (f a).result⟩
  | Outcome.exited => ⟨x.trace, Outcome.exited⟩
  | Outcome.thrown what => ⟨x.trace, Outcome.thrown what⟩
  | Outcome.undefined => ⟨x.trace, Outcome.undefined⟩

/-- The macro `ERROR(x)`: write to `std::cerr` and go on (the file and line suffix is left out). -/
def ERROR {α : Type} (x : String) (a : α) : Run α := ⟨[Event.ERROR x], Outcome.returned a⟩

/-- The macro `FAIL_ERROR(x)`: write to `std::cerr`, then `exit(1)`. -/
def FAIL_ERROR {α : Type} (x : String) : Run α := ⟨[Event.ERROR x], Outcome.exited⟩

/-- The macro `VERBOSE(cerr << ...)`: the lines are written only when `verbose` is set. -/
def VERBOSE (verbose : Bool) (lines : List String) : List Event :=
  if verbose then lines.map Event.VERBOSE else []

/-- The block-location queries of a trace, in order. -/
def queries_of (t : List Event) : List (List Int) :=
  t.filterMap fun e => match e with
    | Event.query origin => some origin
    | _ => none

/-- The text lines written to `std::cerr` (the operator channel) in a trace, in order. -/
def cerr_of (t : List Event) : List String :=
  t.filterMap fun e => match e with
    | Event.ERROR x => some x
    | Event.VERBOSE x => some x
    | _ => none

/-! ## The data model: chunk descriptors and the schema tree -/

/-- One chunk descriptor of a catalog (`dmrpp::Chunk` as `add_chunk` builds it). -/
structure Chunk where
  byte_order : String
  size : Nat
  offset : Nat
  position_in_array : List Nat
deriving DecidableEq, Repr

/-- The part of `dmrpp::DmrppCommon` this file writes: the catalog `chunks`, the chunk dimension
sizes and the compression type. A fresh node has all three empty. -/
structure DmrppCommon where
  chunks : List Chunk
  chunk_dimension_sizes : List Nat
  compression_type : Option String
deriving DecidableEq, Repr

/-- Modelled from the spec: `DmrppCommon::add_chunk(byte_order, size, offset, position_in_array)`
is declared in `DmrppCommon.h`, which is not among the sources. Per the spec (Index Assembler) it
appends one chunk descriptor to the catalog, in call order, and does nothing else. The two
`int32` arguments are converted to `unsigned long long` by the call. -/
def DmrppCommon.add_chunk (dc : DmrppCommon) (byte_order : String) (size : Int) (offset : Int)
    (position_in_array : List Nat) : DmrppCommon :=
  { dc with chunks := dc.chunks ++ [⟨byte_order, wrap_uint64 size, wrap_uint64 offset,
      position_in_array⟩] }

/-- Modelled from the spec: `DmrppCommon::set_chunk_dimension_sizes` (declared in `DmrppCommon.h`)
records the chunk dimension sizes on the variable. -/
def DmrppCommon.set_chunk_dimension_sizes (dc : DmrppCommon) (sizes : List Nat) : DmrppCommon :=
  { dc with chunk_dimension_sizes := sizes }

/-- Modelled from the spec: `DmrppCommon::ingest_compression_type` (declared in `DmrppCommon.h`)
records the codec name on the variable. -/
def DmrppCommon.ingest_compression_type (dc : DmrppCommon) (codec : String) : DmrppCommon :=
  { dc with compression_type := some codec }

mutual
/-- A variable of the schema tree, by `btp->type()`.
* `dods_array_c name dc`: `dc` is the node seen as a `DmrppCommon`, `none` when the
  `dynamic_cast<DmrppCommon *>` gives null;
* `dods_group_c g`: a `D4Group` met in a list of variables;
* `atomic`: every other type (the `default` case of the switch).
`name` stands for both `btp->name()` and `btp->FQN()`. -/
inductive BaseType where
  | dods_structure_c (name : String) (vars : List BaseType)
  | dods_sequence_c (name : String) (vars : List BaseType)
  | dods_grid_c (name : String)
  | dods_array_c (name : String) (dc : Option DmrppCommon)
  | dods_group_c (g : D4Group)
  | atomic (name : String) (type_name : String)
/-- A group: its direct variables (`group->variables()`) and its child groups
(`grp_begin() .. grp_end()`). -/
inductive D4Group where
  | mk (name : String) (vars : List BaseType) (groups : List D4Group)
end

/-! ## `SDfree_mapping_info`, `write_chunk_position_in_array`, `read_chunk` -/

/-- The fields of `SD_mapping_info_t` the code uses. A null `offsets` / `lengths` is `none`. -/
structure SD_mapping_info_t where
  nblocks : Int
  offsets : Option (List Int)
  lengths : Option (List Int)
  data_type : Int
  is_empty : Int
deriving DecidableEq, Repr

/-- Lines 88-109. (The callers never pass a null `map_info`.) -/
def SDfree_mapping_info (map_info : SD_mapping_info_t) : SD_mapping_info_t :=
  { map_info with nblocks := 0, offsets := none, lengths := none }

/-- Lines 118-129: `chunk_pos[i] = lengths[i] * (unsigned long long) strides[i]` for `i < rank`. -/
def write_chunk_position_in_array (rank : Int) (lengths : List Nat) (strides : List Int) :
    List Nat :=
  (List.range rank.toNat).map fun i =>
    (lengths.getD i 0 * wrap_uint64 (strides.getD i 0)) % 18446744073709551616

/-- Lines 140-175. Returns `ret_value` and the updated `map_info`; the call is recorded as one
`Event.query origin`. The two `HDmalloc` calls are taken to succeed. -/
def read_chunk (sds : SDS) (map_info : SD_mapping_info_t) (origin : List Int) :
    Run (Int × SD_mapping_info_t) :=
  let map_info := SDfree_mapping_info map_info
  let info_count := (SDgetdatainfo sds origin 0).1
  if info_count = FAIL then
    ⟨[Event.query origin, Event.ERROR "SDgetedatainfo() failed in read_chunk()."], Outcome.exited⟩
  else if info_count > 0 then
    let filled := SDgetdatainfo sds origin info_count
    ⟨[Event.query origin], Outcome.returned (filled.1,
      { map_info with nblocks := info_count,
                      offsets := some filled.2.1, lengths := some filled.2.2 })⟩
  else
    ⟨[Event.query origin], Outcome.returned (SUCCEED, map_info)⟩

/-! ## `get_chunks_for_an_array` -/

/-- The test `strncmp(s1, s2, n) == 0`: the first `n` characters agree. -/
def strncmp_eq (s1 s2 : String) (n : Nat) : Bool :=
  s1.toList.take n == s2.toList.take n

/-- Lines 242-247: the byte order name resolved from `info.byte_order`. -/
def endian_name_of (byte_order : String) : String :=
  if strncmp_eq byte_order "bigEndian" 9 then "BE"
  else if strncmp_eq byte_order "littleEndian" 12 then "LE"
  else "UNKNOWN"

/-- Lines 214-233, the `switch (chunk_flag)`: `true` when control leaves the switch through a
`break`, `false` when the function executes `return false` there. -/
def switch_chunk_flag (verbose : Bool) (chunk_flag rank : Int) : Run Bool :=
  if chunk_flag = HDF_NONE then
    ⟨VERBOSE verbose ["No chunking."], Outcome.returned true⟩
  else if chunk_flag = HDF_CHUNK ∨ chunk_flag = HDF_COMP then
    if rank ≤ 0 then ERROR "Invalid rank." false
    else ⟨VERBOSE verbose ["HDF_CHUNK or HDF_COMP."], Outcome.returned true⟩
  else if chunk_flag = HDF_NBIT then
    ERROR "NBit Compression chunking not supported." false
  else
    ERROR "Unknown chunking flag." false

/-- Lines 268-279: the chunk dimension sizes read from `cdef` (converted from `int32` to
`unsigned long long`). -/
def read_chunk_dimension_sizes (rank chunk_flag : Int) (cdef : HDF_CHUNK_DEF) : List Nat :=
  (List.range rank.toNat).map fun i =>
    if chunk_flag = HDF_CHUNK then wrap_uint64 (cdef.chunk_lengths.getD i 0)
    else wrap_uint64 (cdef.comp_chunk_lengths.getD i 0)

/-- Lines 269-279: the effect of the same loop on the node: for `HDF_COMP`,
`dc->ingest_compression_type("deflate")` once per dimension. -/
def ingest_compression (rank chunk_flag : Int) (dc : DmrppCommon) : DmrppCommon :=
  (List.range rank.toNat).foldl
    (fun dc _ => if chunk_flag = HDF_CHUNK then dc else dc.ingest_compression_type "deflate") dc

/-- Lines 293-300, run for `i = 0 .. n-1`: `steps[i] = dimsizes[i] / chunk_dimension_sizes[i]`
(an `unsigned long long` division, stored in an `int`) and
`number_of_chunks = number_of_chunks * steps[i]`. `none`: a division by zero was executed. -/
def steps_loop (dimsizes : List Int) (chunk_dimension_sizes : List Nat) :
    Nat → Option (List Int × Int)
  | 0 => some ([], 1)
  | i + 1 =>
    match steps_loop dimsizes chunk_dimension_sizes i with
    | none => none
    | some (steps, number_of_chunks) =>
      if chunk_dimension_sizes.getD i 0 = 0 then none
      else
        let s := wrap_int32
          ((wrap_uint64 (dimsizes.getD i 0) / chunk_dimension_sizes.getD i 0 : Nat) : Int)
        some (steps ++ [s], wrap_int32 (number_of_chunks * s))

/-- Lines 326-332, the odometer update after chunk `k`, run for `i = n-1` down to `0` with the
running `scale`: `if ((k+1) % scale == 0) strides[i] = ++strides[i] % steps[i];`
`scale = scale * steps[i];`. `none`: a remainder by zero was executed.
(`k + 1` cannot overflow, since `k < number_of_chunks`.) -/
def increase_strides (k : Int) (steps : List Int) : Nat → Int → List Int → Option (List Int)
  | 0, _, strides => some strides
  | i + 1, scale, strides =>
    if scale = 0 then none
    else if (k + 1).tmod scale = 0 then
      if steps.getD i 0 = 0 then none
      else
        increase_strides k steps i (wrap_int32 (scale * steps.getD i 0))
          (strides.set i ((wrap_int32 (strides.getD i 0 + 1)).tmod (steps.getD i 0)))
    else
      increase_strides k steps i (wrap_int32 (scale * steps.getD i 0)) strides

/-- Lines 318-323 and 352-357: one `dc->add_chunk(endian_name, lengths[i], offsets[i], pia)` per
block held in `map_info`, for `i = 0 .. nblocks-1`. -/
def add_blocks (endian_name : String) (map_info : SD_mapping_info_t) (pia : List Nat)
    (dc : DmrppCommon) : DmrppCommon :=
  (List.range map_info.nblocks.toNat).foldl
    (fun dc i => dc.add_chunk endian_name ((map_info.lengths.getD []).getD i 0)
      ((map_info.offsets.getD []).getD i 0) pia) dc

/-- Lines 353-354: the `VERBOSE` lines of the loop over the blocks of a contiguous array. -/
def add_blocks_verbose (verbose : Bool) (map_info : SD_mapping_info_t) : List Event :=
  VERBOSE verbose ((List.range map_info.nblocks.toNat).flatMap fun i =>
    ["offsets[" ++ toString i ++ "]: " ++ toString ((map_info.offsets.getD []).getD i 0),
     "lengths[" ++ toString i ++ "]: " ++ toString ((map_info.lengths.getD []).getD i 0)])

/-- Lines 319-320: the `VERBOSE` lines of the loop over the blocks of chunk `k`; they name the
chunk and the block, `offsets[k, i]` and `lengths[k, i]`. -/
def chunk_blocks_verbose (verbose : Bool) (k : Int) (map_info : SD_mapping_info_t) :
    List Event :=
  VERBOSE verbose ((List.range map_info.nblocks.toNat).flatMap fun i =>
    ["offsets[" ++ toString k ++ ", " ++ toString i ++ "]: " ++
        toString ((map_info.offsets.getD []).getD i 0),
     "lengths[" ++ toString k ++ ", " ++ toString i ++ "]: " ++
        toString ((map_info.lengths.getD []).getD i 0)])

/-- Lines 310-333, the loop `for (int k = 0; k < number_of_chunks; ++k)`. The first argument is
the number of iterations still to run, `number_of_chunks - k`. -/
def chunk_loop (verbose : Bool) (sds : SDS) (endian_name : String) (rank : Int)
    (chunk_dimension_sizes : List Nat) (steps : List Int) :
    Nat → Int → SD_mapping_info_t → List Int → DmrppCommon → Run DmrppCommon
  | 0, _, _, _, dc => Run.ret dc
  | n + 1, k, map_info, strides, dc =>
    Run.bind (read_chunk sds map_info strides) fun r =>
      if r.1 = FAIL then FAIL_ERROR "SDgetedatainfo() failed in read_chunk()."
      else
        let pia := write_chunk_position_in_array rank chunk_dimension_sizes strides
        Run.bind ⟨chunk_blocks_verbose verbose k r.2,
            Outcome.returned (add_blocks endian_name r.2 pia dc)⟩
          fun dc =>
            match increase_strides k steps rank.toNat 1 strides with
            | none => ⟨[], Outcome.undefined⟩
            | some strides =>
              chunk_loop verbose sds endian_name rank chunk_dimension_sizes steps n (k + 1) r.2
                strides dc

/-- Lines 267-334: the branch for `HDF_CHUNK` and `HDF_COMP` (here `rank > 0`). The chunk
dimension sizes are written under `VERBOSE` through an `ostream_iterator<int32>`, each followed
by a blank; the statement `VERBOSE("\n")` of line 307 writes nothing. -/
def chunked_array (verbose : Bool) (sds : SDS) (endian_name : String) (rank : Int)
    (dimsizes : List Int) (data_type : Int) (cdef : HDF_CHUNK_DEF) (chunk_flag : Int)
    (dc : DmrppCommon) : Run DmrppCommon :=
  let chunk_dimension_sizes := read_chunk_dimension_sizes rank chunk_flag cdef
  let dc := ingest_compression rank chunk_flag dc
  let dc := dc.set_chunk_dimension_sizes chunk_dimension_sizes
  let map_info : SD_mapping_info_t := ⟨0, none, none, data_type, 0⟩
  match steps_loop dimsizes chunk_dimension_sizes rank.toNat with
  | none => ⟨[], Outcome.undefined⟩
  | some (steps, number_of_chunks) =>
    Run.bind ⟨VERBOSE verbose ["number_of_chunks: " ++ toString number_of_chunks,
        "rank: " ++ toString rank, "chunk dimension sizes: ",
        String.join (chunk_dimension_sizes.map fun c : Nat =>
          toString (wrap_int32 (c : Int)) ++ " ")],
        Outcome.returned ()⟩ fun _ =>
      chunk_loop verbose sds endian_name rank chunk_dimension_sizes steps number_of_chunks.toNat 0
        map_info (List.replicate rank.toNat 0) dc

/-- Lines 335-358: the branch for `HDF_NONE`. Building `vector<int> origin(rank, 0)` with a
negative `rank` throws `std::length_error`. -/
def contiguous_array (verbose : Bool) (sds : SDS) (endian_name : String) (rank : Int)
    (data_type : Int) (dc : DmrppCommon) : Run DmrppCommon :=
  let map_info : SD_mapping_info_t := ⟨0, none, none, data_type, 0⟩
  if rank < 0 then ⟨[], Outcome.thrown "std::length_error"⟩
  else
    let origin : List Int := List.replicate rank.toNat 0
    Run.bind (read_chunk sds map_info origin) fun r =>
      if r.1 = FAIL then FAIL_ERROR "SDgetedatainfo() failed in read_chunk()."
      else
        let position_in_array : List Nat := List.replicate rank.toNat 0
        ⟨add_blocks_verbose verbose r.2,
          Outcome.returned (add_blocks endian_name r.2 position_in_array dc)⟩

/-- Lines 183-365. `file` is the open HDF4 file, `name` is `btp->name()` and `btp` is the node seen
as a `DmrppCommon` (`none` when the `dynamic_cast` gives null). Returns the `bool` and the node
after the call. The data set is identified by its name, which also stands for the number
`sdsid` in the `VERBOSE` line of line 193. -/
def get_chunks_for_an_array (file : String → SDS) (verbose : Bool) (name : String)
    (btp : Option DmrppCommon) : Run (Bool × Option DmrppCommon) :=
  let sds := file name
  Run.bind ⟨VERBOSE verbose ["Name: " ++ name, "DMR FQN: " ++ name, "sdsid: " ++ name],
      Outcome.returned ()⟩ fun _ =>
  match sds.SDgetinfo with
  | none => FAIL_ERROR "SDgetinfo() failed."
  | some (rank, dimsizes, data_type) =>
  match sds.SDgetchunkinfo with
  | none => FAIL_ERROR "SDgetchunkinfo() failed."
  | some (cdef, chunk_flag) =>
  Run.bind (switch_chunk_flag verbose chunk_flag rank) fun go_on =>
  if go_on = false then Run.ret (false, btp)
  else
  match sds.Hgetntinfo with
  | none => FAIL_ERROR "Hgetntinfo() failed."
  | some byte_order =>
  let endian_name := endian_name_of byte_order
  match sds.SDcheckempty with
  | none => FAIL_ERROR "SDcheckempty() failed."
  | some is_empty =>
  if is_empty ≠ 0 then ⟨VERBOSE verbose ["SDS is empty."], Outcome.returned (false, btp)⟩
  else
  match btp with
  | none => ⟨[], Outcome.thrown "BESInternalError"⟩
  | some dc =>
  if chunk_flag = HDF_CHUNK ∨ chunk_flag = HDF_COMP then
    Run.bind (chunked_array verbose sds endian_name rank dimsizes data_type cdef chunk_flag dc)
      fun dc => Run.ret (true, some dc)
  else if chunk_flag = HDF_NONE then
    Run.bind (contiguous_array verbose sds endian_name rank data_type dc)
      fun dc => Run.ret (true, some dc)
  else FAIL_ERROR "Unknown chunking type."

/-! ## The schema walker -/

/-- The name used for a node in diagnostics (`btp->FQN()`). -/
def BaseType.FQN : BaseType → String
  | BaseType.dods_structure_c name _ => name
  | BaseType.dods_sequence_c name _ => name
  | BaseType.dods_grid_c name => name
  | BaseType.dods_array_c name _ => name
  | BaseType.dods_group_c (D4Group.mk name _ _) => name
  | BaseType.atomic name _ => name

mutual
/-- Lines 367-386. Returns the `bool` and the node after the call. -/
def get_chunks_for_a_variable (file : String → SDS) (verbose : Bool) :
    BaseType → Run (Bool × BaseType)
  | BaseType.dods_structure_c name vars =>
    Run.bind (for_each_member file verbose vars) fun vars =>
      Run.ret (true, BaseType.dods_structure_c name vars)
  | BaseType.dods_sequence_c name vars =>
    ⟨VERBOSE verbose [name ++ ": Sequence is not supported by DMR++ for HDF4 at this time."],
      Outcome.returned (false, BaseType.dods_sequence_c name vars)⟩
  | BaseType.dods_grid_c _ => ⟨[], Outcome.thrown "BESInternalError"⟩
  | BaseType.dods_array_c name dc =>
    Run.bind (get_chunks_for_an_array file verbose name dc) fun r =>
      Run.ret (r.1, BaseType.dods_array_c name r.2)
  | BaseType.dods_group_c (D4Group.mk name vars groups) =>
    ⟨VERBOSE verbose [name ++ ": Group is not supported by DMR++ for HDF4 at this time."],
      Outcome.returned (false, BaseType.dods_group_c (D4Group.mk name vars groups))⟩
  | BaseType.atomic name type_name =>
    ⟨VERBOSE verbose [name ++ ": " ++ type_name ++
        " is not supported by DMR++ for HDF4 at this time."],
      Outcome.returned (false, BaseType.atomic name type_name)⟩
/-- Line 372: `for_each(sp->var_begin(), sp->var_end(), ...)`; the lambda drops the `bool`. -/
def for_each_member (file : String → SDS) (verbose : Bool) : List BaseType → Run (List BaseType)
  | [] => Run.ret []
  | v :: vs =>
    Run.bind (get_chunks_for_a_variable file verbose v) fun r =>
      Run.bind (for_each_member file verbose vs) fun vs => Run.ret (r.2 :: vs)
/-- Lines 395-417. Returns the group after the call. -/
def get_chunks_for_all_variables (file : String → SDS) (verbose : Bool) : D4Group → Run D4Group
  | D4Group.mk name vars groups =>
    Run.bind (for_variables file verbose vars) fun vars =>
      Run.bind (for_groups file verbose groups) fun groups =>
        Run.ret (D4Group.mk name vars groups)
/-- Lines 397-412: the loop over `group->variables()`. -/
def for_variables (file : String → SDS) (verbose : Bool) : List BaseType → Run (List BaseType)
  | [] => Run.ret []
  | btp :: vs =>
    match btp with
    | BaseType.dods_group_c g =>
      Run.bind (get_chunks_for_all_variables file verbose g) fun g =>
        Run.bind (for_variables file verbose vs) fun vs => Run.ret (BaseType.dods_group_c g :: vs)
    | _ =>
      Run.bind (get_chunks_for_a_variable file verbose btp) fun r =>
        Run.bind (if r.1 = false then
            ERROR ("Could not include DMR++ metadata for variable " ++ btp.FQN) ()
          else Run.ret ()) fun _ =>
        Run.bind (for_variables file verbose vs) fun vs => Run.ret (r.2 :: vs)
/-- Lines 414-416: the loop over the child groups. -/
def for_groups (file : String → SDS) (verbose : Bool) : List D4Group → Run (List D4Group)
  | [] => Run.ret []
  | g :: gs =>
    Run.bind (get_chunks_for_all_variables file verbose g) fun g =>
      Run.bind (for_groups file verbose gs) fun gs => Run.ret (g :: gs)
end

/-! ## `add_chunk_information`, `build_dmrpp_from_dmr_file` -/

/-- Lines 424-443. `h4_file` is what `SDstart` finds at `h4_file_name`: `none` when the file
cannot be opened. `root` is `dmrpp->root()`. The `catch (...)` closes the file and rethrows. -/
def add_chunk_information (h4_file : Option (String → SDS)) (verbose : Bool) (root : D4Group) :
    Run D4Group :=
  match h4_file with
  | none => ⟨[], Outcome.thrown "BESNotFoundError"⟩
  | some file =>
    let walk := get_chunks_for_all_variables file verbose root
    match walk.result with
    | Outcome.returned g => ⟨Event.SDstart :: walk.trace ++ [Event.Hclose], Outcome.returned g⟩
    | Outcome.thrown what =>
      ⟨Event.SDstart :: walk.trace ++ [Event.Hclose], Outcome.thrown what⟩
    | Outcome.exited => ⟨Event.SDstart :: walk.trace, Outcome.exited⟩
    | Outcome.undefined => ⟨Event.SDstart :: walk.trace, Outcome.undefined⟩

/-- Lines 638-662. `root` is the root group of the DMR that `parser.intern` read from
`dmr_filename`. The result is the tree that `print_dmrpp` serializes. -/
def build_dmrpp_from_dmr_file (root : D4Group) (h4_file : Option (String → SDS))
    (verbose : Bool) : Run D4Group :=
  Run.bind (add_chunk_information h4_file verbose root) fun g =>
    ⟨[Event.cout_document], Outcome.returned g⟩

/-! ## Where a tree holds a Grid -/

mutual
/-- The variable is a Grid or holds one anywhere below it (in a Structure, a Sequence or a
group). -/
def BaseType.contains_grid : BaseType → Bool
  | BaseType.dods_structure_c _ vars => contains_grid_list vars
  | BaseType.dods_sequence_c _ vars => contains_grid_list vars
  | BaseType.dods_grid_c _ => true
  | BaseType.dods_array_c _ _ => false
  | BaseType.dods_group_c g => D4Group.contains_grid g
  | BaseType.atomic _ _ => false
/-- Some variable of the list contains a Grid. -/
def contains_grid_list : List BaseType → Bool
  | [] => false
  | v :: vs => BaseType.contains_grid v || contains_grid_list vs
/-- The group holds a Grid anywhere in it. -/
def D4Group.contains_grid : D4Group → Bool
  | D4Group.mk _ vars groups => contains_grid_list vars || contains_grid_groups groups
/-- Some group of the list contains a Grid. -/
def contains_grid_groups : List D4Group → Bool
  | [] => false
  | g :: gs => D4Group.contains_grid g || contains_grid_groups gs
end

mutual
/-- The variable, visited by `get_chunks_for_a_variable`, is a Grid or a Structure with a Grid
among the members visited below it. Members of a Sequence are not visited. -/
def BaseType.meets_grid : BaseType → Bool
  | BaseType.dods_structure_c _ vars => members_meet_grid vars
  | BaseType.dods_grid_c _ => true
  | _ => false
/-- Some member of a Structure meets a Grid. -/
def members_meet_grid : List BaseType → Bool
  | [] => false
  | v :: vs => BaseType.meets_grid v || members_meet_grid vs
/-- The walk of the group meets a Grid: among its variables or in a child group. -/
def D4Group.meets_grid : D4Group → Bool
  | D4Group.mk _ vars groups => variables_meet_grid vars || groups_meet_grid groups
/-- Some variable of a group meets a Grid; a group met in the list of variables is walked as a
group. -/
def variables_meet_grid : List BaseType → Bool
  | [] => false
  | btp :: vs =>
    (match btp with
      | BaseType.dods_group_c g => D4Group.meets_grid g
      | _ => BaseType.meets_grid btp) || variables_meet_grid vs
/-- Some child group meets a Grid. -/
def groups_meet_grid : List D4Group → Bool
  | [] => false
  | g :: gs => D4Group.meets_grid g || groups_meet_grid gs
end

/-- The events a walk of the tree can cause: text on `std::cerr` and block-location queries. The
file handle and `std::cout` are not touched by the walk. -/
def walk_events (t : List Event) : Prop :=
  ∀ e ∈ t, e ≠ Event.SDstart ∧ e ≠ Event.Hclose ∧ e ≠ Event.cout_document

/-- The `default` case of the switch in `get_chunks_for_a_variable`: not an Array, Structure,
Sequence, Grid or Group. -/
def BaseType.is_atomic : BaseType → Bool
  | BaseType.atomic _ _ => true
  | _ => false

/-- The diagnostic of line 402 for a variable. -/
def could_not_include (btp : BaseType) : Event :=
  Event.ERROR ("Could not include DMR++ metadata for variable " ++ btp.FQN)

/-! ## Reference definitions, in the words of the specification -/

/-- Spec 4.4, step 1: the step counts `S[i] = D[i] div C[i]`. -/
def step_counts (D C : List Int) : List Nat :=
  List.zipWith (fun d c => d.toNat / c.toNat) D C

/-- Spec 4.4, step 2: the `k`-th coordinate of the box `[0,S[0]) x ... x [0,S[r-1])` in row-major
order, `G_k[i] = (k div product_{j>i} S[j]) mod S[i]`. -/
def grid_coordinate (S : List Nat) (k : Nat) : List Nat :=
  (List.range S.length).map fun i => (k / (S.drop (i + 1)).prod) % S.getD i 0

/-- Spec 4.4, step 3: `position = G[i] * C[i]`, element-wise. -/
def position_of (G : List Nat) (C : List Int) : List Nat :=
  List.zipWith (fun g c => g * c.toNat) G C

/-- Membership in the box `[0,S[0]) x ... x [0,S[r-1])`. -/
def in_box (S : List Nat) (G : List Nat) : Prop :=
  G.length = S.length ∧ ∀ i, i < S.length → G.getD i 0 < S.getD i 0

/-- The chunk lengths the code reads for a chunking flag: `cdef.chunk_lengths` for `HDF_CHUNK`,
`cdef.comp.chunk_lengths` otherwise. -/
def chunk_lengths_for (chunk_flag : Int) (cdef : HDF_CHUNK_DEF) : List Int :=
  if chunk_flag = HDF_CHUNK then cdef.chunk_lengths else cdef.comp_chunk_lengths

/-- The descriptors one coordinate contributes to the catalog: one per block the store returned,
in the store's order, all with the position `pia`. -/
def descriptors_of (endian_name : String) (bs : List Block) (pia : List Nat) : List Chunk :=
  bs.map fun b => ⟨endian_name, wrap_uint64 b.length, wrap_uint64 b.offset, pia⟩

/-- The descriptors contributed by a list of queried coordinates, in order: for each coordinate,
one descriptor per block the store holds there, at the position of that coordinate. -/
def catalog_of (sds : SDS) (endian_name : String) (rank : Int) (cds : List Nat)
    (coordinates : List (List Int)) : List Chunk :=
  coordinates.flatMap fun g =>
    descriptors_of endian_name ((sds.blocks g).getD []) (write_chunk_position_in_array rank cds g)

/-- Spec 8, example: array "temp", dims `[4,4]`, chunk dims `[2,2]`, not compressed, big-endian
elements; the store holds one block of 8 bytes per chunk, at offset `100 * G[0] + G[1]`. -/
def example_temp : SDS :=
  ⟨some (2, [4, 4], 5), some (⟨[2, 2], [2, 2], COMP_CODE_NONE⟩, HDF_CHUNK), some "bigEndian", some 0,
    fun origin => some [⟨origin.getD 0 0 * 100 + origin.getD 1 0, 8⟩]⟩

/-- Spec 8, example: contiguous array "lat", dims `[10]`; the store holds it as two blocks. -/
def example_lat : SDS :=
  ⟨some (1, [10], 5), some (⟨[], [], COMP_CODE_NONE⟩, HDF_NONE), some "littleEndian", some 0,
    fun _ => some [⟨294, 24⟩, ⟨4096, 16⟩]⟩

/-- An array stored with NBIT compression: the store reports the flag `HDF_NBIT`. -/
def example_nbit : SDS :=
  ⟨some (1, [8], 5), some (⟨[4], [4], COMP_CODE_NONE⟩, HDF_NBIT), some "bigEndian", some 0, fun _ => some []⟩

/-- A chunked array to which no data has been written: `SDcheckempty` reports it empty. -/
def example_empty : SDS :=
  ⟨some (1, [8], 5), some (⟨[4], [4], COMP_CODE_NONE⟩, HDF_CHUNK), some "bigEndian", some 1, fun _ => some []⟩

/-- The block-location queries `get_chunks_for_an_array` makes for an array, in order. -/
def array_queries (file : String → SDS) (verbose : Bool) (name : String) (dc : DmrppCommon) :
    List (List Int) :=
  queries_of (get_chunks_for_an_array file verbose name (some dc)).trace

/-- A grid coordinate as the `int` vector passed to the store. -/
def as_origin (G : List Nat) : List Int := G.map fun c : Nat => (c : Int)

/-- A chunked (or chunked and compressed) array as the data model describes it: the store reports
rank `rank > 0`, `rank` dimension sizes `D` that are non-negative `int32` values, chunking flag
`HDF_CHUNK` or `HDF_COMP`, and `rank` chunk lengths `C` that are positive `int32` values. -/
structure ChunkedArray (sds : SDS) (rank : Int) (D : List Int) (data_type : Int)
    (cdef : HDF_CHUNK_DEF) (chunk_flag : Int) (C : List Int) : Prop where
  info : sds.SDgetinfo = some (rank, D, data_type)
  chunkinfo : sds.SDgetchunkinfo = some (cdef, chunk_flag)
  flag : chunk_flag = HDF_CHUNK ∨ chunk_flag = HDF_COMP
  lengths : C = chunk_lengths_for chunk_flag cdef
  rank_pos : 0 < rank
  D_length : D.length = rank.toNat
  C_length : C.length = rank.toNat
  D_range : ∀ d ∈ D, 0 ≤ d ∧ d < 2147483648
  C_range : ∀ c ∈ C, 0 < c ∧ c < 2147483648

/-- A chunked array compressed with run-length encoding: flag `HDF_COMP`, reported
compression type `COMP_CODE_RLE`; dims `[4]`, chunk dims `[2]`, one block per chunk. -/
def example_rle : SDS :=
  ⟨some (1, [4], 5), some (⟨[2], [2], COMP_CODE_RLE⟩, HDF_COMP), some "bigEndian", some 0,
    fun origin => some [⟨origin.getD 0 0 * 16, 16⟩]⟩

/-- The contiguous array "lat" in a file whose block locations cannot be reported. -/
def example_unreadable : SDS :=
  ⟨some (1, [10], 5), some (⟨[], [], COMP_CODE_NONE⟩, HDF_NONE), some "littleEndian", some 0,
    fun _ => none⟩

/-! ## `qc_input_file` -/

/-- What the file system and the HDF4 library answer for the path given to `qc_input_file`.
* `ifstream_fails`: `!file` holds after `std::ifstream file(file_fqn, ios::binary)`;
* `strerror`, `failbit`, `badbit`: the details put into the message of line 476-482;
* `Hishdf`: the value `Hishdf(file_fqn)` returns (1 for an HDF4 file). -/
structure InputFile where
  ifstream_fails : Bool
  strerror : String
  failbit : Bool
  badbit : Bool
  Hishdf : Int
deriving DecidableEq, Repr

/-- The accesses to the file that `qc_input_file` performs, in order. -/
inductive FileAccess where
  | ifstream_open (path : String)
  | Hopen (path : String)
  | Hishdf (path : String)
  | Hclose
deriving DecidableEq, Repr

/-- The three `throw BESInternalFatalError(...)` of `qc_input_file`, named as the specification
names them.
* `MissingPath`: line 468, "HDF4 input file name must be provided ...";
* `Unreadable`: line 483, "Encountered a Read/writing error when attempting to open the file",
  with `strerror(errno)` and the two stream-state flags;
* `WrongFormat`: line 496, "... is not an HDF4 file". -/
inductive QcError where
  | MissingPath
  | Unreadable (strerror : String) (failbit badbit : Bool)
  | WrongFormat
deriving DecidableEq, Repr

/-- Lines 460-498. `disk` gives what is found at a path. Returns the file accesses made and
either the normal return or the fatal error thrown. -/
def qc_input_file (file_fqn : String) (disk : String → InputFile) :
    List FileAccess × Except QcError Unit :=
  if file_fqn = "" then ([], Except.error QcError.MissingPath)
  else if (disk file_fqn).ifstream_fails = true then
    ([FileAccess.ifstream_open file_fqn],
      Except.error (QcError.Unreadable (disk file_fqn).strerror (disk file_fqn).failbit
        (disk file_fqn).badbit))
  else if (disk file_fqn).Hishdf ≠ 1 then
    ([FileAccess.ifstream_open file_fqn, FileAccess.Hopen file_fqn, FileAccess.Hishdf file_fqn,
      FileAccess.Hclose], Except.error QcError.WrongFormat)
  else
    ([FileAccess.ifstream_open file_fqn, FileAccess.Hopen file_fqn, FileAccess.Hishdf file_fqn,
      FileAccess.Hclose], Except.ok ())

/-- The outcome with the returned value passed through `f`; the other ways to end are kept. -/
def Outcome.map {α β : Type} (f : α → β) : Outcome α → Outcome β
  | Outcome.returned a => Outcome.returned (f a)
  | Outcome.exited => Outcome.exited
  | Outcome.thrown what => Outcome.thrown what
  | Outcome.undefined => Outcome.undefined

/-- The store `sds` with `Hgetntinfo` reporting the byte-order descriptor `b`; every other answer
is kept. -/
def SDS.with_byte_order (sds : SDS) (b : String) : SDS :=
  ⟨sds.SDgetinfo, sds.SDgetchunkinfo, some b, sds.SDcheckempty, sds.blocks⟩

/-- The odometer digits `strides` are in range for the step counts `steps`: one digit per
dimension, `0 <= strides[i] < steps[i]`. -/
def strides_in_range (steps strides : List Int) : Prop :=
  strides.length = steps.length ∧
    ∀ i, i < steps.length → 0 ≤ strides.getD i 0 ∧ strides.getD i 0 < steps.getD i 0

/-- The chunk of sizes `C` placed at `position` holds the array element with index `x`:
`position[i] <= x[i] < position[i] + C[i]` in every dimension. -/
def covers (position : List Nat) (C : List Int) (x : List Nat) : Prop :=
  ∀ i, i < position.length →
    position.getD i 0 ≤ x.getD i 0 ∧ ((x.getD i 0 : Nat) : Int) < position.getD i 0 + C.getD i 0

/-- A chunked array whose first dimension is shorter than the chunk: dims `[1,4]`, chunk dims
`[2,2]`. -/
def example_short : SDS :=
  ⟨some (2, [1, 4], 5), some (⟨[2, 2], [2, 2], COMP_CODE_NONE⟩, HDF_CHUNK), some "bigEndian",
    some 0, fun _ => some [⟨0, 8⟩]⟩

/-- A chunked array with a trailing partial chunk: dims `[5]`, chunk dims `[2]`; the store holds
one block of 8 bytes per whole chunk. -/
def example_partial : SDS :=
  ⟨some (1, [5], 5), some (⟨[2], [2], COMP_CODE_NONE⟩, HDF_CHUNK), some "bigEndian", some 0,
    fun origin => some [⟨origin.getD 0 0 * 8, 8⟩]⟩

/-! ## The visiting order of the specification, and the tree after the walk -/

mutual
/-- The nodes the walk processes below a variable, in order: an Array is processed itself, a
Structure through its members in declared order, a Sequence and an atomic variable through
nothing. A Grid is listed as itself: processing it ends the walk. -/
def visit_variable : BaseType → List BaseType
  | BaseType.dods_structure_c _ vars => visit_members vars
  | BaseType.dods_sequence_c _ _ => []
  | BaseType.dods_grid_c name => [BaseType.dods_grid_c name]
  | BaseType.dods_array_c name dc => [BaseType.dods_array_c name dc]
  | BaseType.dods_group_c _ => []
  | BaseType.atomic _ _ => []
/-- The members of a Structure, in declared order, each expanded. -/
def visit_members : List BaseType → List BaseType
  | [] => []
  | v :: vs => visit_variable v ++ visit_members vs
/-- The direct variables of the group in declared order, each expanded, followed by the child
groups in declared order, each completed before the next one. -/
def visit_group : D4Group → List BaseType
  | D4Group.mk _ vars groups => visit_variables vars ++ visit_groups groups
/-- The variables of a group; a group met in the list of variables is visited as a group. -/
def visit_variables : List BaseType → List BaseType
  | [] => []
  | btp :: vs =>
    (match btp with
      | BaseType.dods_group_c g => visit_group g
      | _ => visit_variable btp) ++ visit_variables vs
/-- The child groups, in declared order. -/
def visit_groups : List D4Group → List BaseType
  | [] => []
  | g :: gs => visit_group g ++ visit_groups gs
end

/-- Processing a list of nodes in order: `get_chunks_for_a_variable` on each, until one of the
calls does not return. -/
def process_nodes (file : String → SDS) (verbose : Bool) : List BaseType → Run Unit
  | [] => Run.ret ()
  | v :: vs =>
    Run.bind (get_chunks_for_a_variable file verbose v) fun _ => process_nodes file verbose vs

/-- The events of the first node of the list whose processing does not return; empty when
every node is processed. -/
def abort_trace (file : String → SDS) (verbose : Bool) : List BaseType → List Event
  | [] => []
  | v :: vs =>
    match (get_chunks_for_a_variable file verbose v).result with
    | Outcome.returned _ => abort_trace file verbose vs
    | _ => (get_chunks_for_a_variable file verbose v).trace

/-- The node of an Array after `get_chunks_for_an_array` has returned for it. -/
def array_after (file : String → SDS) (verbose : Bool) (name : String)
    (dc : Option DmrppCommon) : Option DmrppCommon :=
  match (get_chunks_for_an_array file verbose name dc).result with
  | Outcome.returned r => r.2
  | _ => dc

mutual
/-- The variable after a walk that has completed: every Array reached by the walk carries what
its own call recorded; nothing else is changed. -/
def annotate_variable (file : String → SDS) (verbose : Bool) : BaseType → BaseType
  | BaseType.dods_structure_c name vars =>
    BaseType.dods_structure_c name (annotate_members file verbose vars)
  | BaseType.dods_sequence_c name vars => BaseType.dods_sequence_c name vars
  | BaseType.dods_grid_c name => BaseType.dods_grid_c name
  | BaseType.dods_array_c name dc =>
    BaseType.dods_array_c name (array_after file verbose name dc)
  | BaseType.dods_group_c g => BaseType.dods_group_c g
  | BaseType.atomic name type_name => BaseType.atomic name type_name
/-- The members of a Structure after the walk. -/
def annotate_members (file : String → SDS) (verbose : Bool) : List BaseType → List BaseType
  | [] => []
  | v :: vs => annotate_variable file verbose v :: annotate_members file verbose vs
/-- The group after the walk. -/
def annotate_group (file : String → SDS) (verbose : Bool) : D4Group → D4Group
  | D4Group.mk name vars groups =>
    D4Group.mk name (annotate_variables file verbose vars) (annotate_groups file verbose groups)
/-- The variables of a group after the walk. -/
def annotate_variables (file : String → SDS) (verbose : Bool) : List BaseType → List BaseType
  | [] => []
  | btp :: vs =>
    (match btp with
      | BaseType.dods_group_c g => BaseType.dods_group_c (annotate_group file verbose g)
      | _ => annotate_variable file verbose btp) :: annotate_variables file verbose vs
/-- The child groups after the walk. -/
def annotate_groups (file : String → SDS) (verbose : Bool) : List D4Group → List D4Group
  | [] => []
  | g :: gs => annotate_group file verbose g :: annotate_groups file verbose gs
end

mutual
/-- The variable with every variable named `n` removed from the member lists below it. -/
def remove_in_variable (n : String) : BaseType → BaseType
  | BaseType.dods_structure_c name vars =>
    BaseType.dods_structure_c name (remove_members n vars)
  | BaseType.dods_sequence_c name vars =>
    BaseType.dods_sequence_c name (remove_members n vars)
  | BaseType.dods_grid_c name => BaseType.dods_grid_c name
  | BaseType.dods_array_c name dc => BaseType.dods_array_c name dc
  | BaseType.dods_group_c g => BaseType.dods_group_c g
  | BaseType.atomic name type_name => BaseType.atomic name type_name
/-- The members of a Structure without the variables named `n`, at any depth. -/
def remove_members (n : String) : List BaseType → List BaseType
  | [] => []
  | v :: vs =>
    if v.FQN = n then remove_members n vs
    else remove_in_variable n v :: remove_members n vs
/-- The group without the variables named `n`, at any depth. -/
def remove_group (n : String) : D4Group → D4Group
  | D4Group.mk name vars groups =>
    D4Group.mk name (remove_variables n vars) (remove_groups n groups)
/-- The variables of a group without those named `n`, at any depth. -/
def remove_variables (n : String) : List BaseType → List BaseType
  | [] => []
  | btp :: vs =>
    if btp.FQN = n then remove_variables n vs
    else
      (match btp with
        | BaseType.dods_group_c g => BaseType.dods_group_c (remove_group n g)
        | _ => remove_in_variable n btp) :: remove_variables n vs
/-- The child groups, each without the variables named `n`. -/
def remove_groups (n : String) : List D4Group → List D4Group
  | [] => []
  | g :: gs => remove_group n g :: remove_groups n gs
end

/-- The run `w` of a part of the walk follows the processing `p` of the nodes `l` that the
specification lists for that part: the same block-location queries in the same order, the same
way of ending, every event of `p` in `w` in the same order, the events of the node that ended
the processing at the end of `w`, and a returned value that satisfies `ok`. -/
def Follows {α : Type} (file : String → SDS) (verbose : Bool) (w : Run α) (l : List BaseType)
    (ok : α → Prop) : Prop :=
  queries_of w.trace = queries_of (process_nodes file verbose l).trace ∧
  w.result.map (fun _ => ()) = (process_nodes file verbose l).result ∧
  List.Sublist (process_nodes file verbose l).trace w.trace ∧
  List.IsSuffix (abort_trace file verbose l) w.trace ∧
  ∀ a, w.result = Outcome.returned a → ok a

/-- An Array served by the store and of the data model: the node is catalog-capable, every
store query about it succeeds, a contiguous array has a rank `>= 0`, and a chunked array of rank
`> 0` has no chunk size zero. -/
structure ServedArray (sds : SDS) (btp : Option DmrppCommon) : Prop where
  capable : btp ≠ none
  getinfo : sds.SDgetinfo ≠ none
  getchunkinfo : sds.SDgetchunkinfo ≠ none
  getntinfo : sds.Hgetntinfo ≠ none
  checkempty : sds.SDcheckempty ≠ none
  blocks : ∀ g, sds.blocks g ≠ none
  rank_nonneg : ∀ rank D data_type cdef, sds.SDgetinfo = some (rank, D, data_type) →
    sds.SDgetchunkinfo = some (cdef, HDF_NONE) → 0 ≤ rank
  chunk_sizes : ∀ rank D data_type cdef chunk_flag, sds.SDgetinfo = some (rank, D, data_type) →
    sds.SDgetchunkinfo = some (cdef, chunk_flag) →
    chunk_flag = HDF_CHUNK ∨ chunk_flag = HDF_COMP → 0 < rank →
    ∀ c ∈ read_chunk_dimension_sizes rank chunk_flag cdef, c ≠ 0

/-- The node is a Grid. -/
def BaseType.is_grid : BaseType → Bool
  | BaseType.dods_grid_c _ => true
  | _ => false

/-- The node is an Array. -/
def BaseType.is_array : BaseType → Bool
  | BaseType.dods_array_c _ _ => true
  | _ => false

/-- The run ends the process at the first block-location query the store `sds` fails: if it
made a query at `g` and the store cannot report the blocks at `g`, then the run ended in
`exit(1)` and its last two events are that query and the error text of `FAIL_ERROR`. -/
def exits_at_failed_query {α : Type} (sds : SDS) (r : Run α) : Prop :=
  ∀ g ∈ queries_of r.trace, sds.blocks g = none →
    r.result = Outcome.exited ∧
    ∃ t, r.trace = t ++
      [Event.query g, Event.ERROR "SDgetedatainfo() failed in read_chunk()."]

/-- A chunked array whose second chunk holds no block: dims `[6]`, chunk dims `[2]`; the store
holds two blocks at coordinate 0, none at coordinate 1 and one at coordinate 2. -/
def example_sparse : SDS :=
  ⟨some (1, [6], 5), some (⟨[2], [2], COMP_CODE_NONE⟩, HDF_CHUNK), some "bigEndian", some 0,
    fun origin =>
      if origin.getD 0 0 = 0 then some [⟨0, 8⟩, ⟨8, 8⟩]
      else if origin.getD 0 0 = 1 then some []
      else some [⟨100, 8⟩]⟩

/-- A contiguous array for which the store reports the rank `-1`: every store query succeeds and
the array is not empty. -/
def example_negative_rank : SDS :=
  ⟨some (-1, [], 5), some (⟨[], [], COMP_CODE_NONE⟩, HDF_NONE), some "bigEndian", some 0,
    fun _ => some [⟨0, 8⟩]⟩

/-- A chunked array of rank 1, dims `[4]`, for which the store reports the chunk size `0`: every
store query succeeds and the array is not empty. -/
def example_zero_chunk : SDS :=
  ⟨some (1, [4], 5), some (⟨[0], [0], COMP_CODE_NONE⟩, HDF_CHUNK), some "bigEndian", some 0,
    fun _ => some [⟨0, 8⟩]⟩

/-! ## Machine arithmetic -/

theorem wrap_int32_of_range {x : Int} (h0 : -2147483648 ≤ x) (h1 : x < 2147483648) :
    wrap_int32 x = x := by
  unfold wrap_int32; omega

theorem wrap_int32_range (x : Int) : -2147483648 ≤ wrap_int32 x ∧ wrap_int32 x < 2147483648 := by
  unfold wrap_int32; omega

theorem wrap_int32_eq_sub (x : Int) : ∃ q : Int, wrap_int32 x = x - 4294967296 * q :=
  ⟨(x + 2147483648) / 4294967296, by unfold wrap_int32; omega⟩

theorem wrap_int32_sub_mul (x t : Int) : wrap_int32 (x - 4294967296 * t) = wrap_int32 x := by
  unfold wrap_int32; omega

theorem wrap_int32_mul_left (a b : Int) : wrap_int32 (wrap_int32 a * b) = wrap_int32 (a * b) := by
  obtain ⟨q, hq⟩ := wrap_int32_eq_sub a
  have : wrap_int32 a * b = a * b - 4294967296 * (q * b) := by rw [hq]; ring
  rw [this, wrap_int32_sub_mul]

theorem wrap_int32_mul_right (a b : Int) : wrap_int32 (a * wrap_int32 b) = wrap_int32 (a * b) := by
  rw [mul_comm, wrap_int32_mul_left, mul_comm]

theorem wrap_int32_eq_zero_iff (x : Int) : wrap_int32 x = 0 ↔ (4294967296 : Int) ∣ x := by
  unfold wrap_int32; omega

theorem wrap_uint64_of_nat {n : Nat} (h : n < 18446744073709551616) :
    wrap_uint64 (n : Int) = n := by
  unfold wrap_uint64; omega

theorem wrap_uint64_of_range {x : Int} (h0 : 0 ≤ x) (h1 : x < 18446744073709551616) :
    wrap_uint64 x = x.toNat := by
  unfold wrap_uint64; omega

/-! ## The grid coordinates of the specification -/

theorem grid_coordinate_length (S : List Nat) (k : Nat) : (grid_coordinate S k).length = S.length := by
  simp [grid_coordinate]

theorem grid_coordinate_getD (S : List Nat) (k i : Nat) (h : i < S.length) :
    (grid_coordinate S k).getD i 0 = (k / (S.drop (i + 1)).prod) % S.getD i 0 := by
  simp [grid_coordinate, List.getD_eq_getElem?_getD, List.getElem?_map, List.getElem?_range h]

theorem grid_coordinate_cons (s : Nat) (rest : List Nat) (k : Nat) :
    grid_coordinate (s :: rest) k = (k / rest.prod) % s :: grid_coordinate rest k := by
  simp [grid_coordinate, List.range_succ_eq_map]

theorem grid_coordinate_mod (S : List Nat) (k : Nat) :
    grid_coordinate S (k % S.prod) = grid_coordinate S k := by
  induction S generalizing k with
  | nil => simp [grid_coordinate]
  | cons s rest ih =>
    rw [grid_coordinate_cons, grid_coordinate_cons, List.prod_cons]
    congr 1
    · rw [Nat.mod_mul_left_div_self, Nat.mod_mod]
    · rw [← ih (k % (s * rest.prod)), ← ih k, Nat.mod_mod_of_dvd _ (Dvd.intro_left s rfl)]

theorem grid_coordinate_injOn (S : List Nat) (k k' : Nat) (hk : k < S.prod) (hk' : k' < S.prod)
    (h : grid_coordinate S k = grid_coordinate S k') : k = k' := by
  induction S generalizing k k' with
  | nil => simp at hk hk'; omega
  | cons s rest ih =>
    rw [grid_coordinate_cons, grid_coordinate_cons] at h
    rw [List.prod_cons] at hk hk'
    injection h with h1 h2
    have hP : 0 < rest.prod := by
      rcases Nat.eq_zero_or_pos rest.prod with h0 | h0
      · rw [h0] at hk; simp at hk
      · exact h0
    have hq : k / rest.prod < s := by
      rw [Nat.div_lt_iff_lt_mul hP]; exact hk
    have hq' : k' / rest.prod < s := by
      rw [Nat.div_lt_iff_lt_mul hP]; exact hk'
    rw [Nat.mod_eq_of_lt hq, Nat.mod_eq_of_lt hq'] at h1
    have h3 : k % rest.prod = k' % rest.prod := by
      apply ih _ _ (Nat.mod_lt _ hP) (Nat.mod_lt _ hP)
      rw [grid_coordinate_mod, grid_coordinate_mod]; exact h2
    rw [← Nat.div_add_mod k rest.prod, ← Nat.div_add_mod k' rest.prod, h1, h3]

theorem grid_coordinate_in_box (S : List Nat) (k : Nat) (hS : ∀ s ∈ S, 0 < s) :
    in_box S (grid_coordinate S k) := by
  refine ⟨grid_coordinate_length S k, fun i hi => ?_⟩
  rw [grid_coordinate_getD S k i hi]
  apply Nat.mod_lt
  rw [List.getD_eq_getElem _ _ hi]
  exact hS _ (List.getElem_mem _)

theorem grid_coordinate_surj (S : List Nat) (G : List Nat) (h : in_box S G) :
    ∃ k, k < S.prod ∧ grid_coordinate S k = G := by
  induction S generalizing G with
  | nil =>
    obtain ⟨hl, -⟩ := h
    simp at hl
    exact ⟨0, by simp, by simp [grid_coordinate, hl]⟩
  | cons s rest ih =>
    obtain ⟨hl, hb⟩ := h
    cases G with
    | nil => simp at hl
    | cons a G' =>
      have ha : a < s := by simpa using hb 0 (by simp)
      have hG' : in_box rest G' := by
        refine ⟨by simpa using hl, fun i hi => ?_⟩
        simpa using hb (i + 1) (by simpa using hi)
      obtain ⟨e, he, hge⟩ := ih G' hG'
      refine ⟨a * rest.prod + e, ?_, ?_⟩
      · rw [List.prod_cons]
        calc a * rest.prod + e < a * rest.prod + rest.prod := by omega
          _ = (a + 1) * rest.prod := by ring
          _ ≤ s * rest.prod := Nat.mul_le_mul_right _ ha
      · rw [grid_coordinate_cons]
        have hP : 0 < rest.prod := by omega
        congr 1
        · rw [Nat.add_comm, Nat.add_mul_div_right _ _ hP, Nat.div_eq_of_lt he, Nat.zero_add,
            Nat.mod_eq_of_lt ha]
        · rw [← grid_coordinate_mod, Nat.add_comm, Nat.add_mul_mod_self_right, Nat.mod_eq_of_lt he]
          exact hge

/-! ## The odometer update computes the next grid coordinate -/

theorem prod_pos_of_pos (S : List Nat) (hS : ∀ s ∈ S, 0 < s) : 0 < S.prod := by
  induction S with
  | nil => simp
  | cons s rest ih =>
    rw [List.prod_cons]
    exact Nat.mul_pos (hS s (by simp)) (ih fun t ht => hS t (by simp [ht]))

theorem prod_drop_le (S : List Nat) (hS : ∀ s ∈ S, 0 < s) (n : Nat) :
    0 < (S.drop n).prod ∧ (S.drop n).prod ≤ S.prod := by
  have h1 : 0 < (S.drop n).prod :=
    prod_pos_of_pos _ fun s hs => hS s (List.mem_of_mem_drop hs)
  refine ⟨h1, Nat.le_of_dvd (prod_pos_of_pos S hS) ?_⟩
  exact Dvd.intro_left _ (List.prod_take_mul_prod_drop S n)

theorem prod_drop_succ (S : List Nat) (i : Nat) (hi : i < S.length) :
    (S.drop i).prod = S.getD i 0 * (S.drop (i + 1)).prod := by
  rw [List.drop_eq_getElem_cons hi, List.prod_cons, List.getD_eq_getElem _ _ hi]

theorem getD_map_cast (l : List Nat) (i : Nat) :
    (l.map (fun n : Nat => (n : Int))).getD i 0 = ((l.getD i 0 : Nat) : Int) := by
  simp [List.getD_eq_getElem?_getD, List.getElem?_map]
  cases l[i]? <;> simp

theorem list_ext_getD (a b : List Nat) (hl : a.length = b.length)
    (h : ∀ j, j < b.length → a.getD j 0 = b.getD j 0) : a = b := by
  apply List.ext_getElem hl
  intro j h1 h2
  have := h j h2
  rwa [List.getD_eq_getElem _ _ h1, List.getD_eq_getElem _ _ h2] at this

theorem increase_strides_invariant (S : List Nat) (k : Nat) (hS : ∀ s ∈ S, 0 < s)
    (htotal : S.prod < 2147483648) (n : Nat) :
    ∀ cur : List Nat, n ≤ S.length → cur.length = S.length →
      (∀ j, j < n → cur.getD j 0 = (grid_coordinate S k).getD j 0) →
      (∀ j, n ≤ j → j < S.length → cur.getD j 0 = (grid_coordinate S (k + 1)).getD j 0) →
      increase_strides (k : Int) (S.map fun s : Nat => (s : Int)) n (((S.drop n).prod : Nat) : Int)
          (cur.map fun c : Nat => (c : Int))
        = some ((grid_coordinate S (k + 1)).map fun c : Nat => (c : Int)) := by
  induction n with
  | zero =>
    intro cur _ hlen _ hhi
    simp only [increase_strides]
    congr 2
    apply list_ext_getD _ _ (by rw [hlen, grid_coordinate_length])
    intro j hj
    rw [grid_coordinate_length] at hj
    exact hhi j (Nat.zero_le _) hj
  | succ i ih =>
    intro cur hn hlen hlo hhi
    have hi : i < S.length := hn
    obtain ⟨hP0, hPle⟩ := prod_drop_le S hS (i + 1)
    obtain ⟨-, hQle⟩ := prod_drop_le S hS i
    have hsi : 0 < S.getD i 0 := by
      rw [List.getD_eq_getElem _ _ hi]; exact hS _ (List.getElem_mem _)
    have hQ := prod_drop_succ S i hi
    have hsle : S.getD i 0 ≤ S.prod := by
      calc S.getD i 0 ≤ S.getD i 0 * (S.drop (i + 1)).prod := Nat.le_mul_of_pos_right _ hP0
        _ ≤ S.prod := by rw [← hQ]; exact hQle
    have hci : cur.getD i 0 = k / (S.drop (i + 1)).prod % S.getD i 0 := by
      rw [hlo i (Nat.lt_succ_self i), grid_coordinate_getD S k i hi]
    have hclt : cur.getD i 0 < S.getD i 0 := by rw [hci]; exact Nat.mod_lt _ hsi
    have hscale : wrap_int32 ((((S.drop (i + 1)).prod : Nat) : Int) * ((S.getD i 0 : Nat) : Int))
        = (((S.drop i).prod : Nat) : Int) := by
      rw [hQ, wrap_int32_of_range] <;> push_cast <;> [ring; skip; skip]
      · have : (0:Int) ≤ ((S.getD i 0 : Nat) : Int) * (((S.drop (i + 1)).prod : Nat) : Int) := by positivity
        nlinarith
      · have h := hQle; rw [hQ] at h
        have : ((S.getD i 0 * (S.drop (i + 1)).prod : Nat) : Int) < 2147483648 := by omega
        push_cast at this; linarith
    rw [increase_strides]
    rw [if_neg (by omega)]
    rw [getD_map_cast, getD_map_cast, hscale]
    have htm : ((k : Int) + 1).tmod (((S.drop (i + 1)).prod : Nat) : Int) = 0 ↔
        (S.drop (i + 1)).prod ∣ k + 1 := by
      rw [Int.tmod_eq_emod (by omega) (by omega), ← Int.dvd_iff_emod_eq_zero]
      exact_mod_cast Iff.rfl
    have hnext : (grid_coordinate S (k + 1)).getD i 0 =
        (k / (S.drop (i + 1)).prod + if (S.drop (i + 1)).prod ∣ k + 1 then 1 else 0) % S.getD i 0 := by
      rw [grid_coordinate_getD S (k + 1) i hi, Nat.succ_div]
    by_cases hd : (S.drop (i + 1)).prod ∣ k + 1
    · rw [if_pos (htm.2 hd), if_neg (by omega)]
      rw [if_pos hd] at hnext
      have hv : (wrap_int32 (((cur.getD i 0 : Nat) : Int) + 1)).tmod ((S.getD i 0 : Nat) : Int)
          = (((cur.getD i 0 + 1) % S.getD i 0 : Nat) : Int) := by
        rw [wrap_int32_of_range (by omega) (by omega), Int.tmod_eq_emod (by omega) (by omega)]
        push_cast
        rfl
      rw [hv]
      have hset : (cur.map fun c : Nat => (c : Int)).set i (((cur.getD i 0 + 1) % S.getD i 0 : Nat) : Int)
          = (cur.set i ((cur.getD i 0 + 1) % S.getD i 0)).map fun c : Nat => (c : Int) := by
        rw [List.map_set]
      rw [hset]
      apply ih _ (Nat.le_of_lt hi) (by simp [hlen])
      · intro j hj
        rw [List.getD_eq_getElem?_getD, List.getElem?_set_ne (by omega), ← List.getD_eq_getElem?_getD]
        exact hlo j (by omega)
      · intro j hij hj
        rcases Nat.eq_or_lt_of_le hij with h | h
        · subst h
          rw [List.getD_eq_getElem?_getD, List.getElem?_set_self (by omega)]
          simp only [Option.getD_some]
          rw [hnext, hci, Nat.mod_add_mod]
        · rw [List.getD_eq_getElem?_getD, List.getElem?_set_ne (by omega), ← List.getD_eq_getElem?_getD]
          exact hhi j h hj
    · rw [if_neg (fun h => hd (htm.1 h))]
      rw [if_neg hd] at hnext
      apply ih _ (Nat.le_of_lt hi) hlen
      · intro j hj; exact hlo j (by omega)
      · intro j hij hj
        rcases Nat.eq_or_lt_of_le hij with h | h
        · subst h
          rw [hnext, hci]; simp
        · exact hhi j h hj

/-! ## The step counts and the number of chunks -/

/-- The value line 297 stores in `steps[i]`. -/
theorem steps_loop_eq (D : List Int) (cds : List Nat) (n : Nat)
    (h : ∀ i, i < n → cds.getD i 0 ≠ 0) :
    steps_loop D cds n =
      some ((List.range n).map (fun i =>
          wrap_int32 ((wrap_uint64 (D.getD i 0) / cds.getD i 0 : Nat) : Int)),
        wrap_int32 ((List.range n).map (fun i =>
          wrap_int32 ((wrap_uint64 (D.getD i 0) / cds.getD i 0 : Nat) : Int))).prod) := by
  induction n with
  | zero =>
    rw [steps_loop]
    simp only [List.range_zero, List.map_nil, List.prod_nil]
    rw [wrap_int32_of_range (by omega) (by omega)]
  | succ i ih =>
    rw [steps_loop, ih fun j hj => h j (Nat.lt_succ_of_lt hj)]
    simp only [if_neg (h i (Nat.lt_succ_self i))]
    rw [List.range_succ, List.map_append, List.prod_append, wrap_int32_mul_left]
    rw [List.map_singleton, List.prod_singleton]

theorem steps_loop_none (D : List Int) (cds : List Nat) (n i : Nat) (hi : i < n)
    (h : cds.getD i 0 = 0) : steps_loop D cds n = none := by
  induction n with
  | zero => omega
  | succ m ih =>
    rw [steps_loop]
    rcases Nat.eq_or_lt_of_le (Nat.le_of_lt_succ hi) with h1 | h1
    · subst h1
      cases steps_loop D cds i with
      | none => rfl
      | some p => simp only [h, if_true]
    · rw [ih h1]

theorem int_prod_drop_succ (steps : List Int) (i : Nat) (hi : i < steps.length) :
    (steps.drop i).prod = steps.getD i 0 * (steps.drop (i + 1)).prod := by
  rw [List.drop_eq_getElem_cons hi, List.prod_cons, List.getD_eq_getElem _ _ hi]

/-- Whenever the loop body runs (`number_of_chunks` is not zero), the odometer update executes no
remainder by zero. -/
theorem increase_strides_isSome (k : Int) (steps : List Int)
    (hnum : wrap_int32 steps.prod ≠ 0) (n : Nat) :
    ∀ strides : List Int, n ≤ steps.length →
      ∃ next, increase_strides k steps n (wrap_int32 (steps.drop n).prod) strides = some next := by
  induction n with
  | zero => intro strides _; exact ⟨strides, rfl⟩
  | succ i ih =>
    intro strides hn
    have hi : i < steps.length := hn
    have hsplit : steps.prod = (steps.take (i + 1)).prod * (steps.drop (i + 1)).prod :=
      (List.prod_take_mul_prod_drop steps (i + 1)).symm
    have hscale : wrap_int32 (steps.drop (i + 1)).prod ≠ 0 := by
      intro h0
      apply hnum
      rw [wrap_int32_eq_zero_iff] at h0 ⊢
      rw [hsplit]
      exact Dvd.dvd.mul_left h0 _
    have hstep : steps.getD i 0 ≠ 0 := by
      intro h0
      apply hnum
      have : steps.prod = 0 := by
        rw [← List.prod_take_mul_prod_drop steps i, int_prod_drop_succ steps i hi, h0]
        ring
      rw [this]; rfl
    have hnext : wrap_int32 (wrap_int32 (steps.drop (i + 1)).prod * steps.getD i 0)
        = wrap_int32 (steps.drop i).prod := by
      rw [wrap_int32_mul_left, int_prod_drop_succ steps i hi, mul_comm]
    rw [increase_strides, if_neg hscale, hnext]
    by_cases hd : (k + 1).tmod (wrap_int32 (steps.drop (i + 1)).prod) = 0
    · rw [if_pos hd, if_neg hstep]
      exact ih _ (Nat.le_of_lt hi)
    · rw [if_neg hd]
      exact ih _ (Nat.le_of_lt hi)

theorem increase_strides_start (k : Int) (steps : List Int) (hnum : wrap_int32 steps.prod ≠ 0)
    (strides : List Int) :
    ∃ next, increase_strides k steps steps.length 1 strides = some next := by
  have h := increase_strides_isSome k steps hnum steps.length strides (Nat.le_refl _)
  simpa [wrap_int32] using h

/-- The odometer update, started with `scale = 1` at the coordinate of chunk `k`, yields the
coordinate of chunk `k + 1`. -/
theorem increase_strides_grid (S : List Nat) (k : Nat) (hS : ∀ s ∈ S, 0 < s)
    (htotal : S.prod < 2147483648) :
    increase_strides (k : Int) (S.map fun s : Nat => (s : Int)) S.length 1
        ((grid_coordinate S k).map fun c : Nat => (c : Int))
      = some ((grid_coordinate S (k + 1)).map fun c : Nat => (c : Int)) := by
  have h := increase_strides_invariant S k hS htotal S.length (grid_coordinate S k)
    (Nat.le_refl _) (grid_coordinate_length S k) (fun _ _ => rfl)
    (fun j h1 h2 => absurd h2 (Nat.not_lt.mpr h1))
  simpa using h

/-! ## Traces -/

theorem queries_of_append (a b : List Event) :
    queries_of (a ++ b) = queries_of a ++ queries_of b := by
  simp [queries_of, List.filterMap_append]

theorem cerr_of_append (a b : List Event) : cerr_of (a ++ b) = cerr_of a ++ cerr_of b := by
  simp [cerr_of, List.filterMap_append]

theorem queries_of_nil : queries_of [] = [] := rfl

theorem queries_of_cons_query (o : List Int) (t : List Event) :
    queries_of (Event.query o :: t) = o :: queries_of t := rfl

theorem queries_of_cons_ERROR (x : String) (t : List Event) :
    queries_of (Event.ERROR x :: t) = queries_of t := rfl

theorem catalog_of_nil (sds : SDS) (e : String) (rank : Int) (cds : List Nat) :
    catalog_of sds e rank cds [] = [] := rfl

theorem catalog_of_cons (sds : SDS) (e : String) (rank : Int) (cds : List Nat) (g : List Int)
    (gs : List (List Int)) :
    catalog_of sds e rank cds (g :: gs) =
      descriptors_of e ((sds.blocks g).getD []) (write_chunk_position_in_array rank cds g) ++
        catalog_of sds e rank cds gs := by
  simp [catalog_of, List.flatMap_cons]

theorem cerr_of_nil : cerr_of [] = [] := rfl

theorem cerr_of_cons_query (o : List Int) (t : List Event) :
    cerr_of (Event.query o :: t) = cerr_of t := rfl

theorem cerr_of_cons_ERROR (x : String) (t : List Event) :
    cerr_of (Event.ERROR x :: t) = x :: cerr_of t := rfl

theorem queries_of_VERBOSE (verbose : Bool) (lines : List String) :
    queries_of (VERBOSE verbose lines) = [] := by
  unfold VERBOSE queries_of
  cases verbose
  · simp
  · simp only [if_true]
    induction lines with
    | nil => rfl
    | cons l ls ih => simp [List.filterMap_cons]

theorem cerr_of_VERBOSE_false (lines : List String) : cerr_of (VERBOSE false lines) = [] := by
  simp [VERBOSE, cerr_of]

theorem cerr_of_add_blocks_verbose_false (map_info : SD_mapping_info_t) :
    cerr_of (add_blocks_verbose false map_info) = [] :=
  cerr_of_VERBOSE_false _

theorem queries_of_add_blocks_verbose (verbose : Bool) (map_info : SD_mapping_info_t) :
    queries_of (add_blocks_verbose verbose map_info) = [] :=
  queries_of_VERBOSE _ _

theorem cerr_of_chunk_blocks_verbose_false (k : Int) (map_info : SD_mapping_info_t) :
    cerr_of (chunk_blocks_verbose false k map_info) = [] :=
  cerr_of_VERBOSE_false _

theorem queries_of_chunk_blocks_verbose (verbose : Bool) (k : Int)
    (map_info : SD_mapping_info_t) :
    queries_of (chunk_blocks_verbose verbose k map_info) = [] :=
  queries_of_VERBOSE _ _

/-! ## `read_chunk` and the blocks it leaves in `map_info` -/

theorem read_chunk_none (sds : SDS) (map_info : SD_mapping_info_t) (origin : List Int)
    (h : sds.blocks origin = none) :
    read_chunk sds map_info origin =
      ⟨[Event.query origin, Event.ERROR "SDgetedatainfo() failed in read_chunk()."],
        Outcome.exited⟩ := by
  simp [read_chunk, SDgetdatainfo, h, FAIL]

theorem read_chunk_some (sds : SDS) (map_info : SD_mapping_info_t) (origin : List Int)
    (bs : List Block) (h : sds.blocks origin = some bs) :
    ∃ ret map_info1, read_chunk sds map_info origin =
        ⟨[Event.query origin], Outcome.returned (ret, map_info1)⟩ ∧ ret ≠ FAIL ∧
      map_info1.nblocks = (bs.length : Int) ∧
      map_info1.offsets.getD [] = bs.map Block.offset ∧
      map_info1.lengths.getD [] = bs.map Block.length := by
  by_cases hb : bs.length = 0
  · have hnil : bs = [] := List.length_eq_zero.mp hb
    subst hnil
    refine ⟨SUCCEED, SDfree_mapping_info map_info, ?_, ?_, ?_, ?_, ?_⟩ <;>
      simp [read_chunk, SDgetdatainfo, h, FAIL, SUCCEED, SDfree_mapping_info]
  · have hpos : (0 : Int) < (bs.length : Int) := by omega
    have hne : ¬ ((bs.length : Int) = 0) := by omega
    have hF : ¬ ((bs.length : Int) = FAIL) := by unfold FAIL; omega
    refine ⟨(bs.length : Int), { SDfree_mapping_info map_info with
        nblocks := (bs.length : Int), offsets := some (bs.map Block.offset),
        lengths := some (bs.map Block.length) }, ?_, hF, rfl, rfl, rfl⟩
    simp only [read_chunk, SDgetdatainfo, h, if_true, if_neg hF, if_pos hpos, if_neg hne,
      Int.toNat_ofNat, List.take_length]

theorem foldl_add_chunk (e : String) (L O : List Int) (pia : List Nat) (l : List Nat) :
    ∀ dc : DmrppCommon,
      l.foldl (fun dc i => dc.add_chunk e (L.getD i 0) (O.getD i 0) pia) dc =
        { dc with chunks := dc.chunks ++ l.map fun i =>
            (⟨e, wrap_uint64 (L.getD i 0), wrap_uint64 (O.getD i 0), pia⟩ : Chunk) } := by
  induction l with
  | nil => intro dc; simp
  | cons i is ih =>
    intro dc
    rw [List.foldl_cons, ih]
    simp [DmrppCommon.add_chunk]

theorem map_range_getD (bs : List Block) (e : String) (pia : List Nat) :
    ((List.range bs.length).map fun i =>
        (⟨e, wrap_uint64 ((bs.map Block.length).getD i 0),
          wrap_uint64 ((bs.map Block.offset).getD i 0), pia⟩ : Chunk))
      = descriptors_of e bs pia := by
  apply List.ext_getElem
  · simp [descriptors_of]
  · intro i h1 h2
    have hi : i < bs.length := by simpa using h1
    simp [descriptors_of, List.getD_eq_getElem?_getD, List.getElem?_map,
      List.getElem?_eq_getElem hi]

/-- After a successful `read_chunk` at a coordinate where the store holds the blocks `bs`, the
block loop appends exactly the descriptors of `bs`. -/
theorem add_blocks_eq (e : String) (map_info : SD_mapping_info_t) (pia : List Nat)
    (dc : DmrppCommon) (bs : List Block) (hn : map_info.nblocks = (bs.length : Int))
    (ho : map_info.offsets.getD [] = bs.map Block.offset)
    (hl : map_info.lengths.getD [] = bs.map Block.length) :
    add_blocks e map_info pia dc = { dc with chunks := dc.chunks ++ descriptors_of e bs pia } := by
  unfold add_blocks
  rw [foldl_add_chunk, hn, ho, hl, Int.toNat_ofNat, map_range_getD]

/-! ## One iteration of the enumeration loop -/

theorem bind_mk_returned {α β : Type} (t : List Event) (a : α) (f : α → Run β) :
    Run.bind ⟨t, Outcome.returned a⟩ f = ⟨t ++ (f a).trace, (f a).result⟩ := rfl

theorem chunk_loop_zero (verbose : Bool) (sds : SDS) (e : String) (rank : Int)
    (cds : List Nat) (steps : List Int) (k : Int) (map_info : SD_mapping_info_t)
    (strides : List Int) (dc : DmrppCommon) :
    chunk_loop verbose sds e rank cds steps 0 k map_info strides dc = ⟨[], Outcome.returned dc⟩ :=
  rfl

/-- An iteration whose query the store cannot answer ends the process. -/
theorem chunk_loop_succ_none (verbose : Bool) (sds : SDS) (e : String) (rank : Int)
    (cds : List Nat) (steps : List Int) (n : Nat) (k : Int) (map_info : SD_mapping_info_t)
    (strides : List Int) (dc : DmrppCommon) (h : sds.blocks strides = none) :
    chunk_loop verbose sds e rank cds steps (n + 1) k map_info strides dc =
      ⟨[Event.query strides, Event.ERROR "SDgetedatainfo() failed in read_chunk()."],
        Outcome.exited⟩ := by
  rw [chunk_loop, read_chunk_none sds map_info strides h]
  rfl

/-- An iteration whose query the store answers with the blocks `bs`: the descriptors of `bs` are
appended, then the odometer is advanced and the loop goes on with chunk `k + 1`. -/
theorem chunk_loop_succ_some (verbose : Bool) (sds : SDS) (e : String) (rank : Int)
    (cds : List Nat) (steps : List Int) (n : Nat) (k : Int) (map_info : SD_mapping_info_t)
    (strides : List Int) (dc : DmrppCommon) (bs : List Block) (h : sds.blocks strides = some bs) :
    ∃ map_info1 : SD_mapping_info_t,
      chunk_loop verbose sds e rank cds steps (n + 1) k map_info strides dc =
        match increase_strides k steps rank.toNat 1 strides with
        | none =>
          ⟨Event.query strides :: chunk_blocks_verbose verbose k map_info1, Outcome.undefined⟩
        | some next =>
          ⟨Event.query strides :: (chunk_blocks_verbose verbose k map_info1 ++
              (chunk_loop verbose sds e rank cds steps n (k + 1) map_info1 next
                { dc with chunks := dc.chunks ++
                    descriptors_of e bs (write_chunk_position_in_array rank cds strides) }).trace),
            (chunk_loop verbose sds e rank cds steps n (k + 1) map_info1 next
                { dc with chunks := dc.chunks ++
                    descriptors_of e bs (write_chunk_position_in_array rank cds strides) }).result⟩ := by
  obtain ⟨ret, map_info1, hrc, hret, hn, ho, hl⟩ := read_chunk_some sds map_info strides bs h
  refine ⟨map_info1, ?_⟩
  rw [chunk_loop, hrc, bind_mk_returned]
  simp only [if_neg hret, bind_mk_returned, add_blocks_eq e map_info1 _ dc bs hn ho hl]
  cases increase_strides k steps rank.toNat 1 strides with
  | none => simp
  | some next => simp

/-- The coordinate contributions to the catalog, for a list of queried coordinates. -/
theorem chunk_loop_returned (verbose : Bool) (sds : SDS) (e : String) (rank : Int)
    (cds : List Nat) (steps : List Int) (n : Nat) :
    ∀ (k : Int) (map_info : SD_mapping_info_t) (strides : List Int) (dc dc1 : DmrppCommon),
      (chunk_loop verbose sds e rank cds steps n k map_info strides dc).result
          = Outcome.returned dc1 →
      dc1 = { dc with
                chunks := dc.chunks ++ catalog_of sds e rank cds
                  (queries_of
                    (chunk_loop verbose sds e rank cds steps n k map_info strides dc).trace) } ∧
      (queries_of (chunk_loop verbose sds e rank cds steps n k map_info strides dc).trace).length
          = n := by
  induction n with
  | zero =>
    intro k map_info strides dc dc1 h
    rw [chunk_loop_zero] at h ⊢
    simp only [Outcome.returned.injEq] at h
    subst h
    simp [queries_of_nil, catalog_of_nil]
  | succ n ih =>
    intro k map_info strides dc dc1 h
    cases hb : sds.blocks strides with
    | none =>
      rw [chunk_loop_succ_none _ _ _ _ _ _ _ _ _ _ _ hb] at h
      simp at h
    | some bs =>
      obtain ⟨map_info1, hstep⟩ :=
        chunk_loop_succ_some verbose sds e rank cds steps n k map_info strides dc bs hb
      rw [hstep] at h ⊢
      cases hinc : increase_strides k steps rank.toNat 1 strides with
      | none => rw [hinc] at h; simp at h
      | some next =>
        rw [hinc] at h
        simp only at h ⊢
        obtain ⟨h1, h2⟩ := ih _ _ _ _ _ h
        simp only [queries_of_cons_query, queries_of_append, queries_of_chunk_blocks_verbose,
          List.nil_append, catalog_of_cons, hb, Option.getD_some, List.length_cons, h2, and_true]
        rw [h1]
        simp

/-- With verbose mode off, a loop that runs to its end writes nothing to `std::cerr`. -/
theorem chunk_loop_cerr (sds : SDS) (e : String) (rank : Int)
    (cds : List Nat) (steps : List Int) (n : Nat) :
    ∀ (k : Int) (map_info : SD_mapping_info_t) (strides : List Int) (dc dc1 : DmrppCommon),
      (chunk_loop false sds e rank cds steps n k map_info strides dc).result
          = Outcome.returned dc1 →
      cerr_of (chunk_loop false sds e rank cds steps n k map_info strides dc).trace = [] := by
  induction n with
  | zero => intro k map_info strides dc dc1 _; rfl
  | succ n ih =>
    intro k map_info strides dc dc1 h
    cases hb : sds.blocks strides with
    | none =>
      rw [chunk_loop_succ_none _ _ _ _ _ _ _ _ _ _ _ hb] at h
      simp at h
    | some bs =>
      obtain ⟨map_info1, hstep⟩ :=
        chunk_loop_succ_some false sds e rank cds steps n k map_info strides dc bs hb
      rw [hstep] at h ⊢
      cases hinc : increase_strides k steps rank.toNat 1 strides with
      | none => rw [hinc] at h; simp at h
      | some next =>
        rw [hinc] at h
        simp only at h ⊢
        rw [cerr_of_cons_query, cerr_of_append, cerr_of_chunk_blocks_verbose_false, ih _ _ _ _ _ h]
        rfl

/-- When the store answers every query and no remainder by zero can occur, the loop runs to its
end. -/
theorem chunk_loop_total (verbose : Bool) (sds : SDS) (e : String) (rank : Int)
    (cds : List Nat) (steps : List Int) (hstore : ∀ g, sds.blocks g ≠ none)
    (hrank : rank.toNat = steps.length) (n : Nat) (hnum : n ≠ 0 → wrap_int32 steps.prod ≠ 0) :
    ∀ (k : Int) (map_info : SD_mapping_info_t) (strides : List Int) (dc : DmrppCommon),
      ∃ dc1, (chunk_loop verbose sds e rank cds steps n k map_info strides dc).result
        = Outcome.returned dc1 := by
  induction n with
  | zero => intro k map_info strides dc; exact ⟨dc, rfl⟩
  | succ n ih =>
    intro k map_info strides dc
    have hw : wrap_int32 steps.prod ≠ 0 := hnum (Nat.succ_ne_zero n)
    cases hb : sds.blocks strides with
    | none => exact absurd hb (hstore strides)
    | some bs =>
      obtain ⟨map_info1, hstep⟩ :=
        chunk_loop_succ_some verbose sds e rank cds steps n k map_info strides dc bs hb
      obtain ⟨next, hnext⟩ := increase_strides_start k steps hw strides
      rw [hstep, hrank, hnext]
      exact ih (fun _ => hw) _ _ _ _

/-- For positive step counts whose product fits an `int`, the queries made by the loop, started
at chunk `k` with the coordinate of chunk `k`, are the coordinates of chunks `k, k+1, ...`, in
that order. -/
theorem chunk_loop_queries (verbose : Bool) (sds : SDS) (e : String) (rank : Int)
    (cds : List Nat) (S : List Nat) (hS : ∀ s ∈ S, 0 < s) (htotal : S.prod < 2147483648)
    (hrank : rank.toNat = S.length) (n : Nat) :
    ∀ (k : Nat) (map_info : SD_mapping_info_t) (dc : DmrppCommon),
      ∃ m, m ≤ n ∧
        queries_of (chunk_loop verbose sds e rank cds (S.map fun s : Nat => (s : Int)) n (k : Int)
            map_info ((grid_coordinate S k).map fun c : Nat => (c : Int)) dc).trace =
          (List.range' k m).map fun j => (grid_coordinate S j).map fun c : Nat => (c : Int) := by
  induction n with
  | zero => intro k map_info dc; exact ⟨0, Nat.le_refl _, rfl⟩
  | succ n ih =>
    intro k map_info dc
    cases hb : sds.blocks ((grid_coordinate S k).map fun c : Nat => (c : Int)) with
    | none =>
      refine ⟨1, by omega, ?_⟩
      rw [chunk_loop_succ_none _ _ _ _ _ _ _ _ _ _ _ hb]
      rfl
    | some bs =>
      obtain ⟨map_info1, hstep⟩ :=
        chunk_loop_succ_some verbose sds e rank cds (S.map fun s : Nat => (s : Int)) n (k : Int)
          map_info _ dc bs hb
      rw [hstep, hrank, increase_strides_grid S k hS htotal]
      have hk : ((k : Int) + 1) = ((k + 1 : Nat) : Int) := by push_cast; rfl
      rw [hk]
      obtain ⟨m, hm, hq⟩ := ih (k + 1) map_info1
        ⟨dc.chunks ++ descriptors_of e bs (write_chunk_position_in_array rank cds
          ((grid_coordinate S k).map fun c : Nat => (c : Int))), dc.chunk_dimension_sizes,
          dc.compression_type⟩
      refine ⟨m + 1, by omega, ?_⟩
      simp only [queries_of_cons_query, queries_of_append, queries_of_chunk_blocks_verbose,
        List.nil_append, hq]
      rw [List.range'_succ, List.map_cons]

/-! ## Well-formed chunked arrays: chunk sizes, step counts, positions -/

theorem list_ext_getD_int (a b : List Int) (hl : a.length = b.length)
    (h : ∀ j, j < b.length → a.getD j 0 = b.getD j 0) : a = b := by
  apply List.ext_getElem hl
  intro j h1 h2
  have := h j h2
  rwa [List.getD_eq_getElem _ _ h1, List.getD_eq_getElem _ _ h2] at this

theorem getD_map_range {α : Type} (f : Nat → α) (d : α) (n i : Nat) (hi : i < n) :
    ((List.range n).map f).getD i d = f i := by
  simp [List.getD_eq_getElem?_getD, List.getElem?_map, List.getElem?_range hi]

theorem getD_map_toNat (C : List Int) (i : Nat) :
    (C.map Int.toNat).getD i 0 = (C.getD i 0).toNat := by
  simp only [List.getD_eq_getElem?_getD, List.getElem?_map]
  cases C[i]? <;> simp

theorem getD_mem {C : List Int} {i : Nat} (hi : i < C.length) : C.getD i 0 ∈ C := by
  rw [List.getD_eq_getElem _ _ hi]; exact List.getElem_mem _

theorem step_counts_length (D C : List Int) (h : D.length = C.length) :
    (step_counts D C).length = C.length := by
  simp [step_counts, h]

theorem step_counts_getD (D C : List Int) (i : Nat) (hD : i < D.length) (hC : i < C.length) :
    (step_counts D C).getD i 0 = (D.getD i 0).toNat / (C.getD i 0).toNat := by
  have hz : i < (step_counts D C).length := by simp [step_counts, hD, hC]
  rw [List.getD_eq_getElem _ _ hz, List.getD_eq_getElem _ _ hD, List.getD_eq_getElem _ _ hC]
  simp [step_counts]

theorem read_chunk_dimension_sizes_getD (rank chunk_flag : Int) (cdef : HDF_CHUNK_DEF) :
    read_chunk_dimension_sizes rank chunk_flag cdef =
      (List.range rank.toNat).map fun i =>
        wrap_uint64 ((chunk_lengths_for chunk_flag cdef).getD i 0) := by
  unfold read_chunk_dimension_sizes chunk_lengths_for
  by_cases h : chunk_flag = HDF_CHUNK <;> simp [h]

/-- The chunk dimension sizes of a well-formed chunked array are the chunk lengths. -/
theorem read_chunk_dimension_sizes_wf {sds : SDS} {rank : Int} {D : List Int} {data_type : Int}
    {cdef : HDF_CHUNK_DEF} {chunk_flag : Int} {C : List Int}
    (h : ChunkedArray sds rank D data_type cdef chunk_flag C) :
    read_chunk_dimension_sizes rank chunk_flag cdef = C.map Int.toNat := by
  rw [read_chunk_dimension_sizes_getD, ← h.lengths]
  apply List.ext_getElem
  · simp [h.C_length]
  · intro i h1 h2
    have hi : i < C.length := by simpa using h2
    have hr := h.C_range _ (List.getElem_mem hi)
    simp only [List.getElem_map, List.getElem_range, List.getD_eq_getElem _ _ hi]
    exact wrap_uint64_of_range (by omega) (by omega)

/-- The values line 297 stores in `steps` for a well-formed chunked array are the step counts. -/
theorem steps_wf {sds : SDS} {rank : Int} {D : List Int} {data_type : Int}
    {cdef : HDF_CHUNK_DEF} {chunk_flag : Int} {C : List Int}
    (h : ChunkedArray sds rank D data_type cdef chunk_flag C) :
    ((List.range rank.toNat).map fun i =>
        wrap_int32 ((wrap_uint64 (D.getD i 0) / (C.map Int.toNat).getD i 0 : Nat) : Int))
      = (step_counts D C).map fun s : Nat => (s : Int) := by
  have hlen : D.length = C.length := by rw [h.D_length, h.C_length]
  apply List.ext_getElem
  · simp [step_counts_length D C hlen, h.C_length]
  · intro i h1 h2
    have hiC : i < C.length := by simpa [step_counts_length D C hlen] using h2
    have hiD : i < D.length := by omega
    have hz : i < (step_counts D C).length := by simpa using h2
    have hd := h.D_range _ (getD_mem hiD)
    simp only [List.getElem_map, List.getElem_range]
    rw [← List.getD_eq_getElem _ 0 hz, step_counts_getD D C i hiD hiC, getD_map_toNat,
      wrap_uint64_of_range (by omega) (by omega)]
    have hq : (D.getD i 0).toNat / (C.getD i 0).toNat ≤ (D.getD i 0).toNat := Nat.div_le_self _ _
    generalize (D.getD i 0).toNat / (C.getD i 0).toNat = q at hq ⊢
    exact wrap_int32_of_range (by omega) (by omega)

theorem steps_loop_wf {sds : SDS} {rank : Int} {D : List Int} {data_type : Int}
    {cdef : HDF_CHUNK_DEF} {chunk_flag : Int} {C : List Int}
    (h : ChunkedArray sds rank D data_type cdef chunk_flag C)
    (htotal : (step_counts D C).prod < 2147483648) :
    steps_loop D (C.map Int.toNat) rank.toNat =
      some ((step_counts D C).map (fun s : Nat => (s : Int)), ((step_counts D C).prod : Int)) := by
  rw [steps_loop_eq, steps_wf h]
  · have hp : ((step_counts D C).map fun s : Nat => (s : Int)).prod
        = (((step_counts D C).prod : Nat) : Int) := by
      rw [Nat.cast_list_prod]
    rw [hp, wrap_int32_of_range (by omega) (by omega)]
  · intro i hi
    have hiC : i < C.length := by rw [h.C_length]; exact hi
    have hr := h.C_range _ (getD_mem hiC)
    rw [getD_map_toNat]
    omega

theorem grid_coordinate_zero (S : List Nat) :
    grid_coordinate S 0 = List.replicate S.length 0 := by
  apply list_ext_getD
  · simp [grid_coordinate_length]
  · intro j hj
    rw [List.length_replicate] at hj
    rw [grid_coordinate_getD S 0 j hj, Nat.zero_div, Nat.zero_mod]
    simp [List.getD_eq_getElem?_getD, List.getElem?_replicate, hj]

theorem prod_pos_imp_pos (S : List Nat) (h : 0 < S.prod) : ∀ s ∈ S, 0 < s := by
  intro s hs
  rcases Nat.eq_zero_or_pos s with h0 | h0
  · subst h0
    rw [List.prod_eq_zero hs] at h
    exact absurd h (Nat.lt_irrefl 0)
  · exact h0

theorem write_chunk_position_wf (rank : Int) (C : List Int) (G : List Nat)
    (hC : C.length = rank.toNat) (hG : G.length = rank.toNat)
    (hCr : ∀ c ∈ C, 0 < c ∧ c < 2147483648) (hGr : ∀ g ∈ G, g < 2147483648) :
    write_chunk_position_in_array rank (C.map Int.toNat) (G.map fun c : Nat => (c : Int))
      = position_of G C := by
  unfold write_chunk_position_in_array position_of
  apply List.ext_getElem
  · simp [hC, hG]
  · intro i h1 h2
    have hi : i < rank.toNat := by simpa using h1
    have hiC : i < C.length := by omega
    have hiG : i < G.length := by omega
    have hc := hCr _ (List.getElem_mem hiC)
    have hg := hGr _ (List.getElem_mem hiG)
    simp only [List.getElem_map, List.getElem_range, List.getElem_zipWith]
    rw [getD_map_toNat, getD_map_cast, List.getD_eq_getElem _ _ hiC, List.getD_eq_getElem _ _ hiG,
      wrap_uint64_of_nat (by omega)]
    have hlt : C[i].toNat * G[i] < 2147483648 * 2147483648 :=
      Nat.mul_lt_mul'' (by omega) hg
    rw [Nat.mod_eq_of_lt (by omega), Nat.mul_comm]

theorem position_of_inj (C : List Int) (hC : ∀ c ∈ C, 0 < c) :
    ∀ G G1 : List Nat, G.length = C.length → G1.length = C.length →
      position_of G C = position_of G1 C → G = G1 := by
  induction C with
  | nil =>
    intro G G1 h h1 _
    rw [List.length_nil, List.length_eq_zero] at h h1
    rw [h, h1]
  | cons c cs ih =>
    intro G G1 h h1 heq
    cases G with
    | nil => simp at h
    | cons g gs =>
      cases G1 with
      | nil => simp at h1
      | cons g1 gs1 =>
        simp only [position_of, List.zipWith_cons_cons, List.cons.injEq] at heq
        have hc : 0 < c.toNat := by have := hC c (by simp); omega
        have hg : g = g1 := Nat.eq_of_mul_eq_mul_right hc heq.1
        have hgs : gs = gs1 :=
          ih (fun x hx => hC x (by simp [hx])) gs gs1 (by simpa using h) (by simpa using h1) heq.2
        rw [hg, hgs]

/-! ## Composition of runs -/

theorem bind_ret_trace {α β : Type} (r : Run α) (g : α → β) :
    (Run.bind r fun a => Run.ret (g a)).trace = r.trace := by
  cases r with
  | mk t res => cases res <;> simp [Run.bind, Run.ret]

theorem bind_ret_returned {α β : Type} (r : Run α) (g : α → β) (b : β) :
    (Run.bind r fun a => Run.ret (g a)).result = Outcome.returned b ↔
      ∃ a, r.result = Outcome.returned a ∧ g a = b := by
  cases r with
  | mk t res => cases res <;> simp [Run.bind, Run.ret]

theorem bind_ret_of_returned {α β : Type} (r : Run α) (g : α → β) (a : α)
    (h : r.result = Outcome.returned a) :
    (Run.bind r fun a => Run.ret (g a)).result = Outcome.returned (g a) :=
  (bind_ret_returned r g (g a)).2 ⟨a, h, rfl⟩

/-! ## The node after the chunk-size loop -/

theorem foldl_const_chunks (g : DmrppCommon → DmrppCommon)
    (hg : ∀ dc, (g dc).chunks = dc.chunks ∧ (g dc).chunk_dimension_sizes = dc.chunk_dimension_sizes)
    (l : List Nat) :
    ∀ dc, (l.foldl (fun dc _ => g dc) dc).chunks = dc.chunks ∧
      (l.foldl (fun dc _ => g dc) dc).chunk_dimension_sizes = dc.chunk_dimension_sizes := by
  induction l with
  | nil => intro dc; exact ⟨rfl, rfl⟩
  | cons i is ih =>
    intro dc
    rw [List.foldl_cons]
    exact ⟨(ih (g dc)).1.trans (hg dc).1, (ih (g dc)).2.trans (hg dc).2⟩

theorem ingest_compression_chunks (rank chunk_flag : Int) (dc : DmrppCommon) :
    (ingest_compression rank chunk_flag dc).chunks = dc.chunks := by
  unfold ingest_compression
  apply (foldl_const_chunks _ _ _ dc).1
  intro d
  by_cases h : chunk_flag = HDF_CHUNK <;> simp [h, DmrppCommon.ingest_compression_type]

/-! ## `get_chunks_for_an_array` on a chunked array -/

theorem VERBOSE_append (verbose : Bool) (l1 l2 : List String) :
    VERBOSE verbose l1 ++ VERBOSE verbose l2 = VERBOSE verbose (l1 ++ l2) := by
  cases verbose <;> simp [VERBOSE]

theorem switch_chunk_flag_chunked (verbose : Bool) (chunk_flag rank : Int)
    (hflag : chunk_flag = HDF_CHUNK ∨ chunk_flag = HDF_COMP) (hrank : 0 < rank) :
    switch_chunk_flag verbose chunk_flag rank =
      ⟨VERBOSE verbose ["HDF_CHUNK or HDF_COMP."], Outcome.returned true⟩ := by
  have h0 : chunk_flag ≠ HDF_NONE := by
    rcases hflag with h | h <;> rw [h] <;> decide
  unfold switch_chunk_flag
  rw [if_neg h0, if_pos hflag, if_neg (by omega)]

/-- For a non-empty chunked array on a catalog-capable node, the call is the chunked branch
followed by `return true`. -/
theorem get_chunks_for_an_array_chunked (file : String → SDS) (verbose : Bool) (name : String)
    (dc : DmrppCommon) (rank : Int) (D : List Int) (data_type : Int) (cdef : HDF_CHUNK_DEF)
    (chunk_flag : Int) (byte_order : String)
    (hinfo : (file name).SDgetinfo = some (rank, D, data_type))
    (hchunk : (file name).SDgetchunkinfo = some (cdef, chunk_flag))
    (hflag : chunk_flag = HDF_CHUNK ∨ chunk_flag = HDF_COMP) (hrank : 0 < rank)
    (hnt : (file name).Hgetntinfo = some byte_order)
    (hempty : (file name).SDcheckempty = some 0) :
    ∃ lines, get_chunks_for_an_array file verbose name (some dc) =
      Run.bind ⟨VERBOSE verbose lines, Outcome.returned ()⟩ fun _ =>
        Run.bind (chunked_array verbose (file name) (endian_name_of byte_order) rank D data_type
          cdef chunk_flag dc) fun dc => Run.ret (true, some dc) := by
  refine ⟨["Name: " ++ name, "DMR FQN: " ++ name, "sdsid: " ++ name] ++
    ["HDF_CHUNK or HDF_COMP."], ?_⟩
  unfold get_chunks_for_an_array
  simp only [hinfo, hchunk, hnt, hempty, switch_chunk_flag_chunked verbose chunk_flag rank hflag hrank,
    bind_mk_returned, if_pos hflag, ← VERBOSE_append]
  simp [Run.bind]

/-- The chunked branch on a well-formed chunked array: the enumeration loop runs
`product(S[i])` times, starting at chunk 0 with the coordinate of chunk 0. -/
theorem chunked_array_wf (verbose : Bool) (sds : SDS) (e : String) (dc : DmrppCommon)
    {rank : Int} {D : List Int} {data_type : Int} {cdef : HDF_CHUNK_DEF} {chunk_flag : Int}
    {C : List Int} (h : ChunkedArray sds rank D data_type cdef chunk_flag C)
    (htotal : (step_counts D C).prod < 2147483648) :
    ∃ lines, chunked_array verbose sds e rank D data_type cdef chunk_flag dc =
      Run.bind ⟨VERBOSE verbose lines, Outcome.returned ()⟩ fun _ =>
        chunk_loop verbose sds e rank (C.map Int.toNat)
          ((step_counts D C).map fun s : Nat => (s : Int)) (step_counts D C).prod ((0 : Nat) : Int)
          ⟨0, none, none, data_type, 0⟩
          ((grid_coordinate (step_counts D C) 0).map fun c : Nat => (c : Int))
          ((ingest_compression rank chunk_flag dc).set_chunk_dimension_sizes
            (C.map Int.toNat)) := by
  have hlen : (step_counts D C).length = rank.toNat := by
    rw [step_counts_length D C (by rw [h.D_length, h.C_length]), h.C_length]
  refine ⟨["number_of_chunks: " ++ toString (((step_counts D C).prod : Nat) : Int),
    "rank: " ++ toString rank, "chunk dimension sizes: ",
    String.join ((C.map Int.toNat).map fun c : Nat => toString (wrap_int32 (c : Int)) ++ " ")],
    ?_⟩
  unfold chunked_array
  simp only [read_chunk_dimension_sizes_wf h, steps_loop_wf h htotal, Int.toNat_ofNat,
    grid_coordinate_zero, hlen, List.map_replicate, Nat.cast_zero]

/-- The queries of the chunked branch on a well-formed chunked array are the first coordinates
of the row-major enumeration; all of them when the branch returns. -/
theorem chunked_array_queries (verbose : Bool) (sds : SDS) (e : String) (dc : DmrppCommon)
    {rank : Int} {D : List Int} {data_type : Int} {cdef : HDF_CHUNK_DEF} {chunk_flag : Int}
    {C : List Int} (h : ChunkedArray sds rank D data_type cdef chunk_flag C)
    (htotal : (step_counts D C).prod < 2147483648) :
    (∃ m, m ≤ (step_counts D C).prod ∧
      queries_of (chunked_array verbose sds e rank D data_type cdef chunk_flag dc).trace =
        (List.range m).map fun j =>
          (grid_coordinate (step_counts D C) j).map fun c : Nat => (c : Int)) ∧
    ∀ dc1, (chunked_array verbose sds e rank D data_type cdef chunk_flag dc).result
        = Outcome.returned dc1 →
      queries_of (chunked_array verbose sds e rank D data_type cdef chunk_flag dc).trace =
        ((List.range (step_counts D C).prod).map fun j =>
          (grid_coordinate (step_counts D C) j).map fun c : Nat => (c : Int)) ∧
      dc1.chunks = dc.chunks ++ catalog_of sds e rank (C.map Int.toNat)
        (queries_of (chunked_array verbose sds e rank D data_type cdef chunk_flag dc).trace) ∧
      dc1.chunk_dimension_sizes = C.map Int.toNat := by
  obtain ⟨lines, hEq⟩ := chunked_array_wf verbose sds e dc h htotal
  have hlen : (step_counts D C).length = rank.toNat := by
    rw [step_counts_length D C (by rw [h.D_length, h.C_length]), h.C_length]
  rw [hEq, bind_mk_returned]
  simp only [queries_of_append, queries_of_VERBOSE, List.nil_append]
  have hpre : ∃ m, m ≤ (step_counts D C).prod ∧
      queries_of (chunk_loop verbose sds e rank (C.map Int.toNat)
          ((step_counts D C).map fun s : Nat => (s : Int)) (step_counts D C).prod ((0 : Nat) : Int)
          ⟨0, none, none, data_type, 0⟩
          ((grid_coordinate (step_counts D C) 0).map fun c : Nat => (c : Int))
          ((ingest_compression rank chunk_flag dc).set_chunk_dimension_sizes
            (C.map Int.toNat))).trace =
        (List.range m).map fun j =>
          (grid_coordinate (step_counts D C) j).map fun c : Nat => (c : Int) := by
    rcases Nat.eq_zero_or_pos (step_counts D C).prod with h0 | hpos
    · rw [h0]
      exact ⟨0, Nat.le_refl _, rfl⟩
    · obtain ⟨m, hm, hq⟩ := chunk_loop_queries verbose sds e rank (C.map Int.toNat)
        (step_counts D C) (prod_pos_imp_pos _ hpos) htotal hlen.symm (step_counts D C).prod 0
        ⟨0, none, none, data_type, 0⟩
        ((ingest_compression rank chunk_flag dc).set_chunk_dimension_sizes (C.map Int.toNat))
      exact ⟨m, hm, by rw [hq, List.range_eq_range']⟩
  refine ⟨hpre, ?_⟩
  intro dc1 hret
  obtain ⟨hcat, hcount⟩ := chunk_loop_returned verbose sds e rank (C.map Int.toNat) _ _ _ _ _ _
    dc1 hret
  obtain ⟨m, hm, hq⟩ := hpre
  have hmn : m = (step_counts D C).prod := by
    rw [hq] at hcount
    simpa using hcount
  subst hmn
  refine ⟨hq, ?_, ?_⟩
  · rw [hcat]
    simp [DmrppCommon.set_chunk_dimension_sizes, ingest_compression_chunks]
  · rw [hcat]
    simp [DmrppCommon.set_chunk_dimension_sizes]

/-! ## The row-major enumeration of the box -/

theorem getD_le_prod (S : List Nat) (hS : ∀ s ∈ S, 0 < s) (s : Nat) (hs : s ∈ S) :
    s ≤ S.prod :=
  Nat.le_of_dvd (prod_pos_of_pos S hS) (List.dvd_prod hs)

theorem grid_coordinate_lt (S : List Nat) (k : Nat) (hS : ∀ s ∈ S, 0 < s)
    (htotal : S.prod < 2147483648) : ∀ g ∈ grid_coordinate S k, g < 2147483648 := by
  intro g hg
  obtain ⟨i, hi, rfl⟩ := List.getElem_of_mem hg
  have hiS : i < S.length := by rwa [grid_coordinate_length] at hi
  have hb := (grid_coordinate_in_box S k hS).2 i hiS
  rw [List.getD_eq_getElem _ _ hi] at hb
  have hle := getD_le_prod S hS (S.getD i 0)
    (by rw [List.getD_eq_getElem _ _ hiS]; exact List.getElem_mem _)
  omega

theorem in_box_prod_pos (S G : List Nat) (h : in_box S G) : 0 < S.prod := by
  apply prod_pos_of_pos
  intro s hs
  obtain ⟨i, hi, rfl⟩ := List.getElem_of_mem hs
  have := h.2 i hi
  rw [List.getD_eq_getElem S 0 hi] at this
  omega

theorem cast_list_injective :
    Function.Injective (List.map fun c : Nat => (c : Int)) :=
  List.map_injective_iff.mpr Nat.cast_injective

theorem enumeration_nodup (S : List Nat) :
    ((List.range S.prod).map fun j => as_origin (grid_coordinate S j)).Nodup := by
  unfold as_origin
  apply List.Nodup.map_on _ (List.nodup_range _)
  intro x hx y hy hxy
  exact grid_coordinate_injOn S x y (List.mem_range.mp hx) (List.mem_range.mp hy)
    (cast_list_injective hxy)

theorem enumeration_mem (S : List Nat) (o : List Int) :
    (o ∈ (List.range S.prod).map fun j => as_origin (grid_coordinate S j)) ↔
      ∃ G, in_box S G ∧ o = as_origin G := by
  unfold as_origin
  constructor
  · intro h
    obtain ⟨j, hj, rfl⟩ := List.mem_map.mp h
    have hpos : 0 < S.prod := by have := List.mem_range.mp hj; omega
    exact ⟨grid_coordinate S j, grid_coordinate_in_box S j (prod_pos_imp_pos S hpos), rfl⟩
  · rintro ⟨G, hG, rfl⟩
    obtain ⟨k, hk, hgk⟩ := grid_coordinate_surj S G hG
    exact List.mem_map.mpr ⟨k, List.mem_range.mpr hk, by rw [hgk]⟩

/-! ## The queries and the catalog of a well-formed chunked array -/

theorem array_queries_chunked (file : String → SDS) (verbose : Bool) (name : String)
    (dc : DmrppCommon) (rank : Int) (D : List Int) (data_type : Int) (cdef : HDF_CHUNK_DEF)
    (chunk_flag : Int) (C : List Int) (byte_order : String)
    (harr : ChunkedArray (file name) rank D data_type cdef chunk_flag C)
    (hnt : (file name).Hgetntinfo = some byte_order)
    (hempty : (file name).SDcheckempty = some 0)
    (htotal : (step_counts D C).prod < 2147483648) :
    (∃ m, m ≤ (step_counts D C).prod ∧ array_queries file verbose name dc =
        (List.range m).map fun j => as_origin (grid_coordinate (step_counts D C) j)) ∧
    ∀ r, (get_chunks_for_an_array file verbose name (some dc)).result = Outcome.returned r →
      array_queries file verbose name dc =
        ((List.range (step_counts D C).prod).map fun j =>
          as_origin (grid_coordinate (step_counts D C) j)) ∧
      ∃ dc1, r = (true, some dc1) ∧
        dc1.chunks = dc.chunks ++ catalog_of (file name) (endian_name_of byte_order) rank
          (C.map Int.toNat) (array_queries file verbose name dc) ∧
        dc1.chunk_dimension_sizes = C.map Int.toNat := by
  obtain ⟨lines, hEq⟩ := get_chunks_for_an_array_chunked file verbose name dc rank D data_type
    cdef chunk_flag byte_order harr.info harr.chunkinfo harr.flag harr.rank_pos hnt hempty
  obtain ⟨hpre, hret⟩ := chunked_array_queries verbose (file name) (endian_name_of byte_order) dc
    harr htotal
  unfold array_queries as_origin
  rw [hEq, bind_mk_returned]
  simp only [queries_of_append, queries_of_VERBOSE, List.nil_append, bind_ret_trace]
  refine ⟨hpre, ?_⟩
  intro r hr
  obtain ⟨dc1, hdc1, hg⟩ := (bind_ret_returned _ _ r).1 hr
  obtain ⟨h1, h2, h3⟩ := hret dc1 hdc1
  exact ⟨h1, dc1, hg.symm, h2, h3⟩

theorem catalog_of_positions (sds : SDS) (e : String) (rank : Int) (cds : List Nat)
    (qs : List (List Int)) :
    (catalog_of sds e rank cds qs).map Chunk.position_in_array =
      qs.flatMap fun g => List.replicate ((sds.blocks g).getD []).length
        (write_chunk_position_in_array rank cds g) := by
  induction qs with
  | nil => rfl
  | cons g gs ih =>
    rw [catalog_of_cons, List.map_append, ih, List.flatMap_cons]
    congr 1
    simp only [descriptors_of, List.map_map]
    rw [List.eq_replicate_iff]
    exact ⟨by simp, by simp⟩

/-! ## The claims -/

/-- C1. For a non-empty chunked (or chunked and compressed) array of rank `r > 0` with
non-negative dimension sizes `D`, positive chunk sizes `C`, `S[i] = D[i] div C[i]` and
`product(S[i])` below `2^31`: the `k`-th block-location query that `get_chunks_for_an_array` makes
is at the grid coordinate `G_k`, `G_k[i] = (k div product_{j>i} S[j]) mod S[i]`, with
`k < product(S[i])`, and the position computed for that query is `G_k[i] * C[i]`. When the call
returns, it has made exactly `product(S[i])` queries, it returns `true`, and the positions of the
descriptors it appended are, for `k = 0, 1, ...` in this order, one copy of `G_k * C` per block
the store holds at `G_k`. -/
theorem C1_queries_in_row_major_order (file : String → SDS) (verbose : Bool) (name : String)
    (dc : DmrppCommon) (rank : Int) (D : List Int) (data_type : Int) (cdef : HDF_CHUNK_DEF)
    (chunk_flag : Int) (C : List Int) (byte_order : String)
    (harr : ChunkedArray (file name) rank D data_type cdef chunk_flag C)
    (hnt : (file name).Hgetntinfo = some byte_order)
    (hempty : (file name).SDcheckempty = some 0)
    (htotal : (step_counts D C).prod < 2147483648) :
    (∀ k o, (array_queries file verbose name dc)[k]? = some o →
      k < (step_counts D C).prod ∧
      o = as_origin (grid_coordinate (step_counts D C) k) ∧
      write_chunk_position_in_array rank (read_chunk_dimension_sizes rank chunk_flag cdef) o
        = position_of (grid_coordinate (step_counts D C) k) C) ∧
    (∀ r, (get_chunks_for_an_array file verbose name (some dc)).result = Outcome.returned r →
      (array_queries file verbose name dc).length = (step_counts D C).prod ∧
      ∃ dc1, r = (true, some dc1) ∧
        dc1.chunks.map Chunk.position_in_array = dc.chunks.map Chunk.position_in_array ++
          (List.range (step_counts D C).prod).flatMap fun k =>
            List.replicate
              (((file name).blocks (as_origin (grid_coordinate (step_counts D C) k))).getD []).length
              (position_of (grid_coordinate (step_counts D C) k) C)) := by
  obtain ⟨⟨m, hm, hq⟩, hret⟩ := array_queries_chunked file verbose name dc rank D data_type cdef
    chunk_flag C byte_order harr hnt hempty htotal
  have hlen : (step_counts D C).length = rank.toNat := by
    rw [step_counts_length D C (by rw [harr.D_length, harr.C_length]), harr.C_length]
  have hpos : ∀ k, k < (step_counts D C).prod →
      write_chunk_position_in_array rank (C.map Int.toNat)
          (as_origin (grid_coordinate (step_counts D C) k))
        = position_of (grid_coordinate (step_counts D C) k) C := by
    intro k hk
    have hS := prod_pos_imp_pos (step_counts D C) (by omega)
    exact write_chunk_position_wf rank C _ harr.C_length
      (by rw [grid_coordinate_length, hlen]) harr.C_range
      (grid_coordinate_lt _ k hS htotal)
  constructor
  · intro k o hko
    rw [hq, List.getElem?_map] at hko
    have hkm : k < m := by
      by_contra hge
      rw [List.getElem?_eq_none (by simpa using hge)] at hko
      simp at hko
    rw [List.getElem?_range hkm] at hko
    simp only [Option.map_some', Option.some.injEq] at hko
    subst hko
    exact ⟨by omega, rfl, by rw [read_chunk_dimension_sizes_wf harr]; exact hpos k (by omega)⟩
  · intro r hr
    obtain ⟨hall, dc1, hr1, hcat, -⟩ := hret r hr
    refine ⟨by rw [hall]; simp, dc1, hr1, ?_⟩
    rw [hcat, List.map_append, catalog_of_positions, hall, List.flatMap_map]
    congr 1
    apply List.flatMap_congr
    intro k hk
    rw [hpos k (List.mem_range.mp hk)]

/-- C1, witness: the array "temp" of the specification, dims `[4,4]`, chunk dims `[2,2]`. The
queries are at `(0,0),(0,1),(1,0),(1,1)`, the appended descriptors are at
`(0,0),(0,2),(2,0),(2,2)`, in this order. -/
theorem C1_witness_temp :
    array_queries (fun _ => example_temp) false "temp" ⟨[], [], none⟩
        = [[0, 0], [0, 1], [1, 0], [1, 1]] ∧
      (((get_chunks_for_an_array (fun _ => example_temp) false "temp"
          (some ⟨[], [], none⟩)).result = Outcome.returned (true, some
            ⟨[⟨"BE", 8, 0, [0, 0]⟩, ⟨"BE", 8, 1, [0, 2]⟩, ⟨"BE", 8, 100, [2, 0]⟩,
              ⟨"BE", 8, 101, [2, 2]⟩], [2, 2], none⟩)) ∧
      (2 < (step_counts [4, 4] [2, 2]).prod ∧
        ([1, 0] : List Int) = as_origin (grid_coordinate (step_counts [4, 4] [2, 2]) 2) ∧
        write_chunk_position_in_array 2
            (read_chunk_dimension_sizes 2 HDF_CHUNK ⟨[2, 2], [2, 2], COMP_CODE_NONE⟩) [1, 0]
          = position_of (grid_coordinate (step_counts [4, 4] [2, 2]) 2) [2, 2])) :=
  ⟨by decide, by decide,
    (C1_queries_in_row_major_order (fun _ => example_temp) false "temp" ⟨[], [], none⟩ 2 [4, 4] 5
      ⟨[2, 2], [2, 2], COMP_CODE_NONE⟩ HDF_CHUNK [2, 2] "bigEndian"
      ⟨rfl, rfl, Or.inl rfl, rfl, by decide, rfl, rfl, by decide, by decide⟩ rfl rfl
      (by decide)).1 2 [1, 0] (by decide)⟩

/-- C2. For a non-empty chunked array (rank `> 0`, positive chunk sizes, `product(S[i])` below
`2^31`) on which `get_chunks_for_an_array` returns: the positions visited by the enumeration
loop are pairwise distinct, their number is exactly `product(S[i])` with `S[i] = D[i] div C[i]`,
no coordinate is queried twice, every grid coordinate of the box
`[0,S[0]) x ... x [0,S[rank-1])` is queried, every queried coordinate lies in the box, and the position visited for a coordinate is that coordinate
multiplied element-wise by the chunk sizes. -/
theorem C2_positions_distinct_and_cover_box (file : String → SDS) (verbose : Bool)
    (name : String) (dc : DmrppCommon) (rank : Int) (D : List Int) (data_type : Int)
    (cdef : HDF_CHUNK_DEF) (chunk_flag : Int) (C : List Int) (byte_order : String)
    (r : Bool × Option DmrppCommon)
    (harr : ChunkedArray (file name) rank D data_type cdef chunk_flag C)
    (hnt : (file name).Hgetntinfo = some byte_order)
    (hempty : (file name).SDcheckempty = some 0)
    (htotal : (step_counts D C).prod < 2147483648)
    (hret : (get_chunks_for_an_array file verbose name (some dc)).result = Outcome.returned r) :
    ((array_queries file verbose name dc).map
        (write_chunk_position_in_array rank
          (read_chunk_dimension_sizes rank chunk_flag cdef))).Nodup ∧
    ((array_queries file verbose name dc).map
        (write_chunk_position_in_array rank
          (read_chunk_dimension_sizes rank chunk_flag cdef))).length = (step_counts D C).prod ∧
    (array_queries file verbose name dc).Nodup ∧
    (∀ G, in_box (step_counts D C) G → as_origin G ∈ array_queries file verbose name dc) ∧
    (∀ o ∈ array_queries file verbose name dc, ∃ G, in_box (step_counts D C) G ∧
      o = as_origin G ∧
      write_chunk_position_in_array rank (read_chunk_dimension_sizes rank chunk_flag cdef) o
        = position_of G C) := by
  obtain ⟨-, hr⟩ := array_queries_chunked file verbose name dc rank D data_type cdef
    chunk_flag C byte_order harr hnt hempty htotal
  obtain ⟨hall, -⟩ := hr r hret
  have hlen : (step_counts D C).length = rank.toNat := by
    rw [step_counts_length D C (by rw [harr.D_length, harr.C_length]), harr.C_length]
  have hbox : ∀ G, in_box (step_counts D C) G →
      write_chunk_position_in_array rank (C.map Int.toNat) (as_origin G) = position_of G C := by
    intro G hG
    have hS := prod_pos_imp_pos _ (in_box_prod_pos _ G hG)
    apply write_chunk_position_wf rank C G harr.C_length (by rw [hG.1, hlen]) harr.C_range
    intro g hg
    obtain ⟨i, hi, rfl⟩ := List.getElem_of_mem hg
    have hiS : i < (step_counts D C).length := by rw [← hG.1]; exact hi
    have h1 := hG.2 i hiS
    rw [List.getD_eq_getElem _ _ hi] at h1
    have h2 := getD_le_prod _ hS ((step_counts D C).getD i 0)
      (by rw [List.getD_eq_getElem _ _ hiS]; exact List.getElem_mem _)
    omega
  have hmem := enumeration_mem (step_counts D C)
  have hnd := enumeration_nodup (step_counts D C)
  rw [read_chunk_dimension_sizes_wf harr, hall]
  refine ⟨?_, by simp, hnd, ?_, ?_⟩
  · apply List.Nodup.map_on _ hnd
    intro x hx y hy hxy
    obtain ⟨G, hG, rfl⟩ := (hmem x).1 hx
    obtain ⟨G1, hG1, rfl⟩ := (hmem y).1 hy
    rw [hbox G hG, hbox G1 hG1] at hxy
    have := position_of_inj C (fun c hc => (harr.C_range c hc).1) G G1
      (by rw [hG.1, hlen, harr.C_length]) (by rw [hG1.1, hlen, harr.C_length]) hxy
    rw [this]
  · intro G hG
    exact (hmem _).2 ⟨G, hG, rfl⟩
  · intro o ho
    obtain ⟨G, hG, rfl⟩ := (hmem o).1 ho
    exact ⟨G, hG, rfl, hbox G hG⟩

/-- C2, witness: on the array "temp" (dims `[4,4]`, chunk dims `[2,2]`) the call returns, and the
four visited positions are distinct and cover the box `[0,2) x [0,2)`. -/
theorem C2_witness_temp :
    ((array_queries (fun _ => example_temp) false "temp" ⟨[], [], none⟩).map
        (write_chunk_position_in_array 2
          (read_chunk_dimension_sizes 2 HDF_CHUNK ⟨[2, 2], [2, 2], COMP_CODE_NONE⟩))
      = [[0, 0], [0, 2], [2, 0], [2, 2]]) ∧
    (((array_queries (fun _ => example_temp) false "temp" ⟨[], [], none⟩).map
        (write_chunk_position_in_array 2
          (read_chunk_dimension_sizes 2 HDF_CHUNK ⟨[2, 2], [2, 2], COMP_CODE_NONE⟩))).Nodup ∧
      ((array_queries (fun _ => example_temp) false "temp" ⟨[], [], none⟩).map
        (write_chunk_position_in_array 2
          (read_chunk_dimension_sizes 2 HDF_CHUNK ⟨[2, 2], [2, 2], COMP_CODE_NONE⟩))).length
        = (step_counts [4, 4] [2, 2]).prod) :=
  ⟨by decide,
    (C2_positions_distinct_and_cover_box (fun _ => example_temp) false "temp" ⟨[], [], none⟩ 2
      [4, 4] 5 ⟨[2, 2], [2, 2], COMP_CODE_NONE⟩ HDF_CHUNK [2, 2] "bigEndian" _
      ⟨rfl, rfl, Or.inl rfl, rfl, by decide, rfl, rfl, by decide, by decide⟩ rfl rfl
      (by decide) (by decide : _ = Outcome.returned (true, some
            ⟨[⟨"BE", 8, 0, [0, 0]⟩, ⟨"BE", 8, 1, [0, 2]⟩, ⟨"BE", 8, 100, [2, 0]⟩,
              ⟨"BE", 8, 101, [2, 2]⟩], [2, 2], none⟩))).1,
    (C2_positions_distinct_and_cover_box (fun _ => example_temp) false "temp" ⟨[], [], none⟩ 2
      [4, 4] 5 ⟨[2, 2], [2, 2], COMP_CODE_NONE⟩ HDF_CHUNK [2, 2] "bigEndian" _
      ⟨rfl, rfl, Or.inl rfl, rfl, by decide, rfl, rfl, by decide, by decide⟩ rfl rfl
      (by decide) (by decide : _ = Outcome.returned (true, some
            ⟨[⟨"BE", 8, 0, [0, 0]⟩, ⟨"BE", 8, 1, [0, 2]⟩, ⟨"BE", 8, 100, [2, 0]⟩,
              ⟨"BE", 8, 101, [2, 2]⟩], [2, 2], none⟩))).2.1⟩

/-! ## Contiguous arrays -/

theorem switch_chunk_flag_none (verbose : Bool) (rank : Int) :
    switch_chunk_flag verbose HDF_NONE rank =
      ⟨VERBOSE verbose ["No chunking."], Outcome.returned true⟩ := by
  unfold switch_chunk_flag
  rw [if_pos rfl]

/-- For a non-empty contiguous array on a catalog-capable node, the call is the contiguous
branch followed by `return true`. -/
theorem get_chunks_for_an_array_contiguous (file : String → SDS) (verbose : Bool)
    (name : String) (dc : DmrppCommon) (rank : Int) (D : List Int) (data_type : Int)
    (cdef : HDF_CHUNK_DEF) (byte_order : String)
    (hinfo : (file name).SDgetinfo = some (rank, D, data_type))
    (hchunk : (file name).SDgetchunkinfo = some (cdef, HDF_NONE))
    (hnt : (file name).Hgetntinfo = some byte_order)
    (hempty : (file name).SDcheckempty = some 0) :
    ∃ lines, get_chunks_for_an_array file verbose name (some dc) =
      Run.bind ⟨VERBOSE verbose lines, Outcome.returned ()⟩ fun _ =>
        Run.bind (contiguous_array verbose (file name) (endian_name_of byte_order) rank data_type
          dc) fun dc => Run.ret (true, some dc) := by
  refine ⟨["Name: " ++ name, "DMR FQN: " ++ name, "sdsid: " ++ name] ++ ["No chunking."], ?_⟩
  have hno : ¬ (HDF_NONE = HDF_CHUNK ∨ HDF_NONE = HDF_COMP) := by decide
  unfold get_chunks_for_an_array
  simp only [hinfo, hchunk, hnt, hempty, switch_chunk_flag_none, bind_mk_returned, if_neg hno,
    ← VERBOSE_append]
  simp [Run.bind]

theorem contiguous_array_some (verbose : Bool) (sds : SDS) (e : String) (rank : Int)
    (data_type : Int) (dc : DmrppCommon) (bs : List Block) (hrank : 0 ≤ rank)
    (h : sds.blocks (List.replicate rank.toNat 0) = some bs) :
    ∃ map_info1, contiguous_array verbose sds e rank data_type dc =
      ⟨Event.query (List.replicate rank.toNat 0) :: add_blocks_verbose verbose map_info1,
        Outcome.returned ⟨dc.chunks ++ descriptors_of e bs (List.replicate rank.toNat 0),
          dc.chunk_dimension_sizes, dc.compression_type⟩⟩ := by
  obtain ⟨ret, map_info1, hrc, hret, hn, ho, hl⟩ :=
    read_chunk_some sds ⟨0, none, none, data_type, 0⟩ (List.replicate rank.toNat 0) bs h
  refine ⟨map_info1, ?_⟩
  unfold contiguous_array
  rw [if_neg (by omega)]
  simp only [hrc, bind_mk_returned, if_neg hret, add_blocks_eq e map_info1 _ dc bs hn ho hl]
  rfl

theorem contiguous_array_none (verbose : Bool) (sds : SDS) (e : String) (rank : Int)
    (data_type : Int) (dc : DmrppCommon) (hrank : 0 ≤ rank)
    (h : sds.blocks (List.replicate rank.toNat 0) = none) :
    contiguous_array verbose sds e rank data_type dc =
      ⟨[Event.query (List.replicate rank.toNat 0),
        Event.ERROR "SDgetedatainfo() failed in read_chunk()."], Outcome.exited⟩ := by
  unfold contiguous_array
  rw [if_neg (by omega)]
  simp only [read_chunk_none sds _ _ h]
  rfl

/-- C3. For a non-empty array whose chunking flag is `HDF_NONE`, of any rank `>= 0`:
`get_chunks_for_an_array` makes exactly one block-location query, at the all-zero origin of
length `rank`; when the store answers it with the blocks `bs`, the call returns `true` and has
appended exactly one descriptor per block of `bs`, in order, and every appended descriptor has
the all-zero position of length `rank`. -/
theorem C3_contiguous_single_origin (file : String → SDS) (verbose : Bool) (name : String)
    (dc : DmrppCommon) (rank : Int) (D : List Int) (data_type : Int) (cdef : HDF_CHUNK_DEF)
    (byte_order : String)
    (hinfo : (file name).SDgetinfo = some (rank, D, data_type))
    (hchunk : (file name).SDgetchunkinfo = some (cdef, HDF_NONE))
    (hnt : (file name).Hgetntinfo = some byte_order)
    (hempty : (file name).SDcheckempty = some 0)
    (hrank : 0 ≤ rank) :
    array_queries file verbose name dc = [List.replicate rank.toNat 0] ∧
    ∀ bs, (file name).blocks (List.replicate rank.toNat 0) = some bs →
      (get_chunks_for_an_array file verbose name (some dc)).result =
        Outcome.returned (true, some ⟨dc.chunks ++
          descriptors_of (endian_name_of byte_order) bs (List.replicate rank.toNat 0),
          dc.chunk_dimension_sizes, dc.compression_type⟩) ∧
      (descriptors_of (endian_name_of byte_order) bs (List.replicate rank.toNat 0)).length
        = bs.length ∧
      ∀ c ∈ descriptors_of (endian_name_of byte_order) bs (List.replicate rank.toNat 0),
        c.position_in_array = List.replicate rank.toNat 0 := by
  obtain ⟨lines, hEq⟩ := get_chunks_for_an_array_contiguous file verbose name dc rank D data_type
    cdef byte_order hinfo hchunk hnt hempty
  unfold array_queries
  rw [hEq, bind_mk_returned]
  simp only [queries_of_append, queries_of_VERBOSE, List.nil_append, bind_ret_trace]
  constructor
  · cases hb : (file name).blocks (List.replicate rank.toNat 0) with
    | none =>
      rw [contiguous_array_none verbose _ _ rank data_type dc hrank hb]
      rfl
    | some bs =>
      obtain ⟨l2, h2⟩ := contiguous_array_some verbose _ (endian_name_of byte_order) rank
        data_type dc bs hrank hb
      rw [h2]
      simp only [queries_of_cons_query, queries_of_add_blocks_verbose]
  · intro bs hb
    obtain ⟨l2, h2⟩ := contiguous_array_some verbose _ (endian_name_of byte_order) rank
      data_type dc bs hrank hb
    refine ⟨?_, by simp [descriptors_of], ?_⟩
    · rw [h2]
      rfl
    · intro c hc
      simp only [descriptors_of, List.mem_map] at hc
      obtain ⟨b, -, rfl⟩ := hc
      rfl

/-- C3, witness: the contiguous array "lat" of the specification, dims `[10]`, stored as two
blocks: one query at `[0]`, two descriptors, both at position `[0]`. -/
theorem C3_witness_lat :
    array_queries (fun _ => example_lat) false "lat" ⟨[], [], none⟩ = [[0]] ∧
      (get_chunks_for_an_array (fun _ => example_lat) false "lat" (some ⟨[], [], none⟩)).result
        = Outcome.returned (true, some
            ⟨[⟨"LE", 24, 294, [0]⟩, ⟨"LE", 16, 4096, [0]⟩], [], none⟩) :=
  ⟨(C3_contiguous_single_origin (fun _ => example_lat) false "lat" ⟨[], [], none⟩ 1 [10] 5
      ⟨[], [], COMP_CODE_NONE⟩ "littleEndian" rfl rfl rfl rfl (by decide)).1,
    ((C3_contiguous_single_origin (fun _ => example_lat) false "lat" ⟨[], [], none⟩ 1 [10] 5
      ⟨[], [], COMP_CODE_NONE⟩ "littleEndian" rfl rfl rfl rfl (by decide)).2
        [⟨294, 24⟩, ⟨4096, 16⟩] rfl).1⟩

/-! ## The catalog of a chunked array, in general -/

/-- When the loop runs to its end, the store has answered every query it made. -/
theorem chunk_loop_returned_store (verbose : Bool) (sds : SDS) (e : String) (rank : Int)
    (cds : List Nat) (steps : List Int) (n : Nat) :
    ∀ (k : Int) (map_info : SD_mapping_info_t) (strides : List Int) (dc dc1 : DmrppCommon),
      (chunk_loop verbose sds e rank cds steps n k map_info strides dc).result
          = Outcome.returned dc1 →
      ∀ g ∈ queries_of (chunk_loop verbose sds e rank cds steps n k map_info strides dc).trace,
        sds.blocks g ≠ none := by
  induction n with
  | zero =>
    intro k map_info strides dc dc1 _ g hg
    rw [chunk_loop_zero, queries_of_nil] at hg
    exact absurd hg (List.not_mem_nil g)
  | succ n ih =>
    intro k map_info strides dc dc1 h
    cases hb : sds.blocks strides with
    | none =>
      rw [chunk_loop_succ_none _ _ _ _ _ _ _ _ _ _ _ hb] at h
      simp at h
    | some bs =>
      obtain ⟨map_info1, hstep⟩ :=
        chunk_loop_succ_some verbose sds e rank cds steps n k map_info strides dc bs hb
      rw [hstep] at h ⊢
      cases hinc : increase_strides k steps rank.toNat 1 strides with
      | none => rw [hinc] at h; simp at h
      | some next =>
        rw [hinc] at h
        simp only at h ⊢
        have h1 := ih _ _ _ _ _ h
        simp only [queries_of_cons_query, queries_of_append, queries_of_chunk_blocks_verbose,
          List.nil_append, List.mem_cons]
        intro g hg
        rcases hg with rfl | hg
        · rw [hb]; exact Option.some_ne_none bs
        · exact h1 g hg

/-- The chunked branch, for any answers of the store: when it returns, the catalog is the
catalog before, followed by the descriptors of the queried coordinates in query order, and the
chunk dimension sizes read from the store are recorded. -/
theorem chunked_array_returned (verbose : Bool) (sds : SDS) (e : String) (rank : Int)
    (D : List Int) (data_type : Int) (cdef : HDF_CHUNK_DEF) (chunk_flag : Int)
    (dc dc1 : DmrppCommon)
    (h : (chunked_array verbose sds e rank D data_type cdef chunk_flag dc).result
      = Outcome.returned dc1) :
    dc1.chunks = dc.chunks ++ catalog_of sds e rank
        (read_chunk_dimension_sizes rank chunk_flag cdef)
        (queries_of (chunked_array verbose sds e rank D data_type cdef chunk_flag dc).trace) ∧
      dc1.chunk_dimension_sizes = read_chunk_dimension_sizes rank chunk_flag cdef ∧
      ∀ g ∈ queries_of (chunked_array verbose sds e rank D data_type cdef chunk_flag dc).trace,
        sds.blocks g ≠ none := by
  unfold chunked_array at h ⊢
  cases hs : steps_loop D (read_chunk_dimension_sizes rank chunk_flag cdef) rank.toNat with
  | none => simp [hs] at h
  | some p =>
    obtain ⟨steps, number_of_chunks⟩ := p
    simp only [hs, bind_mk_returned] at h ⊢
    obtain ⟨hcat, -⟩ := chunk_loop_returned verbose sds e rank _ steps _ _ _ _ _ dc1 h
    have hst := chunk_loop_returned_store verbose sds e rank _ steps _ _ _ _ _ dc1 h
    simp only [queries_of_append, queries_of_VERBOSE, List.nil_append]
    refine ⟨?_, ?_, hst⟩
    · rw [hcat]
      simp [DmrppCommon.set_chunk_dimension_sizes, ingest_compression_chunks]
    · rw [hcat]
      simp [DmrppCommon.set_chunk_dimension_sizes]

theorem catalog_of_length (sds : SDS) (e : String) (rank : Int) (cds : List Nat)
    (qs : List (List Int)) :
    (catalog_of sds e rank cds qs).length =
      (qs.map fun g => ((sds.blocks g).getD []).length).sum := by
  induction qs with
  | nil => rfl
  | cons g gs ih =>
    rw [catalog_of_cons, List.length_append, ih, List.map_cons, List.sum_cons]
    simp [descriptors_of]

/-- C4. For a chunked (or chunked and compressed) array that `get_chunks_for_an_array` processes
successfully (it returns `true`): the catalog after the call is the catalog before it followed
by the concatenation, over the queried grid coordinates in query order, of one descriptor per
block the store holds at that coordinate, in the store's order; each descriptor has that block's
length as its size and that block's offset as its offset, the byte order resolved for the
array, and the position computed for its coordinate. The store answered every query, and the
number of descriptors added is the sum of the block counts of the queried coordinates. -/
theorem C4_catalog_is_concatenation_of_blocks (file : String → SDS) (verbose : Bool)
    (name : String) (dc dc1 : DmrppCommon) (rank : Int) (D : List Int) (data_type : Int)
    (cdef : HDF_CHUNK_DEF) (chunk_flag : Int) (byte_order : String)
    (hinfo : (file name).SDgetinfo = some (rank, D, data_type))
    (hchunk : (file name).SDgetchunkinfo = some (cdef, chunk_flag))
    (hflag : chunk_flag = HDF_CHUNK ∨ chunk_flag = HDF_COMP) (hrank : 0 < rank)
    (hnt : (file name).Hgetntinfo = some byte_order)
    (hempty : (file name).SDcheckempty = some 0)
    (hret : (get_chunks_for_an_array file verbose name (some dc)).result
      = Outcome.returned (true, some dc1)) :
    dc1.chunks = dc.chunks ++ (array_queries file verbose name dc).flatMap (fun g =>
        (((file name).blocks g).getD []).map fun b =>
          (⟨endian_name_of byte_order, wrap_uint64 b.length, wrap_uint64 b.offset,
            write_chunk_position_in_array rank
              (read_chunk_dimension_sizes rank chunk_flag cdef) g⟩ : Chunk)) ∧
    (∀ g ∈ array_queries file verbose name dc, (file name).blocks g ≠ none) ∧
    dc1.chunks.length = dc.chunks.length +
      ((array_queries file verbose name dc).map fun g =>
        (((file name).blocks g).getD []).length).sum := by
  obtain ⟨lines, hEq⟩ := get_chunks_for_an_array_chunked file verbose name dc rank D data_type
    cdef chunk_flag byte_order hinfo hchunk hflag hrank hnt hempty
  have hq : array_queries file verbose name dc =
      queries_of (chunked_array verbose (file name) (endian_name_of byte_order) rank D data_type
        cdef chunk_flag dc).trace := by
    unfold array_queries
    rw [hEq, bind_mk_returned]
    simp only [queries_of_append, queries_of_VERBOSE, List.nil_append, bind_ret_trace]
  rw [hEq, bind_mk_returned] at hret
  obtain ⟨dc2, hdc2, hg⟩ := (bind_ret_returned _ _ _).1 hret
  simp only [Prod.mk.injEq, Option.some.injEq, true_and] at hg
  subst hg
  obtain ⟨hcat, -, hst⟩ := chunked_array_returned verbose (file name) _ rank D data_type cdef
    chunk_flag dc dc2 hdc2
  rw [hq]
  refine ⟨hcat, hst, ?_⟩
  rw [hcat, List.length_append, catalog_of_length]

/-- C4, witness: on the array "temp" the four descriptors are the blocks of the coordinates
`(0,0),(0,1),(1,0),(1,1)`, in this order, each with size 8 and its own offset. -/
theorem C4_witness_temp :
    (⟨[⟨"BE", 8, 0, [0, 0]⟩, ⟨"BE", 8, 1, [0, 2]⟩, ⟨"BE", 8, 100, [2, 0]⟩,
        ⟨"BE", 8, 101, [2, 2]⟩], [2, 2], none⟩ : DmrppCommon).chunks.length =
      (⟨[], [], none⟩ : DmrppCommon).chunks.length +
        ((array_queries (fun _ => example_temp) false "temp" ⟨[], [], none⟩).map fun g =>
          ((example_temp.blocks g).getD []).length).sum :=
  (C4_catalog_is_concatenation_of_blocks (fun _ => example_temp) false "temp" ⟨[], [], none⟩
    ⟨[⟨"BE", 8, 0, [0, 0]⟩, ⟨"BE", 8, 1, [0, 2]⟩, ⟨"BE", 8, 100, [2, 0]⟩,
      ⟨"BE", 8, 101, [2, 2]⟩], [2, 2], none⟩ 2 [4, 4] 5 ⟨[2, 2], [2, 2], COMP_CODE_NONE⟩ HDF_CHUNK "bigEndian"
    rfl rfl (Or.inl rfl) (by decide) rfl rfl (by decide)).2.2

/-! ## When `get_chunks_for_an_array` returns `false` -/

/-- The two ways control leaves the `switch (chunk_flag)`. -/
theorem switch_chunk_flag_cases (verbose : Bool) (chunk_flag rank : Int) :
    (∃ lines, switch_chunk_flag verbose chunk_flag rank =
        ⟨VERBOSE verbose lines, Outcome.returned true⟩ ∧
      (chunk_flag = HDF_NONE ∨ ((chunk_flag = HDF_CHUNK ∨ chunk_flag = HDF_COMP) ∧ 0 < rank))) ∨
    (∃ x, switch_chunk_flag verbose chunk_flag rank = ⟨[Event.ERROR x], Outcome.returned false⟩ ∧
      (((chunk_flag = HDF_CHUNK ∨ chunk_flag = HDF_COMP) ∧ rank ≤ 0) ∨ chunk_flag = HDF_NBIT ∨
        (chunk_flag ≠ HDF_NONE ∧ chunk_flag ≠ HDF_CHUNK ∧ chunk_flag ≠ HDF_COMP ∧
          chunk_flag ≠ HDF_NBIT))) := by
  unfold switch_chunk_flag
  by_cases h0 : chunk_flag = HDF_NONE
  · exact Or.inl ⟨_, by rw [if_pos h0], Or.inl h0⟩
  · rw [if_neg h0]
    by_cases h1 : chunk_flag = HDF_CHUNK ∨ chunk_flag = HDF_COMP
    · rw [if_pos h1]
      by_cases hr : rank ≤ 0
      · rw [if_pos hr]
        exact Or.inr ⟨_, rfl, Or.inl ⟨h1, hr⟩⟩
      · rw [if_neg hr]
        exact Or.inl ⟨_, rfl, Or.inr ⟨h1, by omega⟩⟩
    · rw [if_neg h1]
      by_cases h2 : chunk_flag = HDF_NBIT
      · rw [if_pos h2]
        exact Or.inr ⟨_, rfl, Or.inr (Or.inl h2)⟩
      · rw [if_neg h2]
        exact Or.inr ⟨_, rfl, Or.inr (Or.inr ⟨h0, fun h => h1 (Or.inl h), fun h => h1 (Or.inr h), h2⟩)⟩

/-- Once the emptiness check is passed, the call never returns `false`. -/
theorem after_checks_not_false (verbose : Bool) (sds : SDS) (e : String) (rank : Int)
    (D : List Int) (data_type : Int) (cdef : HDF_CHUNK_DEF) (chunk_flag : Int)
    (btp node : Option DmrppCommon) :
    (match btp with
      | none => (⟨[], Outcome.thrown "BESInternalError"⟩ : Run (Bool × Option DmrppCommon))
      | some dc =>
        if chunk_flag = HDF_CHUNK ∨ chunk_flag = HDF_COMP then
          Run.bind (chunked_array verbose sds e rank D data_type cdef chunk_flag dc)
            fun dc => Run.ret (true, some dc)
        else if chunk_flag = HDF_NONE then
          Run.bind (contiguous_array verbose sds e rank data_type dc)
            fun dc => Run.ret (true, some dc)
        else FAIL_ERROR "Unknown chunking type.").result ≠ Outcome.returned (false, node) := by
  cases btp with
  | none => simp
  | some dc =>
    simp only
    split
    · intro h
      obtain ⟨a, -, ha⟩ := (bind_ret_returned _ _ _).1 h
      simp at ha
    · split
      · intro h
        obtain ⟨a, -, ha⟩ := (bind_ret_returned _ _ _).1 h
        simp at ha
      · simp [FAIL_ERROR]

/-- C6. Whenever `get_chunks_for_an_array` returns `false` (invalid rank, unsupported codec,
unknown chunking flag, or empty array), the node after the call is the node before the call: no
descriptor has been appended to its catalog, and no chunk dimension sizes and no codec name
have been recorded on it. -/
theorem C6_false_leaves_node_unchanged (file : String → SDS) (verbose : Bool) (name : String)
    (btp node : Option DmrppCommon)
    (h : (get_chunks_for_an_array file verbose name btp).result
      = Outcome.returned (false, node)) :
    node = btp := by
  unfold get_chunks_for_an_array at h
  simp only [bind_mk_returned] at h
  cases h1 : (file name).SDgetinfo with
  | none => simp [h1, FAIL_ERROR] at h
  | some p1 =>
    obtain ⟨rank, D, data_type⟩ := p1
    cases h2 : (file name).SDgetchunkinfo with
    | none => simp [h1, h2, FAIL_ERROR] at h
    | some p2 =>
      obtain ⟨cdef, chunk_flag⟩ := p2
      simp only [h1, h2] at h
      rcases switch_chunk_flag_cases verbose chunk_flag rank with ⟨l, hs, -⟩ | ⟨x, hs, -⟩
      · simp only [hs, bind_mk_returned] at h
        cases h3 : (file name).Hgetntinfo with
        | none => simp [h3, FAIL_ERROR] at h
        | some byte_order =>
          cases h4 : (file name).SDcheckempty with
          | none => simp [h3, h4, FAIL_ERROR] at h
          | some is_empty =>
            simp only [h3, h4] at h
            by_cases he : is_empty ≠ 0
            · simp [he] at h
              exact h.symm
            · simp only [he, if_false, Bool.true_eq_false] at h
              exact absurd h (after_checks_not_false verbose (file name)
                (endian_name_of byte_order) rank D data_type cdef chunk_flag btp node)
      · simp [hs, bind_mk_returned, Run.ret] at h
        exact h.symm

/-- C6, witness: an NBIT array on a node that already holds a descriptor, chunk sizes and a
codec name: the call returns `false` and the node is as before. -/
theorem C6_witness_nbit :
    (get_chunks_for_an_array (fun _ => example_nbit) false "packed"
        (some ⟨[⟨"BE", 8, 0, [0]⟩], [4], some "deflate"⟩)).result
      = Outcome.returned (false, some ⟨[⟨"BE", 8, 0, [0]⟩], [4], some "deflate"⟩) ∧
    (some ⟨[⟨"BE", 8, 0, [0]⟩], [4], some "deflate"⟩ : Option DmrppCommon)
      = some ⟨[⟨"BE", 8, 0, [0]⟩], [4], some "deflate"⟩ :=
  ⟨by decide,
    C6_false_leaves_node_unchanged (fun _ => example_nbit) false "packed"
      (some ⟨[⟨"BE", 8, 0, [0]⟩], [4], some "deflate"⟩)
      (some ⟨[⟨"BE", 8, 0, [0]⟩], [4], some "deflate"⟩) (by decide)⟩

/-! ## When `get_chunks_for_an_array` returns `true` -/

theorem read_chunk_dimension_sizes_length (rank chunk_flag : Int) (cdef : HDF_CHUNK_DEF) :
    (read_chunk_dimension_sizes rank chunk_flag cdef).length = rank.toNat := by
  simp [read_chunk_dimension_sizes]

/-- The chunked branch returns when the store answers every query and no chunk dimension size
is zero. -/
theorem chunked_array_total (verbose : Bool) (sds : SDS) (e : String) (rank : Int)
    (D : List Int) (data_type : Int) (cdef : HDF_CHUNK_DEF) (chunk_flag : Int) (dc : DmrppCommon)
    (hblocks : ∀ g, sds.blocks g ≠ none)
    (hcds : ∀ c ∈ read_chunk_dimension_sizes rank chunk_flag cdef, c ≠ 0) :
    ∃ dc1, (chunked_array verbose sds e rank D data_type cdef chunk_flag dc).result
      = Outcome.returned dc1 := by
  have hne : ∀ i, i < rank.toNat →
      (read_chunk_dimension_sizes rank chunk_flag cdef).getD i 0 ≠ 0 := by
    intro i hi
    have hi1 : i < (read_chunk_dimension_sizes rank chunk_flag cdef).length := by
      rw [read_chunk_dimension_sizes_length]; exact hi
    rw [List.getD_eq_getElem _ _ hi1]
    exact hcds _ (List.getElem_mem _)
  unfold chunked_array
  simp only [steps_loop_eq D _ rank.toNat hne, bind_mk_returned]
  apply chunk_loop_total verbose sds e rank _ _ hblocks (by simp)
  intro hn h0
  rw [h0] at hn
  exact hn rfl

theorem contiguous_array_total (verbose : Bool) (sds : SDS) (e : String) (rank : Int)
    (data_type : Int) (dc : DmrppCommon) (hrank : 0 ≤ rank) (hblocks : ∀ g, sds.blocks g ≠ none) :
    ∃ dc1, (contiguous_array verbose sds e rank data_type dc).result = Outcome.returned dc1 := by
  cases hb : sds.blocks (List.replicate rank.toNat 0) with
  | none => exact absurd hb (hblocks _)
  | some bs =>
    obtain ⟨m, hm⟩ := contiguous_array_some verbose sds e rank data_type dc bs hrank hb
    exact ⟨_, by rw [hm]⟩

/-- A non-empty array of the data model whose store queries all succeed is processed with
`true` on a catalog-capable node. -/
theorem array_returns_true (file : String → SDS) (verbose : Bool) (name : String)
    (dc : DmrppCommon) (rank : Int) (D : List Int) (data_type : Int) (cdef : HDF_CHUNK_DEF)
    (chunk_flag : Int) (byte_order : String)
    (hinfo : (file name).SDgetinfo = some (rank, D, data_type))
    (hchunk : (file name).SDgetchunkinfo = some (cdef, chunk_flag))
    (hnt : (file name).Hgetntinfo = some byte_order)
    (hempty : (file name).SDcheckempty = some 0)
    (hblocks : ∀ g, (file name).blocks g ≠ none)
    (hc : (chunk_flag = HDF_NONE ∧ 0 ≤ rank) ∨
      ((chunk_flag = HDF_CHUNK ∨ chunk_flag = HDF_COMP) ∧ 0 < rank ∧
        ∀ c ∈ read_chunk_dimension_sizes rank chunk_flag cdef, c ≠ 0)) :
    ∃ dc1, (get_chunks_for_an_array file verbose name (some dc)).result
      = Outcome.returned (true, some dc1) := by
  rcases hc with ⟨h0, hr⟩ | ⟨hf, hr, hcds⟩
  · subst h0
    obtain ⟨lines, hEq⟩ := get_chunks_for_an_array_contiguous file verbose name dc rank D
      data_type cdef byte_order hinfo hchunk hnt hempty
    obtain ⟨dc1, h1⟩ := contiguous_array_total verbose (file name) (endian_name_of byte_order)
      rank data_type dc hr hblocks
    exact ⟨dc1, by rw [hEq, bind_mk_returned]; exact bind_ret_of_returned _ _ dc1 h1⟩
  · obtain ⟨lines, hEq⟩ := get_chunks_for_an_array_chunked file verbose name dc rank D
      data_type cdef chunk_flag byte_order hinfo hchunk hf hr hnt hempty
    obtain ⟨dc1, h1⟩ := chunked_array_total verbose (file name) (endian_name_of byte_order)
      rank D data_type cdef chunk_flag dc hblocks hcds
    exact ⟨dc1, by rw [hEq, bind_mk_returned]; exact bind_ret_of_returned _ _ dc1 h1⟩

/-- A contiguous array with a negative rank: building the origin vector throws before any
query is made. -/
theorem array_negative_rank (file : String → SDS) (verbose : Bool) (name : String)
    (dc : DmrppCommon) (rank : Int) (D : List Int) (data_type : Int) (cdef : HDF_CHUNK_DEF)
    (byte_order : String)
    (hinfo : (file name).SDgetinfo = some (rank, D, data_type))
    (hchunk : (file name).SDgetchunkinfo = some (cdef, HDF_NONE))
    (hnt : (file name).Hgetntinfo = some byte_order)
    (hempty : (file name).SDcheckempty = some 0) (hrank : rank < 0) :
    (get_chunks_for_an_array file verbose name (some dc)).result
        = Outcome.thrown "std::length_error" ∧
      array_queries file verbose name dc = [] := by
  obtain ⟨lines, hEq⟩ := get_chunks_for_an_array_contiguous file verbose name dc rank D
    data_type cdef byte_order hinfo hchunk hnt hempty
  have hc : contiguous_array verbose (file name) (endian_name_of byte_order) rank data_type dc
      = ⟨[], Outcome.thrown "std::length_error"⟩ := by
    unfold contiguous_array
    simp only [if_pos hrank]
  unfold array_queries
  rw [hEq, bind_mk_returned, hc]
  simp only [Run.bind, List.append_nil, queries_of_VERBOSE]
  exact ⟨trivial, trivial⟩

/-- A chunked array with a zero among its chunk sizes: the division of line 297 is executed
with a zero divisor before any query is made. -/
theorem array_zero_chunk_size (file : String → SDS) (verbose : Bool) (name : String)
    (dc : DmrppCommon) (rank : Int) (D : List Int) (data_type : Int) (cdef : HDF_CHUNK_DEF)
    (chunk_flag : Int) (byte_order : String)
    (hinfo : (file name).SDgetinfo = some (rank, D, data_type))
    (hchunk : (file name).SDgetchunkinfo = some (cdef, chunk_flag))
    (hnt : (file name).Hgetntinfo = some byte_order)
    (hempty : (file name).SDcheckempty = some 0)
    (hflag : chunk_flag = HDF_CHUNK ∨ chunk_flag = HDF_COMP) (hrank : 0 < rank)
    (hzero : ∃ c ∈ read_chunk_dimension_sizes rank chunk_flag cdef, c = 0) :
    (get_chunks_for_an_array file verbose name (some dc)).result = Outcome.undefined ∧
      array_queries file verbose name dc = [] := by
  obtain ⟨lines, hEq⟩ := get_chunks_for_an_array_chunked file verbose name dc rank D
    data_type cdef chunk_flag byte_order hinfo hchunk hflag hrank hnt hempty
  obtain ⟨c, hc, hc0⟩ := hzero
  obtain ⟨i, hi, hget⟩ := List.getElem_of_mem hc
  have hi1 : i < rank.toNat := by
    rw [read_chunk_dimension_sizes_length] at hi; exact hi
  have hs : steps_loop D (read_chunk_dimension_sizes rank chunk_flag cdef) rank.toNat = none :=
    steps_loop_none D _ rank.toNat i hi1 (by rw [List.getD_eq_getElem _ _ hi, hget, hc0])
  have hca : chunked_array verbose (file name) (endian_name_of byte_order) rank D data_type
      cdef chunk_flag dc = ⟨[], Outcome.undefined⟩ := by
    unfold chunked_array
    simp only [hs]
  unfold array_queries
  rw [hEq, bind_mk_returned, hca]
  simp only [Run.bind, List.append_nil, queries_of_VERBOSE]
  exact ⟨trivial, trivial⟩

/-- C5, counterexample: two arrays on a catalog-capable node, every backing-store query
succeeding, neither reporting empty. The first has the flag `HDF_NONE` and the rank `-1`: the
call ends with `std::length_error` thrown, it returns neither `true` nor `false`. The second has
the flag `HDF_CHUNK`, the rank `1` and the chunk size `0`: the call ends in the division by zero
of line 297, it returns neither `true` nor `false`. -/
theorem C5_counterexample_negative_rank_and_zero_chunk :
    (example_negative_rank.SDgetinfo = some (-1, [], 5) ∧
      example_negative_rank.SDgetchunkinfo = some (⟨[], [], COMP_CODE_NONE⟩, HDF_NONE) ∧
      example_negative_rank.Hgetntinfo ≠ none ∧
      example_negative_rank.SDcheckempty = some 0 ∧
      (∀ g, example_negative_rank.blocks g ≠ none) ∧
      (get_chunks_for_an_array (fun _ => example_negative_rank) false "x"
        (some ⟨[], [], none⟩)).result = Outcome.thrown "std::length_error" ∧
      ¬ ∃ b node, (get_chunks_for_an_array (fun _ => example_negative_rank) false "x"
        (some ⟨[], [], none⟩)).result = Outcome.returned (b, node)) ∧
    (example_zero_chunk.SDgetinfo = some (1, [4], 5) ∧
      example_zero_chunk.SDgetchunkinfo = some (⟨[0], [0], COMP_CODE_NONE⟩, HDF_CHUNK) ∧
      example_zero_chunk.Hgetntinfo ≠ none ∧
      example_zero_chunk.SDcheckempty = some 0 ∧
      (∀ g, example_zero_chunk.blocks g ≠ none) ∧
      (get_chunks_for_an_array (fun _ => example_zero_chunk) false "y"
        (some ⟨[], [], none⟩)).result = Outcome.undefined ∧
      ¬ ∃ b node, (get_chunks_for_an_array (fun _ => example_zero_chunk) false "y"
        (some ⟨[], [], none⟩)).result = Outcome.returned (b, node)) :=
  ⟨⟨rfl, rfl, by decide, rfl, fun _ => Option.some_ne_none _, rfl,
      fun ⟨_, _, h⟩ =>
        Outcome.noConfusion ((rfl : _ = Outcome.thrown "std::length_error").symm.trans h)⟩,
    ⟨rfl, rfl, by decide, rfl, fun _ => Option.some_ne_none _, rfl,
      fun ⟨_, _, h⟩ => Outcome.noConfusion ((rfl : _ = Outcome.undefined).symm.trans h)⟩⟩

/-- C5, amended. Assume every backing-store query succeeds and the node is catalog-capable. Then
`get_chunks_for_an_array` returns `false` if and only if the chunking flag is `HDF_CHUNK` or
`HDF_COMP` and `rank <= 0`, or the flag is `HDF_NBIT`, or the flag is none of the four
recognised values, or the array reports empty. Of the other cases (array not empty), it returns
`true` for the flag `HDF_NONE` with a rank `>= 0` and for the flag `HDF_CHUNK` / `HDF_COMP` with
`rank > 0` and chunk sizes that are not zero. In the two cases that remain the call does not
return and makes no block-location query: for the flag `HDF_NONE` with `rank < 0` it ends with
`std::length_error` thrown, and for the flag `HDF_CHUNK` / `HDF_COMP` with `rank > 0` and a zero
among the chunk sizes it ends in the division by zero of line 297. -/
theorem C5_returns_false_iff (file : String → SDS) (verbose : Bool) (name : String)
    (dc : DmrppCommon) (rank : Int) (D : List Int) (data_type : Int) (cdef : HDF_CHUNK_DEF)
    (chunk_flag : Int) (byte_order : String) (is_empty : Int)
    (hinfo : (file name).SDgetinfo = some (rank, D, data_type))
    (hchunk : (file name).SDgetchunkinfo = some (cdef, chunk_flag))
    (hnt : (file name).Hgetntinfo = some byte_order)
    (hempty : (file name).SDcheckempty = some is_empty)
    (hblocks : ∀ g, (file name).blocks g ≠ none) :
    ((∃ node, (get_chunks_for_an_array file verbose name (some dc)).result
        = Outcome.returned (false, node)) ↔
      (((chunk_flag = HDF_CHUNK ∨ chunk_flag = HDF_COMP) ∧ rank ≤ 0) ∨ chunk_flag = HDF_NBIT ∨
        (chunk_flag ≠ HDF_NONE ∧ chunk_flag ≠ HDF_CHUNK ∧ chunk_flag ≠ HDF_COMP ∧
          chunk_flag ≠ HDF_NBIT) ∨ is_empty ≠ 0)) ∧
    (is_empty = 0 →
      ((chunk_flag = HDF_NONE ∧ 0 ≤ rank) ∨
        ((chunk_flag = HDF_CHUNK ∨ chunk_flag = HDF_COMP) ∧ 0 < rank ∧
          ∀ c ∈ read_chunk_dimension_sizes rank chunk_flag cdef, c ≠ 0)) →
      ∃ dc1, (get_chunks_for_an_array file verbose name (some dc)).result
        = Outcome.returned (true, some dc1)) ∧
    (is_empty = 0 → chunk_flag = HDF_NONE → rank < 0 →
      (get_chunks_for_an_array file verbose name (some dc)).result
          = Outcome.thrown "std::length_error" ∧
        array_queries file verbose name dc = []) ∧
    (is_empty = 0 → (chunk_flag = HDF_CHUNK ∨ chunk_flag = HDF_COMP) → 0 < rank →
      (∃ c ∈ read_chunk_dimension_sizes rank chunk_flag cdef, c = 0) →
      (get_chunks_for_an_array file verbose name (some dc)).result = Outcome.undefined ∧
        array_queries file verbose name dc = []) := by
  refine ⟨?_, ?_, ?_, ?_⟩
  · unfold get_chunks_for_an_array
    simp only [bind_mk_returned, hinfo, hchunk, hnt, hempty]
    rcases switch_chunk_flag_cases verbose chunk_flag rank with ⟨l, hs, hc⟩ | ⟨x, hs, hc⟩
    · simp only [hs, bind_mk_returned]
      have hnot : ¬ (((chunk_flag = HDF_CHUNK ∨ chunk_flag = HDF_COMP) ∧ rank ≤ 0) ∨
          chunk_flag = HDF_NBIT ∨ (chunk_flag ≠ HDF_NONE ∧ chunk_flag ≠ HDF_CHUNK ∧
            chunk_flag ≠ HDF_COMP ∧ chunk_flag ≠ HDF_NBIT)) := by
        rcases hc with h0 | ⟨h1, hr⟩
        · rw [h0]
          intro h
          rcases h with ⟨h | h, -⟩ | h | ⟨h, -⟩
          · exact absurd h (by decide)
          · exact absurd h (by decide)
          · exact absurd h (by decide)
          · exact h rfl
        · intro h
          rcases h with ⟨-, h⟩ | h | ⟨-, h2, h3, -⟩
          · omega
          · rcases h1 with h1 | h1 <;> rw [h1] at h <;> exact absurd h (by decide)
          · rcases h1 with h1 | h1
            · exact h2 h1
            · exact h3 h1
      by_cases he : is_empty ≠ 0
      · simp only [he, if_true, Bool.true_eq_false, if_false]
        simp [he]
      · simp only [he, if_false, Bool.true_eq_false]
        constructor
        · rintro ⟨node, h⟩
          exact absurd h (after_checks_not_false verbose (file name)
            (endian_name_of byte_order) rank D data_type cdef chunk_flag (some dc) node)
        · intro h
          rcases h with h | h | h | h
          · exact absurd (Or.inl h) hnot
          · exact absurd (Or.inr (Or.inl h)) hnot
          · exact absurd (Or.inr (Or.inr h)) hnot
          · exact h.elim
    · simp only [hs, bind_mk_returned, Run.ret]
      constructor
      · intro _
        rcases hc with h | h | h
        · exact Or.inl h
        · exact Or.inr (Or.inl h)
        · exact Or.inr (Or.inr (Or.inl h))
      · intro _
        exact ⟨some dc, by simp⟩
  · intro he hc
    exact array_returns_true file verbose name dc rank D data_type cdef chunk_flag byte_order
      hinfo hchunk hnt (by rw [hempty, he]) hblocks hc
  · intro he hf hr
    subst hf
    exact array_negative_rank file verbose name dc rank D data_type cdef byte_order
      hinfo hchunk hnt (by rw [hempty, he]) hr
  · intro he hf hr hz
    exact array_zero_chunk_size file verbose name dc rank D data_type cdef chunk_flag byte_order
      hinfo hchunk hnt (by rw [hempty, he]) hf hr hz

/-- C5, witness: the NBIT array is refused with `false`; the chunked array "temp" (rank 2, chunk
sizes `[2,2]`, not empty) is processed with `true`; the contiguous array of rank `-1` ends with
`std::length_error` thrown; the chunked array with the chunk size `0` ends in a division by
zero. -/
theorem C5_witness_nbit_and_temp :
    (∃ node, (get_chunks_for_an_array (fun _ => example_nbit) false "packed"
        (some ⟨[], [], none⟩)).result = Outcome.returned (false, node)) ∧
    (∃ dc1, (get_chunks_for_an_array (fun _ => example_temp) false "temp"
        (some ⟨[], [], none⟩)).result = Outcome.returned (true, some dc1)) ∧
    ((get_chunks_for_an_array (fun _ => example_negative_rank) false "x"
        (some ⟨[], [], none⟩)).result = Outcome.thrown "std::length_error" ∧
      array_queries (fun _ => example_negative_rank) false "x" ⟨[], [], none⟩ = []) ∧
    ((get_chunks_for_an_array (fun _ => example_zero_chunk) false "y"
        (some ⟨[], [], none⟩)).result = Outcome.undefined ∧
      array_queries (fun _ => example_zero_chunk) false "y" ⟨[], [], none⟩ = []) :=
  ⟨(C5_returns_false_iff (fun _ => example_nbit) false "packed" ⟨[], [], none⟩ 1 [8] 5
      ⟨[4], [4], COMP_CODE_NONE⟩ HDF_NBIT "bigEndian" 0 rfl rfl rfl rfl
      (fun _ => Option.some_ne_none _)).1.2 (Or.inr (Or.inl rfl)),
    (C5_returns_false_iff (fun _ => example_temp) false "temp" ⟨[], [], none⟩ 2 [4, 4] 5
      ⟨[2, 2], [2, 2], COMP_CODE_NONE⟩ HDF_CHUNK "bigEndian" 0 rfl rfl rfl rfl
      (fun _ => Option.some_ne_none _)).2.1 rfl
      (Or.inr ⟨Or.inl rfl, by decide, by decide⟩),
    (C5_returns_false_iff (fun _ => example_negative_rank) false "x" ⟨[], [], none⟩ (-1) [] 5
      ⟨[], [], COMP_CODE_NONE⟩ HDF_NONE "bigEndian" 0 rfl rfl rfl rfl
      (fun _ => Option.some_ne_none _)).2.2.1 rfl rfl (by decide),
    (C5_returns_false_iff (fun _ => example_zero_chunk) false "y" ⟨[], [], none⟩ 1 [4] 5
      ⟨[0], [0], COMP_CODE_NONE⟩ HDF_CHUNK "bigEndian" 0 rfl rfl rfl rfl
      (fun _ => Option.some_ne_none _)).2.2.2 rfl (Or.inl rfl) (by decide)
      ⟨0, by decide, rfl⟩⟩

/-! ## The walk and Grid variables -/

theorem bind_returned {α β : Type} (x : Run α) (f : α → Run β) (b : β)
    (h : (Run.bind x f).result = Outcome.returned b) :
    ∃ a, x.result = Outcome.returned a ∧ (f a).result = Outcome.returned b := by
  cases x with
  | mk t res =>
    cases res with
    | returned a => exact ⟨a, rfl, h⟩
    | exited => simp [Run.bind] at h
    | thrown w => simp [Run.bind] at h
    | undefined => simp [Run.bind] at h

theorem for_variables_group (file : String → SDS) (verbose : Bool) (g : D4Group)
    (vs : List BaseType) :
    for_variables file verbose (BaseType.dods_group_c g :: vs) =
      Run.bind (get_chunks_for_all_variables file verbose g) fun g =>
        Run.bind (for_variables file verbose vs) fun vs =>
          Run.ret (BaseType.dods_group_c g :: vs) := by
  rw [for_variables]

theorem for_variables_var (file : String → SDS) (verbose : Bool) (btp : BaseType)
    (vs : List BaseType) (h : ∀ g, btp ≠ BaseType.dods_group_c g) :
    for_variables file verbose (btp :: vs) =
      Run.bind (get_chunks_for_a_variable file verbose btp) fun r =>
        Run.bind (if r.1 = false then ERROR ("Could not include DMR++ metadata for variable " ++
            btp.FQN) () else Run.ret ()) fun _ =>
          Run.bind (for_variables file verbose vs) fun vs => Run.ret (r.2 :: vs) := by
  cases btp with
  | dods_group_c g => exact absurd rfl (h g)
  | dods_structure_c name vars => rw [for_variables]; intro g hg; cases hg
  | dods_sequence_c name vars => rw [for_variables]; intro g hg; cases hg
  | dods_grid_c name => rw [for_variables]; intro g hg; cases hg
  | dods_array_c name dc => rw [for_variables]; intro g hg; cases hg
  | atomic name type_name => rw [for_variables]; intro g hg; cases hg

theorem variables_meet_grid_group (g : D4Group) (vs : List BaseType) :
    variables_meet_grid (BaseType.dods_group_c g :: vs)
      = (g.meets_grid || variables_meet_grid vs) := by
  rw [variables_meet_grid]

theorem variables_meet_grid_var (btp : BaseType) (vs : List BaseType)
    (h : ∀ g, btp ≠ BaseType.dods_group_c g) :
    variables_meet_grid (btp :: vs) = (btp.meets_grid || variables_meet_grid vs) := by
  cases btp with
  | dods_group_c g => exact absurd rfl (h g)
  | dods_structure_c name vars => rw [variables_meet_grid]; exact h
  | dods_sequence_c name vars => rw [variables_meet_grid]; exact h
  | dods_grid_c name => rw [variables_meet_grid]; exact h
  | dods_array_c name dc => rw [variables_meet_grid]; exact h
  | atomic name type_name => rw [variables_meet_grid]; exact h

/-- A walk that meets a Grid does not return. -/
theorem group_meets_grid_not_returned (file : String → SDS) (verbose : Bool) (g : D4Group) :
    g.meets_grid = true →
      ∀ r, (get_chunks_for_all_variables file verbose g).result ≠ Outcome.returned r := by
  refine D4Group.rec
    (motive_1 := fun v =>
      (v.meets_grid = true →
        ∀ r, (get_chunks_for_a_variable file verbose v).result ≠ Outcome.returned r) ∧
      (∀ g1, v = BaseType.dods_group_c g1 → g1.meets_grid = true →
        ∀ r, (get_chunks_for_all_variables file verbose g1).result ≠ Outcome.returned r))
    (motive_2 := fun g1 => g1.meets_grid = true →
      ∀ r, (get_chunks_for_all_variables file verbose g1).result ≠ Outcome.returned r)
    (motive_3 := fun l =>
      (members_meet_grid l = true →
        ∀ r, (for_each_member file verbose l).result ≠ Outcome.returned r) ∧
      (variables_meet_grid l = true →
        ∀ r, (for_variables file verbose l).result ≠ Outcome.returned r))
    (motive_4 := fun l => groups_meet_grid l = true →
      ∀ r, (for_groups file verbose l).result ≠ Outcome.returned r)
    ?_ ?_ ?_ ?_ ?_ ?_ ?_ ?_ ?_ ?_ ?_ g
  · -- Structure
    intro name vars ih
    refine ⟨?_, fun g1 h => by cases h⟩
    intro hm r hr
    rw [BaseType.meets_grid] at hm
    rw [get_chunks_for_a_variable] at hr
    obtain ⟨a, ha, -⟩ := bind_returned _ _ _ hr
    exact ih.1 hm a ha
  · -- Sequence
    intro name vars _
    exact ⟨fun hm => by simp [BaseType.meets_grid] at hm, fun g1 h => by cases h⟩
  · -- Grid
    intro name
    refine ⟨fun _ r hr => ?_, fun g1 h => by cases h⟩
    rw [get_chunks_for_a_variable] at hr
    simp at hr
  · -- Array
    intro name dc
    exact ⟨fun hm => by simp [BaseType.meets_grid] at hm, fun g1 h => by cases h⟩
  · -- Group met as a variable
    intro g1 ih
    refine ⟨fun hm => by simp [BaseType.meets_grid] at hm, fun g2 h => ?_⟩
    cases h
    exact ih
  · -- Atomic
    intro name type_name
    exact ⟨fun hm => by simp [BaseType.meets_grid] at hm, fun g1 h => by cases h⟩
  · -- D4Group.mk
    intro name vars groups ihv ihg hm r hr
    rw [D4Group.meets_grid, Bool.or_eq_true] at hm
    rw [get_chunks_for_all_variables] at hr
    obtain ⟨a, ha, hr1⟩ := bind_returned _ _ _ hr
    rcases hm with hm | hm
    · exact ihv.2 hm a ha
    · obtain ⟨b, hb, -⟩ := bind_returned _ _ _ hr1
      exact ihg hm b hb
  · -- no variables
    exact ⟨fun hm => by simp [members_meet_grid] at hm,
      fun hm => by simp [variables_meet_grid] at hm⟩
  · -- a variable and the rest
    intro head tail ihh iht
    constructor
    · intro hm r hr
      rw [members_meet_grid, Bool.or_eq_true] at hm
      rw [for_each_member] at hr
      obtain ⟨a, ha, hr1⟩ := bind_returned _ _ _ hr
      rcases hm with hm | hm
      · exact ihh.1 hm a ha
      · obtain ⟨b, hb, -⟩ := bind_returned _ _ _ hr1
        exact iht.1 hm b hb
    · intro hm r hr
      by_cases hgrp : ∃ g1, head = BaseType.dods_group_c g1
      · obtain ⟨g1, rfl⟩ := hgrp
        rw [variables_meet_grid_group, Bool.or_eq_true] at hm
        rw [for_variables_group] at hr
        obtain ⟨a, ha, hr1⟩ := bind_returned _ _ _ hr
        rcases hm with hm | hm
        · exact ihh.2 g1 rfl hm a ha
        · obtain ⟨b, hb, -⟩ := bind_returned _ _ _ hr1
          exact iht.2 hm b hb
      · have hne : ∀ g1, head ≠ BaseType.dods_group_c g1 := fun g1 h => hgrp ⟨g1, h⟩
        rw [variables_meet_grid_var head tail hne, Bool.or_eq_true] at hm
        rw [for_variables_var file verbose head tail hne] at hr
        obtain ⟨a, ha, hr1⟩ := bind_returned _ _ _ hr
        rcases hm with hm | hm
        · exact ihh.1 hm a ha
        · obtain ⟨u, -, hr2⟩ := bind_returned _ _ _ hr1
          obtain ⟨b, hb, -⟩ := bind_returned _ _ _ hr2
          exact iht.2 hm b hb
  · -- no child groups
    intro hm
    simp [groups_meet_grid] at hm
  · -- a child group and the rest
    intro head tail ihh iht hm r hr
    rw [groups_meet_grid, Bool.or_eq_true] at hm
    rw [for_groups] at hr
    obtain ⟨a, ha, hr1⟩ := bind_returned _ _ _ hr
    rcases hm with hm | hm
    · exact ihh hm a ha
    · obtain ⟨b, hb, -⟩ := bind_returned _ _ _ hr1
      exact iht hm b hb

/-! ## The walk touches neither the file handle nor `std::cout` -/

theorem walk_events_nil : walk_events [] := fun e he => absurd he (List.not_mem_nil e)

theorem walk_events_append {a b : List Event} (ha : walk_events a) (hb : walk_events b) :
    walk_events (a ++ b) := by
  intro e he
  rcases List.mem_append.mp he with h | h
  · exact ha e h
  · exact hb e h

theorem walk_events_ERROR (x : String) : walk_events [Event.ERROR x] := by
  intro e he
  rw [List.mem_singleton] at he
  subst he
  exact ⟨by simp, by simp, by simp⟩

theorem walk_events_query (o : List Int) : walk_events [Event.query o] := by
  intro e he
  rw [List.mem_singleton] at he
  subst he
  exact ⟨by simp, by simp, by simp⟩

theorem walk_events_VERBOSE (verbose : Bool) (lines : List String) :
    walk_events (VERBOSE verbose lines) := by
  intro e he
  cases verbose with
  | false => simp [VERBOSE] at he
  | true =>
    simp only [VERBOSE, if_true, List.mem_map] at he
    obtain ⟨l, -, rfl⟩ := he
    exact ⟨by simp, by simp, by simp⟩

theorem walk_events_cons {e : Event} {t : List Event} (he : walk_events [e])
    (ht : walk_events t) : walk_events (e :: t) :=
  walk_events_append he ht

theorem walk_events_bind {α β : Type} (x : Run α) (f : α → Run β) (hx : walk_events x.trace)
    (hf : ∀ a, walk_events (f a).trace) : walk_events (Run.bind x f).trace := by
  cases x with
  | mk t res =>
    cases res with
    | returned a => exact walk_events_append hx (hf a)
    | exited => exact hx
    | thrown w => exact hx
    | undefined => exact hx

theorem walk_events_read_chunk (sds : SDS) (map_info : SD_mapping_info_t) (origin : List Int) :
    walk_events (read_chunk sds map_info origin).trace := by
  cases hb : sds.blocks origin with
  | none =>
    rw [read_chunk_none sds map_info origin hb]
    exact walk_events_cons (walk_events_query _) (walk_events_ERROR _)
  | some bs =>
    obtain ⟨ret, m1, h, -⟩ := read_chunk_some sds map_info origin bs hb
    rw [h]
    exact walk_events_query _

theorem walk_events_chunk_loop (verbose : Bool) (sds : SDS) (e : String) (rank : Int)
    (cds : List Nat) (steps : List Int) (n : Nat) :
    ∀ (k : Int) (map_info : SD_mapping_info_t) (strides : List Int) (dc : DmrppCommon),
      walk_events (chunk_loop verbose sds e rank cds steps n k map_info strides dc).trace := by
  induction n with
  | zero => intro k map_info strides dc; exact walk_events_nil
  | succ n ih =>
    intro k map_info strides dc
    cases hb : sds.blocks strides with
    | none =>
      rw [chunk_loop_succ_none _ _ _ _ _ _ _ _ _ _ _ hb]
      exact walk_events_cons (walk_events_query _) (walk_events_ERROR _)
    | some bs =>
      obtain ⟨map_info1, hstep⟩ :=
        chunk_loop_succ_some verbose sds e rank cds steps n k map_info strides dc bs hb
      rw [hstep]
      cases increase_strides k steps rank.toNat 1 strides with
      | none => exact walk_events_cons (walk_events_query _) (walk_events_VERBOSE _ _)
      | some next =>
        exact walk_events_cons (walk_events_query _)
          (walk_events_append (walk_events_VERBOSE _ _) (ih _ _ _ _))

theorem walk_events_chunked_array (verbose : Bool) (sds : SDS) (e : String) (rank : Int)
    (D : List Int) (data_type : Int) (cdef : HDF_CHUNK_DEF) (chunk_flag : Int)
    (dc : DmrppCommon) :
    walk_events (chunked_array verbose sds e rank D data_type cdef chunk_flag dc).trace := by
  unfold chunked_array
  cases hs : steps_loop D (read_chunk_dimension_sizes rank chunk_flag cdef) rank.toNat with
  | none => simp only [hs]; exact walk_events_nil
  | some p =>
    simp only [hs, bind_mk_returned]
    exact walk_events_append (walk_events_VERBOSE _ _)
      (walk_events_chunk_loop _ _ _ _ _ _ _ _ _ _ _)

theorem walk_events_contiguous_array (verbose : Bool) (sds : SDS) (e : String) (rank : Int)
    (data_type : Int) (dc : DmrppCommon) :
    walk_events (contiguous_array verbose sds e rank data_type dc).trace := by
  unfold contiguous_array
  split
  · exact walk_events_nil
  · apply walk_events_bind _ _ (walk_events_read_chunk _ _ _)
    intro r
    split
    · exact walk_events_ERROR _
    · exact walk_events_VERBOSE _ _

theorem walk_events_switch (verbose : Bool) (chunk_flag rank : Int) :
    walk_events (switch_chunk_flag verbose chunk_flag rank).trace := by
  rcases switch_chunk_flag_cases verbose chunk_flag rank with ⟨l, hs, -⟩ | ⟨x, hs, -⟩
  · rw [hs]; exact walk_events_VERBOSE _ _
  · rw [hs]; exact walk_events_ERROR _

theorem walk_events_array (file : String → SDS) (verbose : Bool) (name : String)
    (btp : Option DmrppCommon) :
    walk_events (get_chunks_for_an_array file verbose name btp).trace := by
  unfold get_chunks_for_an_array
  apply walk_events_bind _ _ (walk_events_VERBOSE _ _)
  intro _
  split
  · exact walk_events_ERROR _
  · split
    · exact walk_events_ERROR _
    · apply walk_events_bind _ _ (walk_events_switch _ _ _)
      intro go_on
      split
      · exact walk_events_nil
      · split
        · exact walk_events_ERROR _
        · split
          · exact walk_events_ERROR _
          · split
            · exact walk_events_VERBOSE _ _
            · split
              · exact walk_events_nil
              · split
                · exact walk_events_bind _ _ (walk_events_chunked_array _ _ _ _ _ _ _ _ _)
                    (fun _ => walk_events_nil)
                · split
                  · exact walk_events_bind _ _ (walk_events_contiguous_array _ _ _ _ _ _)
                      (fun _ => walk_events_nil)
                  · exact walk_events_ERROR _

theorem walk_events_ret {α : Type} (a : α) : walk_events (Run.ret a).trace := walk_events_nil

theorem walk_events_variable_step (file : String → SDS) (verbose : Bool) (btp : BaseType)
    (vs : List BaseType)
    (h1 : walk_events (get_chunks_for_a_variable file verbose btp).trace)
    (h2 : walk_events (for_variables file verbose vs).trace) :
    walk_events (Run.bind (get_chunks_for_a_variable file verbose btp) fun r =>
      Run.bind (if r.1 = false then ERROR ("Could not include DMR++ metadata for variable " ++
          btp.FQN) () else Run.ret ()) fun _ =>
        Run.bind (for_variables file verbose vs) fun vs => Run.ret (r.2 :: vs)).trace := by
  apply walk_events_bind _ _ h1
  intro r
  apply walk_events_bind
  · split
    · exact walk_events_ERROR _
    · exact walk_events_nil
  · intro _
    exact walk_events_bind _ _ h2 (fun _ => walk_events_nil)

/-- The walk of a group causes only `std::cerr` text and block-location queries. -/
theorem walk_events_group (file : String → SDS) (verbose : Bool) (g : D4Group) :
    walk_events (get_chunks_for_all_variables file verbose g).trace := by
  refine D4Group.rec
    (motive_1 := fun v =>
      walk_events (get_chunks_for_a_variable file verbose v).trace ∧
      (∀ g1, v = BaseType.dods_group_c g1 →
        walk_events (get_chunks_for_all_variables file verbose g1).trace))
    (motive_2 := fun g1 => walk_events (get_chunks_for_all_variables file verbose g1).trace)
    (motive_3 := fun l =>
      walk_events (for_each_member file verbose l).trace ∧
      walk_events (for_variables file verbose l).trace)
    (motive_4 := fun l => walk_events (for_groups file verbose l).trace)
    ?_ ?_ ?_ ?_ ?_ ?_ ?_ ?_ ?_ ?_ ?_ g
  · intro name vars ih
    refine ⟨?_, fun g1 h => by cases h⟩
    rw [get_chunks_for_a_variable]
    exact walk_events_bind _ _ ih.1 (fun _ => walk_events_nil)
  · intro name vars _
    refine ⟨?_, fun g1 h => by cases h⟩
    rw [get_chunks_for_a_variable]
    exact walk_events_VERBOSE _ _
  · intro name
    refine ⟨?_, fun g1 h => by cases h⟩
    rw [get_chunks_for_a_variable]
    exact walk_events_nil
  · intro name dc
    refine ⟨?_, fun g1 h => by cases h⟩
    rw [get_chunks_for_a_variable]
    exact walk_events_bind _ _ (walk_events_array _ _ _ _) (fun _ => walk_events_nil)
  · intro g1 ih
    refine ⟨?_, fun g2 h => by cases h; exact ih⟩
    cases g1 with
    | mk name vars groups =>
      rw [get_chunks_for_a_variable]
      exact walk_events_VERBOSE _ _
  · intro name type_name
    refine ⟨?_, fun g1 h => by cases h⟩
    rw [get_chunks_for_a_variable]
    exact walk_events_VERBOSE _ _
  · intro name vars groups ihv ihg
    rw [get_chunks_for_all_variables]
    apply walk_events_bind _ _ ihv.2
    intro _
    exact walk_events_bind _ _ ihg (fun _ => walk_events_nil)
  · exact ⟨by rw [for_each_member]; exact walk_events_nil,
      by rw [for_variables]; exact walk_events_nil⟩
  · intro head tail ihh iht
    constructor
    · rw [for_each_member]
      apply walk_events_bind _ _ ihh.1
      intro _
      exact walk_events_bind _ _ iht.1 (fun _ => walk_events_nil)
    · by_cases hgrp : ∃ g1, head = BaseType.dods_group_c g1
      · obtain ⟨g1, rfl⟩ := hgrp
        rw [for_variables_group]
        apply walk_events_bind _ _ (ihh.2 g1 rfl)
        intro _
        exact walk_events_bind _ _ iht.2 (fun _ => walk_events_nil)
      · rw [for_variables_var file verbose head tail (fun g1 h => hgrp ⟨g1, h⟩)]
        exact walk_events_variable_step file verbose head tail ihh.1 iht.2
  · exact walk_events_nil
  · intro head tail ihh iht
    rw [for_groups]
    apply walk_events_bind _ _ ihh
    intro _
    exact walk_events_bind _ _ iht (fun _ => walk_events_nil)

/-- The events of `add_chunk_information` other than opening and closing the file are those of
the walk: the document is not written there. -/
theorem add_chunk_information_no_document (h4_file : Option (String → SDS)) (verbose : Bool)
    (root : D4Group) :
    Event.cout_document ∉ (add_chunk_information h4_file verbose root).trace := by
  have hw : ∀ file, Event.cout_document ∉ (get_chunks_for_all_variables file verbose root).trace :=
    fun file h => (walk_events_group file verbose root _ h).2.2 rfl
  unfold add_chunk_information
  cases h4_file with
  | none => simp
  | some file =>
    have := hw file
    simp only
    split <;> simp [this]

/-- C7, as amended. If the walk of the tree meets a Grid variable (directly in a group, in a
nested group, or as a member, at any depth, of Structures in a group; the members of a Sequence
are not visited), then `get_chunks_for_all_variables` and `add_chunk_information` do not return,
and `build_dmrpp_from_dmr_file` does not return and never writes the document, whatever other
variables the tree holds and whatever the store answers. -/
theorem C7_grid_met_by_the_walk_is_fatal (h4_file : Option (String → SDS)) (verbose : Bool)
    (root : D4Group) (h : root.meets_grid = true) :
    (∀ r, (add_chunk_information h4_file verbose root).result ≠ Outcome.returned r) ∧
    (∀ r, (build_dmrpp_from_dmr_file root h4_file verbose).result ≠ Outcome.returned r) ∧
    Event.cout_document ∉ (build_dmrpp_from_dmr_file root h4_file verbose).trace := by
  have h1 : ∀ r, (add_chunk_information h4_file verbose root).result ≠ Outcome.returned r := by
    intro r hr
    unfold add_chunk_information at hr
    cases h4_file with
    | none => simp at hr
    | some file =>
      simp only at hr
      have hg := group_meets_grid_not_returned file verbose root h
      cases hres : (get_chunks_for_all_variables file verbose root).result with
      | returned g => exact hg g hres
      | exited => simp [hres] at hr
      | thrown w => simp [hres] at hr
      | undefined => simp [hres] at hr
  have hdoc := add_chunk_information_no_document h4_file verbose root
  refine ⟨h1, ?_, ?_⟩
  · intro r hr
    unfold build_dmrpp_from_dmr_file at hr
    obtain ⟨a, ha, -⟩ := bind_returned _ _ _ hr
    exact h1 a ha
  · unfold build_dmrpp_from_dmr_file
    cases hres : (add_chunk_information h4_file verbose root) with
    | mk t res =>
      rw [hres] at hdoc h1
      cases res with
      | returned g => exact absurd rfl (h1 g)
      | exited => exact hdoc
      | thrown w => exact hdoc
      | undefined => exact hdoc

/-- C7, witness: a Grid inside a Structure of a nested group, next to a valid array. -/
theorem C7_witness_grid_in_structure :
    (∀ r, (add_chunk_information (some fun _ => example_temp) false
        (D4Group.mk "/" [BaseType.dods_array_c "temp" (some ⟨[], [], none⟩)]
          [D4Group.mk "g" [BaseType.dods_structure_c "s" [BaseType.dods_grid_c "grid"]] []])).result
      ≠ Outcome.returned r) ∧
    (∀ r, (build_dmrpp_from_dmr_file
        (D4Group.mk "/" [BaseType.dods_array_c "temp" (some ⟨[], [], none⟩)]
          [D4Group.mk "g" [BaseType.dods_structure_c "s" [BaseType.dods_grid_c "grid"]] []])
        (some fun _ => example_temp) false).result ≠ Outcome.returned r) ∧
    Event.cout_document ∉ (build_dmrpp_from_dmr_file
        (D4Group.mk "/" [BaseType.dods_array_c "temp" (some ⟨[], [], none⟩)]
          [D4Group.mk "g" [BaseType.dods_structure_c "s" [BaseType.dods_grid_c "grid"]] []])
        (some fun _ => example_temp) false).trace :=
  C7_grid_met_by_the_walk_is_fatal (some fun _ => example_temp) false
    (D4Group.mk "/" [BaseType.dods_array_c "temp" (some ⟨[], [], none⟩)]
      [D4Group.mk "g" [BaseType.dods_structure_c "s" [BaseType.dods_grid_c "grid"]] []])
    (by decide)

/-- C7, counterexample to the claim as stated: a tree whose only variable is a Sequence that
holds a Grid contains a Grid, yet the build returns and the document is written. -/
theorem C7_counterexample_grid_in_sequence :
    D4Group.contains_grid
        (D4Group.mk "/" [BaseType.dods_sequence_c "seq" [BaseType.dods_grid_c "grid"]] [])
      = true ∧
    (∃ g, (build_dmrpp_from_dmr_file
        (D4Group.mk "/" [BaseType.dods_sequence_c "seq" [BaseType.dods_grid_c "grid"]] [])
        (some fun _ => example_temp) false).result = Outcome.returned g) ∧
    (build_dmrpp_from_dmr_file
        (D4Group.mk "/" [BaseType.dods_sequence_c "seq" [BaseType.dods_grid_c "grid"]] [])
        (some fun _ => example_temp) false).trace
      = [Event.SDstart, Event.ERROR "Could not include DMR++ metadata for variable seq",
          Event.Hclose, Event.cout_document] :=
  ⟨by decide, ⟨_, rfl⟩, by decide⟩

/-! ## Sequences -/

theorem get_chunks_for_a_variable_sequence (file : String → SDS) (verbose : Bool)
    (name : String) (vars : List BaseType) :
    get_chunks_for_a_variable file verbose (BaseType.dods_sequence_c name vars) =
      ⟨VERBOSE verbose [name ++ ": Sequence is not supported by DMR++ for HDF4 at this time."],
        Outcome.returned (false, BaseType.dods_sequence_c name vars)⟩ := by
  rw [get_chunks_for_a_variable]

theorem get_chunks_for_a_variable_array (file : String → SDS) (verbose : Bool)
    (name : String) (dc : Option DmrppCommon) :
    get_chunks_for_a_variable file verbose (BaseType.dods_array_c name dc) =
      Run.bind (get_chunks_for_an_array file verbose name dc) fun r =>
        Run.ret (r.1, BaseType.dods_array_c name r.2) := by
  rw [get_chunks_for_a_variable]

theorem for_variables_nil (file : String → SDS) (verbose : Bool) :
    for_variables file verbose [] = ⟨[], Outcome.returned []⟩ := rfl

theorem for_groups_nil (file : String → SDS) (verbose : Bool) :
    for_groups file verbose [] = ⟨[], Outcome.returned []⟩ := rfl

/-- The walk of a group that holds one successfully processed array and one Sequence, in
either order. -/
theorem walk_array_and_sequence (file : String → SDS) (verbose : Bool) (gname aname sname : String)
    (svars : List BaseType) (dc dc1 : DmrppCommon) (t : List Event)
    (hr : get_chunks_for_an_array file verbose aname (some dc) =
      ⟨t, Outcome.returned (true, some dc1)⟩) :
    get_chunks_for_all_variables file verbose
        (D4Group.mk gname [BaseType.dods_array_c aname (some dc)] []) =
      ⟨t, Outcome.returned (D4Group.mk gname [BaseType.dods_array_c aname (some dc1)] [])⟩ ∧
    get_chunks_for_all_variables file verbose
        (D4Group.mk gname [BaseType.dods_array_c aname (some dc),
          BaseType.dods_sequence_c sname svars] []) =
      ⟨t ++ (VERBOSE verbose
          [sname ++ ": Sequence is not supported by DMR++ for HDF4 at this time."] ++
          [could_not_include (BaseType.dods_sequence_c sname svars)]),
        Outcome.returned (D4Group.mk gname [BaseType.dods_array_c aname (some dc1),
          BaseType.dods_sequence_c sname svars] [])⟩ ∧
    get_chunks_for_all_variables file verbose
        (D4Group.mk gname [BaseType.dods_sequence_c sname svars,
          BaseType.dods_array_c aname (some dc)] []) =
      ⟨VERBOSE verbose [sname ++ ": Sequence is not supported by DMR++ for HDF4 at this time."] ++
          (could_not_include (BaseType.dods_sequence_c sname svars) :: t),
        Outcome.returned (D4Group.mk gname [BaseType.dods_sequence_c sname svars,
          BaseType.dods_array_c aname (some dc1)] [])⟩ := by
  have ha : ∀ g, BaseType.dods_array_c aname (some dc) ≠ BaseType.dods_group_c g :=
    fun g h => by cases h
  have hs : ∀ g, BaseType.dods_sequence_c sname svars ≠ BaseType.dods_group_c g :=
    fun g h => by cases h
  refine ⟨?_, ?_, ?_⟩
  · rw [get_chunks_for_all_variables, for_variables_var _ _ _ _ ha,
      get_chunks_for_a_variable_array, hr, for_variables_nil, for_groups_nil]
    simp [Run.bind, Run.ret]
  · rw [get_chunks_for_all_variables, for_variables_var _ _ _ _ ha, for_variables_var _ _ _ _ hs,
      get_chunks_for_a_variable_array, get_chunks_for_a_variable_sequence, hr, for_variables_nil,
      for_groups_nil]
    simp [Run.bind, Run.ret, ERROR, could_not_include, BaseType.FQN]
  · rw [get_chunks_for_all_variables, for_variables_var _ _ _ _ hs, for_variables_var _ _ _ _ ha,
      get_chunks_for_a_variable_array, get_chunks_for_a_variable_sequence, hr, for_variables_nil,
      for_groups_nil]
    simp [Run.bind, Run.ret, ERROR, could_not_include, BaseType.FQN]

/-- C8. `get_chunks_for_a_variable` returns `false` for a Sequence without visiting its members:
the Sequence and everything below it are left as they were, and no store query is made. For a
group made of one array of the data model whose store queries all succeed and one Sequence, in
either order, `get_chunks_for_all_variables` returns; the array has the catalog it has when it
is walked alone, the Sequence is unchanged, and the diagnostic "Could not include DMR++ metadata
for variable" is written for the Sequence. -/
theorem C8_sequence_skipped_walk_goes_on (file : String → SDS) (verbose : Bool)
    (gname aname sname : String) (svars : List BaseType) (dc : DmrppCommon) (rank : Int)
    (D : List Int) (data_type : Int) (cdef : HDF_CHUNK_DEF) (chunk_flag : Int)
    (byte_order : String)
    (hinfo : (file aname).SDgetinfo = some (rank, D, data_type))
    (hchunk : (file aname).SDgetchunkinfo = some (cdef, chunk_flag))
    (hnt : (file aname).Hgetntinfo = some byte_order)
    (hempty : (file aname).SDcheckempty = some 0)
    (hblocks : ∀ g, (file aname).blocks g ≠ none)
    (hc : (chunk_flag = HDF_NONE ∧ 0 ≤ rank) ∨
      ((chunk_flag = HDF_CHUNK ∨ chunk_flag = HDF_COMP) ∧ 0 < rank ∧
        ∀ c ∈ read_chunk_dimension_sizes rank chunk_flag cdef, c ≠ 0)) :
    (get_chunks_for_a_variable file verbose (BaseType.dods_sequence_c sname svars)).result
      = Outcome.returned (false, BaseType.dods_sequence_c sname svars) ∧
    queries_of (get_chunks_for_a_variable file verbose
      (BaseType.dods_sequence_c sname svars)).trace = [] ∧
    ∃ dc1,
      (get_chunks_for_all_variables file verbose
          (D4Group.mk gname [BaseType.dods_array_c aname (some dc)] [])).result =
        Outcome.returned (D4Group.mk gname [BaseType.dods_array_c aname (some dc1)] []) ∧
      (get_chunks_for_all_variables file verbose
          (D4Group.mk gname [BaseType.dods_array_c aname (some dc),
            BaseType.dods_sequence_c sname svars] [])).result =
        Outcome.returned (D4Group.mk gname [BaseType.dods_array_c aname (some dc1),
          BaseType.dods_sequence_c sname svars] []) ∧
      (get_chunks_for_all_variables file verbose
          (D4Group.mk gname [BaseType.dods_sequence_c sname svars,
            BaseType.dods_array_c aname (some dc)] [])).result =
        Outcome.returned (D4Group.mk gname [BaseType.dods_sequence_c sname svars,
          BaseType.dods_array_c aname (some dc1)] []) ∧
      could_not_include (BaseType.dods_sequence_c sname svars) ∈
        (get_chunks_for_all_variables file verbose
          (D4Group.mk gname [BaseType.dods_array_c aname (some dc),
            BaseType.dods_sequence_c sname svars] [])).trace ∧
      could_not_include (BaseType.dods_sequence_c sname svars) ∈
        (get_chunks_for_all_variables file verbose
          (D4Group.mk gname [BaseType.dods_sequence_c sname svars,
            BaseType.dods_array_c aname (some dc)] [])).trace := by
  obtain ⟨dc1, h1⟩ := array_returns_true file verbose aname dc rank D data_type cdef chunk_flag
    byte_order hinfo hchunk hnt hempty hblocks hc
  have hr : get_chunks_for_an_array file verbose aname (some dc) =
      ⟨(get_chunks_for_an_array file verbose aname (some dc)).trace,
        Outcome.returned (true, some dc1)⟩ := by
    rw [← h1]
  obtain ⟨w1, w2, w3⟩ := walk_array_and_sequence file verbose gname aname sname svars dc dc1 _ hr
  refine ⟨by rw [get_chunks_for_a_variable_sequence],
    by rw [get_chunks_for_a_variable_sequence]; exact queries_of_VERBOSE _ _, dc1, ?_, ?_, ?_, ?_, ?_⟩
  · rw [w1]
  · rw [w2]
  · rw [w3]
  · rw [w2]; simp
  · rw [w3]; simp

/-- C8, witness: the array "temp" and a Sequence "seq" with one member. -/
theorem C8_witness_temp_and_sequence :
    (get_chunks_for_all_variables (fun _ => example_temp) false
        (D4Group.mk "/" [BaseType.dods_array_c "temp" (some ⟨[], [], none⟩),
          BaseType.dods_sequence_c "seq" [BaseType.atomic "x" "Int32"]] [])).trace
      = [Event.query [0, 0], Event.query [0, 1], Event.query [1, 0], Event.query [1, 1],
          Event.ERROR "Could not include DMR++ metadata for variable seq"] ∧
    queries_of (get_chunks_for_a_variable (fun _ => example_temp) false
      (BaseType.dods_sequence_c "seq" [BaseType.atomic "x" "Int32"])).trace = [] :=
  ⟨by decide,
    (C8_sequence_skipped_walk_goes_on (fun _ => example_temp) false "/" "temp" "seq"
      [BaseType.atomic "x" "Int32"] ⟨[], [], none⟩ 2 [4, 4] 5 ⟨[2, 2], [2, 2], COMP_CODE_NONE⟩ HDF_CHUNK
      "bigEndian" rfl rfl rfl rfl (fun _ => Option.some_ne_none _)
      (Or.inr ⟨Or.inl rfl, by decide, by decide⟩)).2.1⟩

/-! ## Atomic variables -/

theorem is_atomic_eq {v : BaseType} (h : v.is_atomic = true) :
    ∃ name type_name, v = BaseType.atomic name type_name := by
  cases v with
  | atomic name type_name => exact ⟨name, type_name, rfl⟩
  | dods_structure_c name vars => simp [BaseType.is_atomic] at h
  | dods_sequence_c name vars => simp [BaseType.is_atomic] at h
  | dods_grid_c name => simp [BaseType.is_atomic] at h
  | dods_array_c name dc => simp [BaseType.is_atomic] at h
  | dods_group_c g => simp [BaseType.is_atomic] at h

theorem get_chunks_for_a_variable_atomic (file : String → SDS) (name type_name : String) :
    get_chunks_for_a_variable file false (BaseType.atomic name type_name) =
      ⟨[], Outcome.returned (false, BaseType.atomic name type_name)⟩ := by
  rw [get_chunks_for_a_variable]
  rfl

theorem for_each_member_atomics (file : String → SDS) (vars : List BaseType)
    (h : ∀ v ∈ vars, v.is_atomic = true) :
    for_each_member file false vars = ⟨[], Outcome.returned vars⟩ := by
  induction vars with
  | nil => rfl
  | cons v vs ih =>
    obtain ⟨name, type_name, rfl⟩ := is_atomic_eq (h v (List.mem_cons_self _ _))
    rw [for_each_member, get_chunks_for_a_variable_atomic,
      ih fun u hu => h u (List.mem_cons_of_mem _ hu)]
    rfl

theorem for_variables_atomics (file : String → SDS) (vars : List BaseType)
    (h : ∀ v ∈ vars, v.is_atomic = true) :
    for_variables file false vars = ⟨vars.map could_not_include, Outcome.returned vars⟩ := by
  induction vars with
  | nil => rfl
  | cons v vs ih =>
    obtain ⟨name, type_name, rfl⟩ := is_atomic_eq (h v (List.mem_cons_self _ _))
    rw [for_variables_var file false _ _ (fun g hg => by cases hg),
      get_chunks_for_a_variable_atomic, ih fun u hu => h u (List.mem_cons_of_mem _ hu)]
    simp [Run.bind, Run.ret, ERROR, could_not_include]

/-- C9, as amended. The walk attaches no catalog to Atomic variables and makes no store query for
them: the nodes are returned unchanged. With verbose mode off, a group that holds only Atomic
variables gets exactly one diagnostic per variable, in order, the text of line 402 with the
name of the variable; a group whose Atomic variables are the members of a Structure gets no
diagnostic at all. -/
theorem C9_atomic_diagnostics (file : String → SDS) (gname sname : String)
    (vars : List BaseType) (h : ∀ v ∈ vars, v.is_atomic = true) :
    get_chunks_for_all_variables file false (D4Group.mk gname vars []) =
      ⟨vars.map could_not_include, Outcome.returned (D4Group.mk gname vars [])⟩ ∧
    get_chunks_for_all_variables file false
        (D4Group.mk gname [BaseType.dods_structure_c sname vars] []) =
      ⟨[], Outcome.returned (D4Group.mk gname [BaseType.dods_structure_c sname vars] [])⟩ := by
  constructor
  · rw [get_chunks_for_all_variables, for_variables_atomics file vars h, for_groups_nil]
    simp [Run.bind, Run.ret]
  · rw [get_chunks_for_all_variables,
      for_variables_var file false _ _ (fun g hg => by cases hg), get_chunks_for_a_variable,
      for_each_member_atomics file vars h, for_variables_nil, for_groups_nil]
    simp [Run.bind, Run.ret]

/-- C9, witness: two Atomic variables directly in the root group, and the same two inside a
Structure. -/
theorem C9_witness_two_atomics :
    get_chunks_for_all_variables (fun _ => example_temp) false
        (D4Group.mk "/" [BaseType.atomic "x" "Int32", BaseType.atomic "y" "Float64"] []) =
      ⟨[BaseType.atomic "x" "Int32", BaseType.atomic "y" "Float64"].map could_not_include,
        Outcome.returned
          (D4Group.mk "/" [BaseType.atomic "x" "Int32", BaseType.atomic "y" "Float64"] [])⟩ ∧
    get_chunks_for_all_variables (fun _ => example_temp) false
        (D4Group.mk "/" [BaseType.dods_structure_c "s"
          [BaseType.atomic "x" "Int32", BaseType.atomic "y" "Float64"]] []) =
      ⟨[], Outcome.returned (D4Group.mk "/" [BaseType.dods_structure_c "s"
          [BaseType.atomic "x" "Int32", BaseType.atomic "y" "Float64"]] [])⟩ :=
  C9_atomic_diagnostics (fun _ => example_temp) "/" "s"
    [BaseType.atomic "x" "Int32", BaseType.atomic "y" "Float64"] (by decide)

/-- C9, counterexample to the claim as stated: the tree holds one Atomic variable, verbose mode
is off, and the diagnostic log after the walk is not empty. -/
theorem C9_counterexample_atomic_in_group :
    cerr_of (get_chunks_for_all_variables (fun _ => example_temp) false
        (D4Group.mk "/" [BaseType.atomic "x" "Int32"] [])).trace
      = ["Could not include DMR++ metadata for variable x"] ∧
    cerr_of (get_chunks_for_all_variables (fun _ => example_temp) false
        (D4Group.mk "/" [BaseType.atomic "x" "Int32"] [])).trace ≠ [] :=
  ⟨by decide, by decide⟩

/-! ## Recoverable skips inside a Structure -/

/-- C10, the code at the failing input. A Sequence and an empty array are skipped recoverably.
As members of a Structure, with verbose mode off, nothing at all is written for them, and the
Structure itself is reported as processed; directly in the group, line 402 writes one
diagnostic for each. -/
theorem C10_skips_inside_structure_are_silent :
    (get_chunks_for_all_variables (fun _ => example_empty) false
        (D4Group.mk "/" [BaseType.dods_structure_c "s"
          [BaseType.dods_sequence_c "seq" [], BaseType.dods_array_c "e" (some ⟨[], [], none⟩)]]
          [])).trace = [] ∧
    (get_chunks_for_a_variable (fun _ => example_empty) false
        (BaseType.dods_structure_c "s"
          [BaseType.dods_sequence_c "seq" [], BaseType.dods_array_c "e" (some ⟨[], [], none⟩)])).result
      = Outcome.returned (true, BaseType.dods_structure_c "s"
          [BaseType.dods_sequence_c "seq" [], BaseType.dods_array_c "e" (some ⟨[], [], none⟩)]) ∧
    (get_chunks_for_all_variables (fun _ => example_empty) false
        (D4Group.mk "/"
          [BaseType.dods_sequence_c "seq" [], BaseType.dods_array_c "e" (some ⟨[], [], none⟩)]
          [])).trace
      = [Event.ERROR "Could not include DMR++ metadata for variable seq",
          Event.ERROR "Could not include DMR++ metadata for variable e"] :=
  ⟨by decide, rfl, by decide⟩

/-! ## Byte order -/

theorem strncmp_eq_prefix (s lit : String) :
    strncmp_eq s lit lit.toList.length = true ↔ lit.toList <+: s.toList := by
  unfold strncmp_eq
  rw [beq_iff_eq, List.take_length, List.prefix_iff_eq_take]
  exact eq_comm

theorem read_chunk_congr (sds sds1 : SDS) (h : sds.blocks = sds1.blocks)
    (map_info : SD_mapping_info_t) (origin : List Int) :
    read_chunk sds map_info origin = read_chunk sds1 map_info origin := by
  simp only [read_chunk, SDgetdatainfo, h]

/-- The events of the enumeration loop and the way it ends depend neither on the byte order name
nor on the node the descriptors are appended to. -/
theorem chunk_loop_byte_order (verbose : Bool) (sds sds1 : SDS) (h : sds.blocks = sds1.blocks)
    (e e1 : String) (rank : Int) (cds : List Nat) (steps : List Int) (n : Nat) :
    ∀ (k : Int) (map_info : SD_mapping_info_t) (strides : List Int) (dc dc1 : DmrppCommon),
      (chunk_loop verbose sds e rank cds steps n k map_info strides dc).trace =
        (chunk_loop verbose sds1 e1 rank cds steps n k map_info strides dc1).trace ∧
      (chunk_loop verbose sds e rank cds steps n k map_info strides dc).result.map (fun _ => ()) =
        (chunk_loop verbose sds1 e1 rank cds steps n k map_info strides dc1).result.map
          (fun _ => ()) := by
  induction n with
  | zero => intro k map_info strides dc dc1; exact ⟨rfl, rfl⟩
  | succ n ih =>
    intro k map_info strides dc dc1
    rw [chunk_loop, chunk_loop, read_chunk_congr sds sds1 h]
    cases hrc : read_chunk sds1 map_info strides with
    | mk t res =>
      cases res with
      | returned r =>
        simp only [bind_mk_returned]
        by_cases hf : r.1 = FAIL
        · simp only [if_pos hf]
          constructor <;> first | rfl | trivial
        · simp only [if_neg hf]
          cases increase_strides k steps rank.toNat 1 strides with
          | none => exact ⟨rfl, rfl⟩
          | some next =>
            simp only
            obtain ⟨h1, h2⟩ := ih (k + 1) r.2 next
              (add_blocks e r.2 (write_chunk_position_in_array rank cds strides) dc)
              (add_blocks e1 r.2 (write_chunk_position_in_array rank cds strides) dc1)
            exact ⟨by rw [h1], h2⟩
      | exited => exact ⟨rfl, rfl⟩
      | thrown what => exact ⟨rfl, rfl⟩
      | undefined => exact ⟨rfl, rfl⟩

theorem map_bind_ret {α β γ : Type} (r : Run α) (g : α → β) (f : β → γ) :
    (Run.bind r fun a => Run.ret (g a)).result.map f = r.result.map fun a => f (g a) := by
  cases r with
  | mk t res => cases res <;> rfl

theorem map_map_unit {α β : Type} (x : Outcome α) (y : Outcome β) (c : Bool)
    (h : x.map (fun _ => ()) = y.map (fun _ => ())) :
    x.map (fun _ => c) = y.map (fun _ => c) := by
  cases x <;> cases y <;> simp [Outcome.map] at h ⊢
  exact h

theorem chunked_array_byte_order (verbose : Bool) (sds sds1 : SDS) (h : sds.blocks = sds1.blocks)
    (e e1 : String) (rank : Int) (D : List Int) (data_type : Int) (cdef : HDF_CHUNK_DEF)
    (chunk_flag : Int) (dc : DmrppCommon) :
    (chunked_array verbose sds e rank D data_type cdef chunk_flag dc).trace =
      (chunked_array verbose sds1 e1 rank D data_type cdef chunk_flag dc).trace ∧
    (chunked_array verbose sds e rank D data_type cdef chunk_flag dc).result.map (fun _ => ()) =
      (chunked_array verbose sds1 e1 rank D data_type cdef chunk_flag dc).result.map
        (fun _ => ()) := by
  unfold chunked_array
  cases hs : steps_loop D (read_chunk_dimension_sizes rank chunk_flag cdef) rank.toNat with
  | none => simp only [hs]; constructor <;> first | rfl | trivial
  | some p =>
    obtain ⟨steps, number_of_chunks⟩ := p
    simp only [hs, bind_mk_returned]
    obtain ⟨h1, h2⟩ := chunk_loop_byte_order verbose sds sds1 h e e1 rank
      (read_chunk_dimension_sizes rank chunk_flag cdef) steps number_of_chunks.toNat 0
      ⟨0, none, none, data_type, 0⟩ (List.replicate rank.toNat 0)
      ((ingest_compression rank chunk_flag dc).set_chunk_dimension_sizes
        (read_chunk_dimension_sizes rank chunk_flag cdef))
      ((ingest_compression rank chunk_flag dc).set_chunk_dimension_sizes
        (read_chunk_dimension_sizes rank chunk_flag cdef))
    exact ⟨by rw [h1], h2⟩

theorem contiguous_array_byte_order (verbose : Bool) (sds sds1 : SDS)
    (h : sds.blocks = sds1.blocks) (e e1 : String) (rank : Int) (data_type : Int)
    (dc : DmrppCommon) :
    (contiguous_array verbose sds e rank data_type dc).trace =
      (contiguous_array verbose sds1 e1 rank data_type dc).trace ∧
    (contiguous_array verbose sds e rank data_type dc).result.map (fun _ => ()) =
      (contiguous_array verbose sds1 e1 rank data_type dc).result.map (fun _ => ()) := by
  unfold contiguous_array
  by_cases hr : rank < 0
  · simp only [if_pos hr]
    constructor <;> first | rfl | trivial
  · simp only [if_neg hr]
    rw [read_chunk_congr sds sds1 h]
    cases hrc : read_chunk sds1 ⟨0, none, none, data_type, 0⟩ (List.replicate rank.toNat 0) with
    | mk t res =>
      cases res with
      | returned r =>
        simp only [bind_mk_returned]
        by_cases hf : r.1 = FAIL
        · simp only [if_pos hf]
          constructor <;> first | rfl | trivial
        · simp only [if_neg hf]
          constructor <;> first | rfl | trivial
      | exited => exact ⟨rfl, rfl⟩
      | thrown what => exact ⟨rfl, rfl⟩
      | undefined => exact ⟨rfl, rfl⟩

/-- Neither the events of `get_chunks_for_an_array`, nor the way it ends, nor the `bool` it
returns depend on the byte-order descriptor the store reports. -/
theorem get_chunks_for_an_array_byte_order (sds : SDS) (verbose : Bool) (name : String)
    (btp : Option DmrppCommon) (b b1 : String) :
    (get_chunks_for_an_array (fun _ => sds.with_byte_order b) verbose name btp).trace =
      (get_chunks_for_an_array (fun _ => sds.with_byte_order b1) verbose name btp).trace ∧
    (get_chunks_for_an_array (fun _ => sds.with_byte_order b) verbose name btp).result.map
        Prod.fst =
      (get_chunks_for_an_array (fun _ => sds.with_byte_order b1) verbose name btp).result.map
        Prod.fst := by
  unfold get_chunks_for_an_array
  simp only [SDS.with_byte_order, bind_mk_returned]
  cases sds.SDgetinfo with
  | none => constructor <;> simp only [Run.bind, Run.ret, FAIL_ERROR, Outcome.map, ↓reduceIte]
  | some info =>
    obtain ⟨rank, D, data_type⟩ := info
    cases sds.SDgetchunkinfo with
    | none => constructor <;> simp only [Run.bind, Run.ret, FAIL_ERROR, Outcome.map, ↓reduceIte]
    | some ci =>
      obtain ⟨cdef, chunk_flag⟩ := ci
      simp only
      cases hsw : switch_chunk_flag verbose chunk_flag rank with
      | mk t res =>
        cases res with
        | returned go_on =>
          simp only [bind_mk_returned]
          cases go_on with
          | false => constructor <;> simp only [Run.bind, Run.ret, FAIL_ERROR, Outcome.map, ↓reduceIte]
          | true =>
            simp only [Bool.true_eq_false, if_false]
            cases sds.SDcheckempty with
            | none => constructor <;> simp only [Run.bind, Run.ret, FAIL_ERROR, Outcome.map, ↓reduceIte]
            | some is_empty =>
              simp only
              by_cases he : is_empty ≠ 0
              · simp only [if_pos he]
                constructor <;> trivial
              · simp only [if_neg he]
                cases btp with
                | none => constructor <;> simp only [Run.bind, Run.ret, FAIL_ERROR, Outcome.map, ↓reduceIte]
                | some dc =>
                  simp only
                  by_cases hf : chunk_flag = HDF_CHUNK ∨ chunk_flag = HDF_COMP
                  · simp only [if_pos hf, bind_ret_trace, map_bind_ret]
                    obtain ⟨h1, h2⟩ := chunked_array_byte_order verbose
                      ⟨some (rank, D, data_type), some (cdef, chunk_flag), some b, some is_empty,
                        sds.blocks⟩
                      ⟨some (rank, D, data_type), some (cdef, chunk_flag), some b1, some is_empty,
                        sds.blocks⟩ rfl (endian_name_of b) (endian_name_of b1) rank D data_type
                      cdef chunk_flag dc
                    exact ⟨by rw [h1], map_map_unit _ _ true h2⟩
                  · simp only [if_neg hf]
                    by_cases h0 : chunk_flag = HDF_NONE
                    · simp only [if_pos h0, bind_ret_trace, map_bind_ret]
                      obtain ⟨h1, h2⟩ := contiguous_array_byte_order verbose
                        ⟨some (rank, D, data_type), some (cdef, chunk_flag), some b,
                          some is_empty, sds.blocks⟩
                        ⟨some (rank, D, data_type), some (cdef, chunk_flag), some b1,
                          some is_empty, sds.blocks⟩ rfl (endian_name_of b) (endian_name_of b1)
                        rank data_type dc
                      exact ⟨by rw [h1], map_map_unit _ _ true h2⟩
                    · simp only [if_neg h0]
                      constructor <;> trivial
        | exited => constructor <;> simp only [Run.bind, Run.ret, FAIL_ERROR, Outcome.map, ↓reduceIte]
        | thrown what => constructor <;> simp only [Run.bind, Run.ret, FAIL_ERROR, Outcome.map, ↓reduceIte]
        | undefined => constructor <;> simp only [Run.bind, Run.ret, FAIL_ERROR, Outcome.map, ↓reduceIte]

/-- C14, as the code resolves the byte order. The descriptor is compared with `strncmp` over the
first 9 (12) characters, so the test is a prefix test: the name is `BE` exactly when the
descriptor starts with "bigEndian", `LE` exactly when it does not and starts with
"littleEndian", and `UNKNOWN` in every other case; "bigEndian" gives `BE` and "littleEndian"
gives `LE`. The resolution is a total function, and whatever two descriptor values the store
reports for an array, `get_chunks_for_an_array` causes the same events, ends in the same way
and returns the same `bool`: the byte order never blocks cataloging. -/
theorem C14_byte_order_resolved_by_prefix (sds : SDS) (verbose : Bool) (name : String)
    (btp : Option DmrppCommon) (b b1 : String) :
    (endian_name_of b = "BE" ↔ "bigEndian".toList <+: b.toList) ∧
    (endian_name_of b = "LE" ↔
      ¬ "bigEndian".toList <+: b.toList ∧ "littleEndian".toList <+: b.toList) ∧
    (endian_name_of b = "UNKNOWN" ↔
      ¬ "bigEndian".toList <+: b.toList ∧ ¬ "littleEndian".toList <+: b.toList) ∧
    endian_name_of "bigEndian" = "BE" ∧ endian_name_of "littleEndian" = "LE" ∧
    (get_chunks_for_an_array (fun _ => sds.with_byte_order b) verbose name btp).trace =
      (get_chunks_for_an_array (fun _ => sds.with_byte_order b1) verbose name btp).trace ∧
    (get_chunks_for_an_array (fun _ => sds.with_byte_order b) verbose name btp).result.map
        Prod.fst =
      (get_chunks_for_an_array (fun _ => sds.with_byte_order b1) verbose name btp).result.map
        Prod.fst := by
  have hB : strncmp_eq b "bigEndian" 9 = true ↔ "bigEndian".toList <+: b.toList :=
    strncmp_eq_prefix b "bigEndian"
  have hL : strncmp_eq b "littleEndian" 12 = true ↔ "littleEndian".toList <+: b.toList :=
    strncmp_eq_prefix b "littleEndian"
  refine ⟨?_, ?_, ?_, by decide, by decide,
    get_chunks_for_an_array_byte_order sds verbose name btp b b1⟩
  · unfold endian_name_of
    rw [← hB]
    by_cases h1 : strncmp_eq b "bigEndian" 9 = true
    · simp [h1]
    · by_cases h2 : strncmp_eq b "littleEndian" 12 = true
      · simp [h1, h2]
      · simp [h1, h2]
  · unfold endian_name_of
    rw [← hB, ← hL]
    by_cases h1 : strncmp_eq b "bigEndian" 9 = true
    · simp [h1]
    · by_cases h2 : strncmp_eq b "littleEndian" 12 = true
      · simp [h1, h2]
      · simp [h1, h2]
  · unfold endian_name_of
    rw [← hB, ← hL]
    by_cases h1 : strncmp_eq b "bigEndian" 9 = true
    · simp [h1]
    · by_cases h2 : strncmp_eq b "littleEndian" 12 = true
      · simp [h1, h2]
      · simp [h1, h2]

/-- C14, counterexample: the descriptor "bigEndianX" is neither "bigEndian" nor "littleEndian",
and the byte order resolved for it is `BE`, not `UNKNOWN`; likewise "littleEndian2" gives
`LE`. -/
theorem C14_counterexample_longer_descriptor :
    "bigEndianX" ≠ "bigEndian" ∧ "bigEndianX" ≠ "littleEndian" ∧
      endian_name_of "bigEndianX" = "BE" ∧ endian_name_of "bigEndianX" ≠ "UNKNOWN" ∧
      "littleEndian2" ≠ "littleEndian" ∧ endian_name_of "littleEndian2" = "LE" := by
  decide

/-! ## What a call that returns `true` has recorded on the node -/

/-- A call that returns `true` has passed every check: the node is catalog-capable, the type
information is available, the array is not empty, and the chunking flag is `HDF_NONE` with a
rank `>= 0`, or `HDF_CHUNK` / `HDF_COMP` with a rank `> 0`. -/
theorem returned_true_inv (file : String → SDS) (verbose : Bool) (name : String)
    (btp : Option DmrppCommon) (dc1 : DmrppCommon) (rank : Int) (D : List Int) (data_type : Int)
    (cdef : HDF_CHUNK_DEF) (chunk_flag : Int)
    (hinfo : (file name).SDgetinfo = some (rank, D, data_type))
    (hchunk : (file name).SDgetchunkinfo = some (cdef, chunk_flag))
    (hret : (get_chunks_for_an_array file verbose name btp).result
      = Outcome.returned (true, some dc1)) :
    (∃ byte_order, (file name).Hgetntinfo = some byte_order) ∧
    (file name).SDcheckempty = some 0 ∧ (∃ dc, btp = some dc) ∧
    ((chunk_flag = HDF_NONE ∧ 0 ≤ rank) ∨
      ((chunk_flag = HDF_CHUNK ∨ chunk_flag = HDF_COMP) ∧ 0 < rank)) := by
  unfold get_chunks_for_an_array at hret
  simp only [hinfo, hchunk, bind_mk_returned] at hret
  rcases switch_chunk_flag_cases verbose chunk_flag rank with ⟨l, hs, hc⟩ | ⟨x, hs, hc⟩
  · simp only [hs, bind_mk_returned, Bool.true_eq_false, if_false] at hret
    cases hnt : (file name).Hgetntinfo with
    | none => simp [hnt, FAIL_ERROR] at hret
    | some byte_order =>
      cases hem : (file name).SDcheckempty with
      | none => simp [hnt, hem, FAIL_ERROR] at hret
      | some is_empty =>
        simp only [hnt, hem] at hret
        by_cases he : is_empty ≠ 0
        · simp [he] at hret
        · have he0 : is_empty = 0 := by omega
          subst he0
          simp only [ne_eq, not_true_eq_false, if_false] at hret
          cases btp with
          | none => simp at hret
          | some dc =>
            refine ⟨⟨byte_order, rfl⟩, rfl, ⟨dc, rfl⟩, ?_⟩
            rcases hc with h0 | h1
            · refine Or.inl ⟨h0, ?_⟩
              by_contra hneg
              have hlt : rank < 0 := by omega
              subst h0
              have hnc : ¬ (HDF_NONE = HDF_CHUNK ∨ HDF_NONE = HDF_COMP) := by decide
              simp only [if_neg hnc, if_true] at hret
              simp [contiguous_array, hlt, Run.bind] at hret
            · exact Or.inr h1
  · simp only [hs, bind_mk_returned] at hret
    simp [Run.ret] at hret

theorem foldl_ingest_compression_type (codec : String) (l : List Nat) :
    ∀ dc : DmrppCommon,
      (l.foldl (fun dc _ => dc.ingest_compression_type codec) dc).compression_type =
        if l = [] then dc.compression_type else some codec := by
  induction l with
  | nil => intro dc; rfl
  | cons i is ih =>
    intro dc
    rw [List.foldl_cons, ih]
    by_cases h : is = [] <;> simp [h, DmrppCommon.ingest_compression_type]

theorem foldl_id_node (l : List Nat) (dc : DmrppCommon) :
    l.foldl (fun dc _ => dc) dc = dc := by
  induction l with
  | nil => rfl
  | cons i is ih => rw [List.foldl_cons, ih]

/-- The codec name after the loop of lines 269-279, for `rank > 0`: left as it was for
`HDF_CHUNK`, the literal "deflate" otherwise. -/
theorem ingest_compression_type_eq (rank chunk_flag : Int) (dc : DmrppCommon) (hrank : 0 < rank) :
    (ingest_compression rank chunk_flag dc).compression_type =
      if chunk_flag = HDF_CHUNK then dc.compression_type else some "deflate" := by
  unfold ingest_compression
  by_cases h : chunk_flag = HDF_CHUNK
  · simp only [if_pos h, foldl_id_node]
  · simp only [if_neg h, foldl_ingest_compression_type]
    have hne : List.range rank.toNat ≠ [] := by
      intro h0
      have := congrArg List.length h0
      simp at this
      omega
    rw [if_neg hne]

/-- The chunked branch, when it returns: the codec name on the node is the one left by the loop
of lines 269-279. -/
theorem chunked_array_compression (verbose : Bool) (sds : SDS) (e : String) (rank : Int)
    (D : List Int) (data_type : Int) (cdef : HDF_CHUNK_DEF) (chunk_flag : Int)
    (dc dc1 : DmrppCommon)
    (h : (chunked_array verbose sds e rank D data_type cdef chunk_flag dc).result
      = Outcome.returned dc1) :
    dc1.compression_type = (ingest_compression rank chunk_flag dc).compression_type := by
  unfold chunked_array at h
  cases hs : steps_loop D (read_chunk_dimension_sizes rank chunk_flag cdef) rank.toNat with
  | none => simp [hs] at h
  | some p =>
    obtain ⟨steps, number_of_chunks⟩ := p
    simp only [hs, bind_mk_returned] at h
    obtain ⟨hcat, -⟩ := chunk_loop_returned verbose sds e rank _ steps _ _ _ _ _ dc1 h
    rw [hcat]
    rfl

theorem catalog_of_position_length (sds : SDS) (e : String) (rank : Int) (cds : List Nat)
    (qs : List (List Int)) :
    ∀ c ∈ catalog_of sds e rank cds qs, c.position_in_array.length = rank.toNat := by
  intro c hc
  simp only [catalog_of, descriptors_of, List.mem_flatMap, List.mem_map] at hc
  obtain ⟨g, -, b, -, rfl⟩ := hc
  simp [write_chunk_position_in_array]

/-! ## Chunk dimension sizes and codec name -/

/-- C15. Let `get_chunks_for_an_array` return `true` for an array of rank `rank`. If the chunking
flag is `HDF_CHUNK` or `HDF_COMP`, the chunk dimension sizes recorded on the variable have length
exactly `rank`, and the `i`-th entry is the `i`-th chunk length the store reports, read from
`cdef.chunk_lengths` for `HDF_CHUNK` and from `cdef.comp.chunk_lengths` for `HDF_COMP`
(converted from `int32` to `unsigned long long`, which keeps every non-negative value). If the
flag is `HDF_NONE`, no chunk dimension sizes are recorded: the field is left as it was. In both
cases every descriptor the call appended has a `position_in_array` of length exactly `rank`. -/
theorem C15_chunk_dimension_sizes_and_positions_have_length_rank (file : String → SDS)
    (verbose : Bool) (name : String) (dc dc1 : DmrppCommon) (rank : Int) (D : List Int)
    (data_type : Int) (cdef : HDF_CHUNK_DEF) (chunk_flag : Int)
    (hinfo : (file name).SDgetinfo = some (rank, D, data_type))
    (hchunk : (file name).SDgetchunkinfo = some (cdef, chunk_flag))
    (hret : (get_chunks_for_an_array file verbose name (some dc)).result
      = Outcome.returned (true, some dc1)) :
    ((chunk_flag = HDF_CHUNK ∨ chunk_flag = HDF_COMP) →
      dc1.chunk_dimension_sizes.length = rank.toNat ∧
      (∀ i, i < rank.toNat → dc1.chunk_dimension_sizes.getD i 0 =
        wrap_uint64 ((if chunk_flag = HDF_CHUNK then cdef.chunk_lengths
          else cdef.comp_chunk_lengths).getD i 0)) ∧
      (∀ i, i < rank.toNat →
        0 ≤ (if chunk_flag = HDF_CHUNK then cdef.chunk_lengths
          else cdef.comp_chunk_lengths).getD i 0 →
        (if chunk_flag = HDF_CHUNK then cdef.chunk_lengths
          else cdef.comp_chunk_lengths).getD i 0 < 2147483648 →
        ((dc1.chunk_dimension_sizes.getD i 0 : Nat) : Int) =
          (if chunk_flag = HDF_CHUNK then cdef.chunk_lengths
            else cdef.comp_chunk_lengths).getD i 0)) ∧
    (chunk_flag = HDF_NONE → dc1.chunk_dimension_sizes = dc.chunk_dimension_sizes) ∧
    ∃ added, dc1.chunks = dc.chunks ++ added ∧
      ∀ c ∈ added, c.position_in_array.length = rank.toNat := by
  obtain ⟨⟨byte_order, hnt⟩, hempty, -, hc⟩ := returned_true_inv file verbose name (some dc) dc1
    rank D data_type cdef chunk_flag hinfo hchunk hret
  rcases hc with ⟨h0, hr⟩ | ⟨hf, hr⟩
  · subst h0
    obtain ⟨lines, hEq⟩ := get_chunks_for_an_array_contiguous file verbose name dc rank D
      data_type cdef byte_order hinfo hchunk hnt hempty
    rw [hEq, bind_mk_returned] at hret
    obtain ⟨dc2, hdc2, hg⟩ := (bind_ret_returned _ _ _).1 hret
    simp only [Prod.mk.injEq, Option.some.injEq, true_and] at hg
    subst hg
    cases hb : (file name).blocks (List.replicate rank.toNat 0) with
    | none =>
      rw [contiguous_array_none verbose _ _ rank data_type dc hr hb] at hdc2
      simp at hdc2
    | some bs =>
      obtain ⟨l2, h2⟩ := contiguous_array_some verbose _ (endian_name_of byte_order) rank
        data_type dc bs hr hb
      rw [h2] at hdc2
      simp only [Outcome.returned.injEq] at hdc2
      subst hdc2
      refine ⟨fun h => ?_, fun _ => rfl, _, rfl, ?_⟩
      · rcases h with h | h <;> exact absurd h (by decide)
      · intro c hc
        simp only [descriptors_of, List.mem_map] at hc
        obtain ⟨b, -, rfl⟩ := hc
        simp
  · obtain ⟨lines, hEq⟩ := get_chunks_for_an_array_chunked file verbose name dc rank D data_type
      cdef chunk_flag byte_order hinfo hchunk hf hr hnt hempty
    rw [hEq, bind_mk_returned] at hret
    obtain ⟨dc2, hdc2, hg⟩ := (bind_ret_returned _ _ _).1 hret
    simp only [Prod.mk.injEq, Option.some.injEq, true_and] at hg
    subst hg
    obtain ⟨hcat, hcds, -⟩ := chunked_array_returned verbose (file name) _ rank D data_type cdef
      chunk_flag dc dc2 hdc2
    have hget : ∀ i, i < rank.toNat → dc2.chunk_dimension_sizes.getD i 0 =
        wrap_uint64 ((if chunk_flag = HDF_CHUNK then cdef.chunk_lengths
          else cdef.comp_chunk_lengths).getD i 0) := by
      intro i hi
      rw [hcds, read_chunk_dimension_sizes_getD, getD_map_range _ _ _ _ hi]
      rfl
    refine ⟨fun _ => ⟨?_, hget, ?_⟩, fun h0 => ?_, _, hcat, catalog_of_position_length _ _ _ _ _⟩
    · rw [hcds, read_chunk_dimension_sizes_length]
    · intro i hi h1 h2
      rw [hget i hi]
      unfold wrap_uint64
      rw [Int.emod_eq_of_lt h1 (by omega), Int.toNat_of_nonneg h1]
    · rcases hf with h | h <;> rw [h] at h0 <;> exact absurd h0 (by decide)

/-- C15, witness: the chunked array "temp" (rank 2, chunk dims `[2,2]`): the recorded chunk
dimension sizes are `[2,2]`, and the four descriptors have positions of length 2. -/
theorem C15_witness_temp :
    (get_chunks_for_an_array (fun _ => example_temp) false "temp" (some ⟨[], [], none⟩)).result
      = Outcome.returned (true, some
          ⟨[⟨"BE", 8, 0, [0, 0]⟩, ⟨"BE", 8, 1, [0, 2]⟩, ⟨"BE", 8, 100, [2, 0]⟩,
            ⟨"BE", 8, 101, [2, 2]⟩], [2, 2], none⟩) ∧
    ([2, 2] : List Nat).length = (2 : Int).toNat ∧
    ((([2, 2] : List Nat).getD 1 0 : Nat) : Int) = ([2, 2] : List Int).getD 1 0 :=
  ⟨by decide,
    ((C15_chunk_dimension_sizes_and_positions_have_length_rank (fun _ => example_temp) false
      "temp" ⟨[], [], none⟩ ⟨[⟨"BE", 8, 0, [0, 0]⟩, ⟨"BE", 8, 1, [0, 2]⟩, ⟨"BE", 8, 100, [2, 0]⟩,
            ⟨"BE", 8, 101, [2, 2]⟩], [2, 2], none⟩ 2 [4, 4] 5 ⟨[2, 2], [2, 2], COMP_CODE_NONE⟩
      HDF_CHUNK rfl rfl (by decide)).1 (Or.inl rfl)).1,
    ((C15_chunk_dimension_sizes_and_positions_have_length_rank (fun _ => example_temp) false
      "temp" ⟨[], [], none⟩ ⟨[⟨"BE", 8, 0, [0, 0]⟩, ⟨"BE", 8, 1, [0, 2]⟩, ⟨"BE", 8, 100, [2, 0]⟩,
            ⟨"BE", 8, 101, [2, 2]⟩], [2, 2], none⟩ 2 [4, 4] 5 ⟨[2, 2], [2, 2], COMP_CODE_NONE⟩
      HDF_CHUNK rfl rfl (by decide)).1 (Or.inl rfl)).2.2 1 (by decide) (by decide) (by decide)⟩

/-- C16, the code at the failing input. The store reports the array "rle" as chunked and
compressed (`HDF_COMP`, rank 1) with compression type `COMP_CODE_RLE`, which is not
`COMP_CODE_DEFLATE`; the codec name recorded on the variable is "deflate". For the chunked,
uncompressed array "temp" and the contiguous array "lat" no codec name is recorded. -/
theorem C16_codec_name_recorded_for_rle_is_deflate :
    example_rle.SDgetchunkinfo = some (⟨[2], [2], COMP_CODE_RLE⟩, HDF_COMP) ∧
    COMP_CODE_RLE ≠ COMP_CODE_DEFLATE ∧
    (get_chunks_for_an_array (fun _ => example_rle) false "rle" (some ⟨[], [], none⟩)).result
      = Outcome.returned (true, some
          ⟨[⟨"BE", 16, 0, [0]⟩, ⟨"BE", 16, 16, [2]⟩], [2], some "deflate"⟩) ∧
    (get_chunks_for_an_array (fun _ => example_temp) false "temp" (some ⟨[], [], none⟩)).result
      = Outcome.returned (true, some
          ⟨[⟨"BE", 8, 0, [0, 0]⟩, ⟨"BE", 8, 1, [0, 2]⟩, ⟨"BE", 8, 100, [2, 0]⟩,
            ⟨"BE", 8, 101, [2, 2]⟩], [2, 2], none⟩) ∧
    (get_chunks_for_an_array (fun _ => example_lat) false "lat" (some ⟨[], [], none⟩)).result
      = Outcome.returned (true, some
          ⟨[⟨"LE", 24, 294, [0]⟩, ⟨"LE", 16, 4096, [0]⟩], [], none⟩) := by
  refine ⟨rfl, by decide, by decide, by decide, by decide⟩

/-! ## `qc_input_file` -/

/-- C13. `qc_input_file` returns normally if and only if the path is not empty, the file can be
opened for reading and `Hishdf` reports an HDF4 file; otherwise it throws a fatal error, and the
checks are made in this order: an empty path throws `MissingPath` before any access to the
file; a file that cannot be opened throws `Unreadable` (with the `strerror` text and the two
stream-state flags) after the attempt to open it and before `Hopen` / `Hishdf` examine the
signature; a file that opens but is not reported as HDF4 throws `WrongFormat`, the handle
opened for the check having been closed. -/
theorem C13_qc_input_file_checks_in_order (file_fqn : String) (disk : String → InputFile) :
    ((qc_input_file file_fqn disk).2 = Except.ok () ↔
      file_fqn ≠ "" ∧ (disk file_fqn).ifstream_fails = false ∧ (disk file_fqn).Hishdf = 1) ∧
    (file_fqn = "" →
      qc_input_file file_fqn disk = ([], Except.error QcError.MissingPath)) ∧
    (file_fqn ≠ "" → (disk file_fqn).ifstream_fails = true →
      qc_input_file file_fqn disk = ([FileAccess.ifstream_open file_fqn],
        Except.error (QcError.Unreadable (disk file_fqn).strerror (disk file_fqn).failbit
          (disk file_fqn).badbit))) ∧
    (file_fqn ≠ "" → (disk file_fqn).ifstream_fails = false → (disk file_fqn).Hishdf ≠ 1 →
      qc_input_file file_fqn disk = ([FileAccess.ifstream_open file_fqn,
        FileAccess.Hopen file_fqn, FileAccess.Hishdf file_fqn, FileAccess.Hclose],
        Except.error QcError.WrongFormat)) ∧
    (file_fqn ≠ "" → (disk file_fqn).ifstream_fails = false → (disk file_fqn).Hishdf = 1 →
      qc_input_file file_fqn disk = ([FileAccess.ifstream_open file_fqn,
        FileAccess.Hopen file_fqn, FileAccess.Hishdf file_fqn, FileAccess.Hclose],
        Except.ok ())) := by
  unfold qc_input_file
  by_cases h0 : file_fqn = ""
  · simp [h0]
  · by_cases h1 : (disk file_fqn).ifstream_fails = true
    · simp [h0, h1]
    · have h1f : (disk file_fqn).ifstream_fails = false := by simpa using h1
      by_cases h2 : (disk file_fqn).Hishdf = 1
      · simp [h0, h1f, h2]
      · simp [h0, h1f, h2]

/-- C13, witness: a path at which an HDF4 file is found passes; the same path with a file that
cannot be opened is `Unreadable`, and the signature is not examined. -/
theorem C13_witness_paths :
    (qc_input_file "/data/a.hdf" (fun _ => ⟨false, "", false, false, 1⟩)).2 = Except.ok () ∧
    qc_input_file "/data/a.hdf" (fun _ => ⟨true, "No such file or directory", true, false, 0⟩)
      = ([FileAccess.ifstream_open "/data/a.hdf"],
        Except.error (QcError.Unreadable "No such file or directory" true false)) :=
  ⟨((C13_qc_input_file_checks_in_order "/data/a.hdf" (fun _ => ⟨false, "", false, false, 1⟩)).1).2
      ⟨by decide, rfl, rfl⟩,
    (C13_qc_input_file_checks_in_order "/data/a.hdf"
      (fun _ => ⟨true, "No such file or directory", true, false, 0⟩)).2.2.1 (by decide) rfl⟩

/-! ## The file handle -/

theorem walk_events_filter {t : List Event} (h : walk_events t) :
    t.filter (fun e => decide (e = Event.SDstart)) = [] ∧
    t.filter (fun e => decide (e = Event.Hclose)) = [] := by
  constructor
  · rw [List.filter_eq_nil_iff]
    intro e he
    simpa using (h e he).1
  · rw [List.filter_eq_nil_iff]
    intro e he
    simpa using (h e he).2.1

/-- The handle over the exit paths of `add_chunk_information`, once `SDstart` has opened the
file: `SDstart` is the first event and happens once. When the call returns or an exception
leaves it, `Hclose` is the last event and happens exactly once. When the walk ends in
`FAIL_ERROR` (which calls `exit(1)`) or in a division by zero, `Hclose` does not happen. -/
theorem add_chunk_information_handle (file : String → SDS) (verbose : Bool) (root : D4Group) :
    (add_chunk_information (some file) verbose root).trace.head? = some Event.SDstart ∧
    (add_chunk_information (some file) verbose root).trace.filter
      (fun e => decide (e = Event.SDstart)) = [Event.SDstart] ∧
    (add_chunk_information (some file) verbose root).result.map (fun _ => ()) =
      (get_chunks_for_all_variables file verbose root).result.map (fun _ => ()) ∧
    (((∃ g, (add_chunk_information (some file) verbose root).result = Outcome.returned g) ∨
        ∃ what, (add_chunk_information (some file) verbose root).result = Outcome.thrown what) →
      (add_chunk_information (some file) verbose root).trace.filter
          (fun e => decide (e = Event.Hclose)) = [Event.Hclose] ∧
        (add_chunk_information (some file) verbose root).trace.getLast? = some Event.Hclose) ∧
    (((add_chunk_information (some file) verbose root).result = Outcome.exited ∨
        (add_chunk_information (some file) verbose root).result = Outcome.undefined) →
      Event.Hclose ∉ (add_chunk_information (some file) verbose root).trace) := by
  have hw := walk_events_group file verbose root
  obtain ⟨hs, hc⟩ := walk_events_filter hw
  have hmem : Event.Hclose ∉ (get_chunks_for_all_variables file verbose root).trace :=
    fun h => (hw _ h).2.1 rfl
  unfold add_chunk_information
  simp only
  cases hres : (get_chunks_for_all_variables file verbose root).result with
  | returned g =>
    simp only [Outcome.map]
    refine ⟨rfl, ?_, trivial, fun _ => ⟨?_, ?_⟩, fun h => ?_⟩
    · simp [List.filter_cons, List.filter_append, hs]
    · simp [List.filter_cons, List.filter_append, hc]
    · exact List.getLast?_concat _
    · rcases h with h | h <;> simp at h
  | thrown what =>
    simp only [Outcome.map]
    refine ⟨rfl, ?_, trivial, fun _ => ⟨?_, ?_⟩, fun h => ?_⟩
    · simp [List.filter_cons, List.filter_append, hs]
    · simp [List.filter_cons, List.filter_append, hc]
    · exact List.getLast?_concat _
    · rcases h with h | h <;> simp at h
  | exited =>
    simp only [Outcome.map]
    refine ⟨rfl, ?_, trivial, fun h => ?_, fun _ => ?_⟩
    · simp [List.filter_cons, hs]
    · rcases h with ⟨g, h⟩ | ⟨w, h⟩ <;> simp at h
    · simpa using hmem
  | undefined =>
    simp only [Outcome.map]
    refine ⟨rfl, ?_, trivial, fun h => ?_, fun _ => ?_⟩
    · simp [List.filter_cons, hs]
    · rcases h with ⟨g, h⟩ | ⟨w, h⟩ <;> simp at h
    · simpa using hmem

/-- C11, the code at the failing input. The file is opened, the store cannot report the block
locations of the contiguous array "lat", `FAIL_ERROR` ends the process with `exit(1)`, and
`Hclose` is never called: the events are `SDstart`, the query, the error text. On the sibling
path, a Grid (an exception), the `catch (...)` handler closes the handle once; and so does the
normal return. -/
theorem C11_handle_not_released_on_exit :
    (add_chunk_information (some fun _ => example_unreadable) false
        (D4Group.mk "/" [BaseType.dods_array_c "lat" (some ⟨[], [], none⟩)] [])).trace
      = [Event.SDstart, Event.query [0],
          Event.ERROR "SDgetedatainfo() failed in read_chunk()."] ∧
    (add_chunk_information (some fun _ => example_unreadable) false
        (D4Group.mk "/" [BaseType.dods_array_c "lat" (some ⟨[], [], none⟩)] [])).result
      = Outcome.exited ∧
    Event.Hclose ∉ (add_chunk_information (some fun _ => example_unreadable) false
        (D4Group.mk "/" [BaseType.dods_array_c "lat" (some ⟨[], [], none⟩)] [])).trace ∧
    (add_chunk_information (some fun _ => example_lat) false
        (D4Group.mk "/" [BaseType.dods_grid_c "g"] [])).trace
      = [Event.SDstart, Event.Hclose] ∧
    (add_chunk_information (some fun _ => example_lat) false
        (D4Group.mk "/" [BaseType.dods_grid_c "g"] [])).result
      = Outcome.thrown "BESInternalError" ∧
    (add_chunk_information (some fun _ => example_lat) false
        (D4Group.mk "/" [BaseType.dods_array_c "lat" (some ⟨[], [], none⟩)] [])).trace
      = [Event.SDstart, Event.query [0], Event.Hclose] := by
  refine ⟨by decide, rfl, by decide, by decide, rfl, by decide⟩

/-! ## The odometer digits stay in range -/

theorem getD_set_int (l : List Int) (i j : Nat) (v : Int) (hi : i < l.length) :
    (l.set i v).getD j 0 = if j = i then v else l.getD j 0 := by
  rw [List.getD_eq_getElem?_getD, List.getD_eq_getElem?_getD, List.getElem?_set]
  by_cases h : i = j
  · subst h
    simp [hi]
  · have h1 : ¬ j = i := fun e => h e.symm
    simp [h, h1]

/-- One odometer update keeps every digit in range. No bound on the product of the step counts
is needed. -/
theorem increase_strides_in_range (k : Int) (steps : List Int)
    (hsteps : ∀ i, i < steps.length → steps.getD i 0 < 2147483648) (n : Nat) :
    ∀ (scale : Int) (strides next : List Int), n ≤ steps.length →
      strides_in_range steps strides →
      increase_strides k steps n scale strides = some next → strides_in_range steps next := by
  induction n with
  | zero =>
    intro scale strides next _ hB h
    simp only [increase_strides, Option.some.injEq] at h
    rw [← h]
    exact hB
  | succ i ih =>
    intro scale strides next hn hB h
    have hi : i < steps.length := hn
    rw [increase_strides] at h
    by_cases h0 : scale = 0
    · simp [h0] at h
    · rw [if_neg h0] at h
      by_cases hd : (k + 1).tmod scale = 0
      · rw [if_pos hd] at h
        by_cases hs : steps.getD i 0 = 0
        · rw [if_pos hs] at h
          cases h
        · rw [if_neg hs] at h
          refine ih _ _ _ (Nat.le_of_lt hi) ?_ h
          obtain ⟨hlen, hr⟩ := hB
          refine ⟨by rw [List.length_set, hlen], ?_⟩
          intro j hj
          rw [getD_set_int _ _ _ _ (by rw [hlen]; exact hi)]
          by_cases hji : j = i
          · subst hji
            rw [if_pos rfl]
            obtain ⟨h1, h2⟩ := hr j hj
            have h3 := hsteps j hj
            rw [wrap_int32_of_range (by omega) (by omega),
              Int.tmod_eq_emod (by omega) (by omega)]
            exact ⟨Int.emod_nonneg _ (by omega), Int.emod_lt_of_pos _ (by omega)⟩
          · rw [if_neg hji]
            exact hr j hj
      · rw [if_neg hd] at h
        exact ih _ _ _ (Nat.le_of_lt hi) hB h

/-- Every coordinate the enumeration loop queries has its digits in range, when the loop starts
with digits in range. -/
theorem chunk_loop_in_range (verbose : Bool) (sds : SDS) (e : String) (rank : Int)
    (cds : List Nat) (steps : List Int)
    (hsteps : ∀ i, i < steps.length → steps.getD i 0 < 2147483648)
    (hrank : rank.toNat = steps.length) (n : Nat) :
    ∀ (k : Int) (map_info : SD_mapping_info_t) (strides : List Int) (dc : DmrppCommon),
      strides_in_range steps strides →
      ∀ o ∈ queries_of (chunk_loop verbose sds e rank cds steps n k map_info strides dc).trace,
        strides_in_range steps o := by
  induction n with
  | zero =>
    intro k map_info strides dc _ o ho
    rw [chunk_loop_zero, queries_of_nil] at ho
    exact absurd ho (List.not_mem_nil o)
  | succ n ih =>
    intro k map_info strides dc hB o ho
    cases hb : sds.blocks strides with
    | none =>
      rw [chunk_loop_succ_none _ _ _ _ _ _ _ _ _ _ _ hb, queries_of_cons_query,
        queries_of_cons_ERROR, queries_of_nil, List.mem_singleton] at ho
      rw [ho]
      exact hB
    | some bs =>
      obtain ⟨map_info1, hstep⟩ :=
        chunk_loop_succ_some verbose sds e rank cds steps n k map_info strides dc bs hb
      rw [hstep] at ho
      cases hinc : increase_strides k steps rank.toNat 1 strides with
      | none =>
        rw [hinc] at ho
        simp only [queries_of_cons_query, queries_of_chunk_blocks_verbose, List.mem_singleton] at ho
        rw [ho]
        exact hB
      | some next =>
        rw [hinc] at ho
        simp only [queries_of_cons_query, queries_of_append, queries_of_chunk_blocks_verbose,
          List.nil_append, List.mem_cons] at ho
        rcases ho with ho | ho
        · rw [ho]
          exact hB
        · have hnext := increase_strides_in_range k steps hsteps rank.toNat 1 strides next
            (by rw [hrank]) hB hinc
          exact ih _ _ _ _ hnext o ho

/-! ## Chunked arrays, whatever the product of the step counts -/

theorem steps_loop_steps {sds : SDS} {rank : Int} {D : List Int} {data_type : Int}
    {cdef : HDF_CHUNK_DEF} {chunk_flag : Int} {C : List Int}
    (h : ChunkedArray sds rank D data_type cdef chunk_flag C) :
    steps_loop D (C.map Int.toNat) rank.toNat =
      some ((step_counts D C).map (fun s : Nat => (s : Int)),
        wrap_int32 ((step_counts D C).map fun s : Nat => (s : Int)).prod) := by
  rw [steps_loop_eq, steps_wf h]
  intro i hi
  have hiC : i < C.length := by rw [h.C_length]; exact hi
  have hr := h.C_range _ (getD_mem hiC)
  rw [getD_map_toNat]
  omega

/-- The chunked branch on a well-formed chunked array: the enumeration loop runs
`number_of_chunks` times, the `int` product of the step counts, starting at the all-zero
coordinate. -/
theorem chunked_array_steps (verbose : Bool) (sds : SDS) (e : String) (dc : DmrppCommon)
    {rank : Int} {D : List Int} {data_type : Int} {cdef : HDF_CHUNK_DEF} {chunk_flag : Int}
    {C : List Int} (h : ChunkedArray sds rank D data_type cdef chunk_flag C) :
    ∃ lines, chunked_array verbose sds e rank D data_type cdef chunk_flag dc =
      Run.bind ⟨VERBOSE verbose lines, Outcome.returned ()⟩ fun _ =>
        chunk_loop verbose sds e rank (C.map Int.toNat)
          ((step_counts D C).map fun s : Nat => (s : Int))
          (wrap_int32 ((step_counts D C).map fun s : Nat => (s : Int)).prod).toNat 0
          ⟨0, none, none, data_type, 0⟩ (List.replicate rank.toNat 0)
          ((ingest_compression rank chunk_flag dc).set_chunk_dimension_sizes
            (C.map Int.toNat)) := by
  refine ⟨["number_of_chunks: " ++
      toString (wrap_int32 ((step_counts D C).map fun s : Nat => (s : Int)).prod),
    "rank: " ++ toString rank, "chunk dimension sizes: ",
    String.join ((C.map Int.toNat).map fun c : Nat => toString (wrap_int32 (c : Int)) ++ " ")],
    ?_⟩
  unfold chunked_array
  simp only [read_chunk_dimension_sizes_wf h, steps_loop_steps h]

/-- The enumeration loop executes no remainder by zero and throws nothing, when
`number_of_chunks` is the `int` product of the step counts. -/
theorem chunk_loop_defined (verbose : Bool) (sds : SDS) (e : String) (rank : Int)
    (cds : List Nat) (steps : List Int) (hrank : rank.toNat = steps.length) (n : Nat)
    (hnum : n ≠ 0 → wrap_int32 steps.prod ≠ 0) :
    ∀ (k : Int) (map_info : SD_mapping_info_t) (strides : List Int) (dc : DmrppCommon),
      (chunk_loop verbose sds e rank cds steps n k map_info strides dc).result
          ≠ Outcome.undefined ∧
      ∀ what, (chunk_loop verbose sds e rank cds steps n k map_info strides dc).result
          ≠ Outcome.thrown what := by
  induction n with
  | zero =>
    intro k map_info strides dc
    rw [chunk_loop_zero]
    exact ⟨by simp, by simp⟩
  | succ n ih =>
    intro k map_info strides dc
    have hw : wrap_int32 steps.prod ≠ 0 := hnum (Nat.succ_ne_zero n)
    cases hb : sds.blocks strides with
    | none =>
      rw [chunk_loop_succ_none _ _ _ _ _ _ _ _ _ _ _ hb]
      exact ⟨by simp, by simp⟩
    | some bs =>
      obtain ⟨map_info1, hstep⟩ :=
        chunk_loop_succ_some verbose sds e rank cds steps n k map_info strides dc bs hb
      obtain ⟨next, hnext⟩ := increase_strides_start k steps hw strides
      rw [hstep, hrank, hnext]
      exact ih (fun _ => hw) _ _ _ _

theorem step_counts_rank {sds : SDS} {rank : Int} {D : List Int} {data_type : Int}
    {cdef : HDF_CHUNK_DEF} {chunk_flag : Int} {C : List Int}
    (h : ChunkedArray sds rank D data_type cdef chunk_flag C) :
    ((step_counts D C).map fun s : Nat => (s : Int)).length = rank.toNat := by
  rw [List.length_map, step_counts_length D C (by rw [h.D_length, h.C_length]), h.C_length]

/-- The chunked branch on a well-formed chunked array divides by zero nowhere. -/
theorem chunked_array_defined (verbose : Bool) (sds : SDS) (e : String) (dc : DmrppCommon)
    {rank : Int} {D : List Int} {data_type : Int} {cdef : HDF_CHUNK_DEF} {chunk_flag : Int}
    {C : List Int} (h : ChunkedArray sds rank D data_type cdef chunk_flag C) :
    (chunked_array verbose sds e rank D data_type cdef chunk_flag dc).result
      ≠ Outcome.undefined := by
  obtain ⟨lines, hEq⟩ := chunked_array_steps verbose sds e dc h
  rw [hEq, bind_mk_returned]
  refine (chunk_loop_defined verbose sds e rank _ _ (step_counts_rank h).symm _ ?_ _ _ _ _).1
  intro hn h0
  rw [h0] at hn
  exact hn rfl

theorem bind_ret_undefined {α β : Type} (r : Run α) (g : α → β)
    (h : (Run.bind r fun a => Run.ret (g a)).result = Outcome.undefined) :
    r.result = Outcome.undefined := by
  cases r with
  | mk t res => cases res <;> simp [Run.bind, Run.ret] at h ⊢

/-- A call on a chunked array of rank `> 0` either stops before the chunked branch, without a
query, or is the chunked branch followed by `return true`. -/
theorem array_chunked_cases (file : String → SDS) (verbose : Bool) (name : String)
    (btp : Option DmrppCommon) (rank : Int) (D : List Int) (data_type : Int)
    (cdef : HDF_CHUNK_DEF) (chunk_flag : Int)
    (hinfo : (file name).SDgetinfo = some (rank, D, data_type))
    (hchunk : (file name).SDgetchunkinfo = some (cdef, chunk_flag))
    (hflag : chunk_flag = HDF_CHUNK ∨ chunk_flag = HDF_COMP) (hrank : 0 < rank) :
    (queries_of (get_chunks_for_an_array file verbose name btp).trace = [] ∧
      (get_chunks_for_an_array file verbose name btp).result ≠ Outcome.undefined ∧
      ∀ dc1, (get_chunks_for_an_array file verbose name btp).result
        ≠ Outcome.returned (true, some dc1)) ∨
    ∃ byte_order dc lines, (file name).Hgetntinfo = some byte_order ∧
      (file name).SDcheckempty = some 0 ∧ btp = some dc ∧
      get_chunks_for_an_array file verbose name btp =
        Run.bind ⟨VERBOSE verbose lines, Outcome.returned ()⟩ fun _ =>
          Run.bind (chunked_array verbose (file name) (endian_name_of byte_order) rank D
            data_type cdef chunk_flag dc) fun dc => Run.ret (true, some dc) := by
  cases hnt : (file name).Hgetntinfo with
  | none =>
    left
    unfold get_chunks_for_an_array
    simp only [hinfo, hchunk, hnt, switch_chunk_flag_chunked verbose chunk_flag rank hflag hrank,
      bind_mk_returned, Bool.true_eq_false, if_false, FAIL_ERROR, queries_of_append,
      queries_of_VERBOSE, queries_of_cons_ERROR, queries_of_nil, List.append_nil]
    exact ⟨trivial, by simp, by simp⟩
  | some byte_order =>
    cases hem : (file name).SDcheckempty with
    | none =>
      left
      unfold get_chunks_for_an_array
      simp only [hinfo, hchunk, hnt, hem,
        switch_chunk_flag_chunked verbose chunk_flag rank hflag hrank,
        bind_mk_returned, Bool.true_eq_false, if_false, FAIL_ERROR, queries_of_append,
        queries_of_VERBOSE, queries_of_cons_ERROR, queries_of_nil, List.append_nil]
      exact ⟨trivial, by simp, by simp⟩
    | some is_empty =>
      by_cases he : is_empty ≠ 0
      · left
        unfold get_chunks_for_an_array
        simp only [hinfo, hchunk, hnt, hem,
          switch_chunk_flag_chunked verbose chunk_flag rank hflag hrank,
          bind_mk_returned, Bool.true_eq_false, if_false, if_pos he, queries_of_append,
          queries_of_VERBOSE, queries_of_nil, List.append_nil]
        exact ⟨trivial, by simp, by simp⟩
      · have he0 : is_empty = 0 := by omega
        subst he0
        cases btp with
        | none =>
          left
          unfold get_chunks_for_an_array
          simp only [hinfo, hchunk, hnt, hem,
            switch_chunk_flag_chunked verbose chunk_flag rank hflag hrank,
            bind_mk_returned, Bool.true_eq_false, if_false, ne_eq, not_true_eq_false,
            queries_of_append, queries_of_VERBOSE, queries_of_nil, List.append_nil]
          exact ⟨trivial, by simp, by simp⟩
        | some dc =>
          right
          obtain ⟨lines, hEq⟩ := get_chunks_for_an_array_chunked file verbose name dc rank D
            data_type cdef chunk_flag byte_order hinfo hchunk hflag hrank hnt hem
          exact ⟨byte_order, dc, lines, rfl, rfl, rfl, hEq⟩

/-- The queries of a call on a well-formed chunked array are those of the enumeration loop, run
`number_of_chunks` times from the all-zero coordinate; and the node of a call that returns
`true` is the node the loop returns. -/
theorem array_queries_loop (file : String → SDS) (verbose : Bool) (name : String)
    (dc : DmrppCommon) (rank : Int) (D : List Int) (data_type : Int) (cdef : HDF_CHUNK_DEF)
    (chunk_flag : Int) (C : List Int)
    (harr : ChunkedArray (file name) rank D data_type cdef chunk_flag C) :
    (array_queries file verbose name dc = [] ∧
      ∀ dc1, (get_chunks_for_an_array file verbose name (some dc)).result
        ≠ Outcome.returned (true, some dc1)) ∨
    ∃ e, array_queries file verbose name dc =
        queries_of (chunk_loop verbose (file name) e rank (C.map Int.toNat)
          ((step_counts D C).map fun s : Nat => (s : Int))
          (wrap_int32 ((step_counts D C).map fun s : Nat => (s : Int)).prod).toNat 0
          ⟨0, none, none, data_type, 0⟩ (List.replicate rank.toNat 0)
          ((ingest_compression rank chunk_flag dc).set_chunk_dimension_sizes
            (C.map Int.toNat))).trace ∧
      ∀ dc1, (get_chunks_for_an_array file verbose name (some dc)).result
          = Outcome.returned (true, some dc1) →
        (chunk_loop verbose (file name) e rank (C.map Int.toNat)
          ((step_counts D C).map fun s : Nat => (s : Int))
          (wrap_int32 ((step_counts D C).map fun s : Nat => (s : Int)).prod).toNat 0
          ⟨0, none, none, data_type, 0⟩ (List.replicate rank.toNat 0)
          ((ingest_compression rank chunk_flag dc).set_chunk_dimension_sizes
            (C.map Int.toNat))).result = Outcome.returned dc1 := by
  rcases array_chunked_cases file verbose name (some dc) rank D data_type cdef chunk_flag
    harr.info harr.chunkinfo harr.flag harr.rank_pos with ⟨h1, -, h3⟩ | ⟨b, dc0, lines, -, -, hdc, hEq⟩
  · exact Or.inl ⟨h1, h3⟩
  · right
    simp only [Option.some.injEq] at hdc
    subst hdc
    obtain ⟨lines2, hEq2⟩ := chunked_array_steps verbose (file name) (endian_name_of b) dc harr
    refine ⟨endian_name_of b, ?_, ?_⟩
    · unfold array_queries
      rw [hEq, bind_mk_returned]
      simp only [queries_of_append, queries_of_VERBOSE, List.nil_append, bind_ret_trace]
      rw [hEq2, bind_mk_returned]
      simp only [queries_of_append, queries_of_VERBOSE, List.nil_append]
    · intro dc1 hret
      rw [hEq, bind_mk_returned] at hret
      obtain ⟨dc2, hdc2, hg⟩ := (bind_ret_returned _ _ _).1 hret
      simp only [Prod.mk.injEq, Option.some.injEq, true_and] at hg
      subst hg
      rw [hEq2, bind_mk_returned] at hdc2
      exact hdc2

/-- When the enumeration loop of a well-formed chunked array makes a query, `number_of_chunks`
is not zero. -/
theorem array_queries_number_of_chunks (file : String → SDS) (verbose : Bool) (name : String)
    (dc : DmrppCommon) (rank : Int) (D : List Int) (data_type : Int) (cdef : HDF_CHUNK_DEF)
    (chunk_flag : Int) (C : List Int)
    (harr : ChunkedArray (file name) rank D data_type cdef chunk_flag C)
    (hq : array_queries file verbose name dc ≠ []) :
    wrap_int32 ((step_counts D C).map fun s : Nat => (s : Int)).prod ≠ 0 := by
  intro h0
  rcases array_queries_loop file verbose name dc rank D data_type cdef chunk_flag C harr with
    ⟨h1, -⟩ | ⟨e, h1, -⟩
  · exact hq h1
  · apply hq
    rw [h1, h0]
    rfl

theorem prod_ne_zero_getD (steps : List Int) (h : steps.prod ≠ 0) (i : Nat)
    (hi : i < steps.length) : steps.getD i 0 ≠ 0 := by
  intro h0
  apply h
  apply List.prod_eq_zero
  rw [← h0, List.getD_eq_getElem _ _ hi]
  exact List.getElem_mem _

theorem wrap_int32_ne_zero {x : Int} (h : wrap_int32 x ≠ 0) : x ≠ 0 := by
  intro h0
  apply h
  rw [h0]
  rfl

theorem wrap_int32_drop_ne_zero (steps : List Int) (h : wrap_int32 steps.prod ≠ 0) (i : Nat) :
    wrap_int32 (steps.drop i).prod ≠ 0 := by
  intro h0
  apply h
  rw [wrap_int32_eq_zero_iff] at h0 ⊢
  rw [← List.prod_take_mul_prod_drop steps i]
  exact Dvd.dvd.mul_left h0 _

/-- C20. For a chunked (or chunked and compressed) array with rank `> 0`, non-negative
dimension sizes and positive chunk sizes, whatever the product of the step counts: the step
computation of lines 293-300 divides by the chunk sizes, which are not zero, and yields
`steps[i] = D[i] div C[i]`; whenever the body of the enumeration loop executes (a query is
made), every `steps[i]` is non-zero, every running value of `scale` (the `int` product of the
steps of the dimensions after `i`) is non-zero, and the odometer update is defined for every
`k` and every stride vector; the call never ends in a division by zero; and when some dimension
has `D[i] < C[i]`, the loop body is never entered: no query is made. -/
theorem C20_odometer_never_divides_by_zero (file : String → SDS) (verbose : Bool)
    (name : String) (dc : DmrppCommon) (rank : Int) (D : List Int) (data_type : Int)
    (cdef : HDF_CHUNK_DEF) (chunk_flag : Int) (C : List Int)
    (harr : ChunkedArray (file name) rank D data_type cdef chunk_flag C) :
    steps_loop D (read_chunk_dimension_sizes rank chunk_flag cdef) rank.toNat =
      some ((step_counts D C).map (fun s : Nat => (s : Int)),
        wrap_int32 ((step_counts D C).map fun s : Nat => (s : Int)).prod) ∧
    (array_queries file verbose name dc ≠ [] →
      (∀ i, i < rank.toNat → ((step_counts D C).map fun s : Nat => (s : Int)).getD i 0 ≠ 0) ∧
      (∀ i, i ≤ rank.toNat →
        wrap_int32 (((step_counts D C).map fun s : Nat => (s : Int)).drop i).prod ≠ 0) ∧
      ∀ (k : Int) (strides : List Int), ∃ next,
        increase_strides k ((step_counts D C).map fun s : Nat => (s : Int)) rank.toNat 1 strides
          = some next) ∧
    (get_chunks_for_an_array file verbose name (some dc)).result ≠ Outcome.undefined ∧
    ((∃ i, i < rank.toNat ∧ D.getD i 0 < C.getD i 0) →
      array_queries file verbose name dc = []) := by
  have hlen := step_counts_rank harr
  have hkey : array_queries file verbose name dc ≠ [] →
      ∀ i, i < rank.toNat → ((step_counts D C).map fun s : Nat => (s : Int)).getD i 0 ≠ 0 := by
    intro hq i hi
    have hw := array_queries_number_of_chunks file verbose name dc rank D data_type cdef
      chunk_flag C harr hq
    exact prod_ne_zero_getD _ (wrap_int32_ne_zero hw) i (by rw [hlen]; exact hi)
  refine ⟨?_, ?_, ?_, ?_⟩
  · rw [read_chunk_dimension_sizes_wf harr]
    exact steps_loop_steps harr
  · intro hq
    have hw := array_queries_number_of_chunks file verbose name dc rank D data_type cdef
      chunk_flag C harr hq
    refine ⟨hkey hq, fun i _ => wrap_int32_drop_ne_zero _ hw i, ?_⟩
    intro k strides
    have h := increase_strides_start k _ hw strides
    rw [hlen] at h
    exact h
  · rcases array_chunked_cases file verbose name (some dc) rank D data_type cdef chunk_flag
      harr.info harr.chunkinfo harr.flag harr.rank_pos with
      ⟨-, h2, -⟩ | ⟨b, dc0, lines, -, -, hdc, hEq⟩
    · exact h2
    · rw [hEq, bind_mk_returned]
      intro hu
      exact chunked_array_defined verbose (file name) (endian_name_of b) dc0 harr
        (bind_ret_undefined _ _ hu)
  · rintro ⟨i, hi, hlt⟩
    by_contra hq
    apply hkey hq i hi
    have hiC : i < C.length := by rw [harr.C_length]; exact hi
    have hiD : i < D.length := by rw [harr.D_length]; exact hi
    have hc := harr.C_range _ (getD_mem hiC)
    have hd := harr.D_range _ (getD_mem hiD)
    rw [getD_map_cast, step_counts_getD D C i hiD hiC, Nat.div_eq_of_lt (by omega)]
    rfl

/-- C20, witness: the array "temp" (dims `[4,4]`, chunk dims `[2,2]`) makes queries, so its step
counts `[2,2]` are not zero and the update after chunk 1 is defined; the array with dims `[1,4]`
and chunk dims `[2,2]` has `D[0] < C[0]` and makes no query. -/
theorem C20_witness_temp_and_short :
    (∃ next, increase_strides 1 ((step_counts [4, 4] [2, 2]).map fun s : Nat => (s : Int))
      (2 : Int).toNat 1 [0, 1] = some next) ∧
    array_queries (fun _ => example_short) false "short" ⟨[], [], none⟩ = [] :=
  ⟨((C20_odometer_never_divides_by_zero (fun _ => example_temp) false "temp" ⟨[], [], none⟩ 2
      [4, 4] 5 ⟨[2, 2], [2, 2], COMP_CODE_NONE⟩ HDF_CHUNK [2, 2]
      ⟨rfl, rfl, Or.inl rfl, rfl, by decide, rfl, rfl, by decide, by decide⟩).2.1
        (by decide)).2.2 1 [0, 1],
    (C20_odometer_never_divides_by_zero (fun _ => example_short) false "short" ⟨[], [], none⟩ 2
      [1, 4] 5 ⟨[2, 2], [2, 2], COMP_CODE_NONE⟩ HDF_CHUNK [2, 2]
      ⟨rfl, rfl, Or.inl rfl, rfl, by decide, rfl, rfl, by decide, by decide⟩).2.2.2
        ⟨0, by decide, by decide⟩⟩

/-! ## Every visited chunk lies inside the array -/

/-- The position computed for a coordinate whose digits are in range: `p[i] = C[i] * G[i]` with
`G[i] < D[i] div C[i]`, so `p[i] + C[i] <= D[i]`. -/
theorem position_inside {sds : SDS} {rank : Int} {D : List Int} {data_type : Int}
    {cdef : HDF_CHUNK_DEF} {chunk_flag : Int} {C : List Int}
    (h : ChunkedArray sds rank D data_type cdef chunk_flag C) (o : List Int)
    (ho : strides_in_range ((step_counts D C).map fun s : Nat => (s : Int)) o) (i : Nat)
    (hi : i < rank.toNat) :
    (((write_chunk_position_in_array rank (C.map Int.toNat) o).getD i 0 : Nat) : Int)
        + C.getD i 0 ≤ D.getD i 0 ∧
    (write_chunk_position_in_array rank (C.map Int.toNat) o).getD i 0 + (C.getD i 0).toNat
      ≤ (D.getD i 0).toNat / (C.getD i 0).toNat * (C.getD i 0).toNat := by
  have hiC : i < C.length := by rw [h.C_length]; exact hi
  have hiD : i < D.length := by rw [h.D_length]; exact hi
  have hc := h.C_range _ (getD_mem hiC)
  have hd := h.D_range _ (getD_mem hiD)
  obtain ⟨-, hr⟩ := ho
  have hr1 := hr i (by rw [step_counts_rank h]; exact hi)
  rw [getD_map_cast, step_counts_getD D C i hiD hiC] at hr1
  obtain ⟨hr0, hr2⟩ := hr1
  have hdiv : (D.getD i 0).toNat / (C.getD i 0).toNat ≤ (D.getD i 0).toNat := Nat.div_le_self _ _
  have hmul : (C.getD i 0).toNat * ((D.getD i 0).toNat / (C.getD i 0).toNat)
      ≤ (D.getD i 0).toNat := Nat.mul_div_le _ _
  unfold write_chunk_position_in_array
  rw [getD_map_range _ _ _ _ hi, getD_map_toNat]
  generalize hg : o.getD i 0 = g at hr0 hr2
  generalize hcv : C.getD i 0 = c at hc hmul hdiv hr2
  generalize hdv : D.getD i 0 = d at hd hmul hdiv hr2
  generalize hs : d.toNat / c.toNat = q at hmul hdiv hr2
  have hgq : g.toNat < q := by omega
  rw [wrap_uint64_of_range hr0 (by omega)]
  have hlt : c.toNat * g.toNat < c.toNat * q := Nat.mul_lt_mul_of_pos_left hgq (by omega)
  have hle : c.toNat * g.toNat + c.toNat ≤ c.toNat * q := by
    have : c.toNat * (g.toNat + 1) ≤ c.toNat * q := Nat.mul_le_mul_left _ hgq
    rw [Nat.mul_add, Nat.mul_one] at this
    exact this
  rw [Nat.mod_eq_of_lt (by omega)]
  constructor
  · have hcast : ((c.toNat * g.toNat + c.toNat : Nat) : Int) ≤ ((d.toNat : Nat) : Int) := by
      exact_mod_cast le_trans hle hmul
    push_cast at hcast
    rw [Int.toNat_of_nonneg (by omega), Int.toNat_of_nonneg hr0,
      Int.toNat_of_nonneg (by omega)] at hcast
    push_cast
    rw [Int.toNat_of_nonneg (by omega), Int.toNat_of_nonneg hr0]
    exact hcast
  · rw [Nat.mul_comm q]
    exact hle

/-- Every coordinate queried for a well-formed chunked array has its digits in range. -/
theorem array_queries_in_range (file : String → SDS) (verbose : Bool) (name : String)
    (dc : DmrppCommon) (rank : Int) (D : List Int) (data_type : Int) (cdef : HDF_CHUNK_DEF)
    (chunk_flag : Int) (C : List Int)
    (harr : ChunkedArray (file name) rank D data_type cdef chunk_flag C) :
    ∀ o ∈ array_queries file verbose name dc,
      strides_in_range ((step_counts D C).map fun s : Nat => (s : Int)) o := by
  intro o ho
  have hne : array_queries file verbose name dc ≠ [] := List.ne_nil_of_mem ho
  have hw := array_queries_number_of_chunks file verbose name dc rank D data_type cdef
    chunk_flag C harr hne
  have hlen := step_counts_rank harr
  have hsteps : ∀ i, i < ((step_counts D C).map fun s : Nat => (s : Int)).length →
      ((step_counts D C).map fun s : Nat => (s : Int)).getD i 0 < 2147483648 := by
    intro i hi
    rw [hlen] at hi
    have hiC : i < C.length := by rw [harr.C_length]; exact hi
    have hiD : i < D.length := by rw [harr.D_length]; exact hi
    have hd := harr.D_range _ (getD_mem hiD)
    rw [getD_map_cast, step_counts_getD D C i hiD hiC]
    have hdiv : (D.getD i 0).toNat / (C.getD i 0).toNat ≤ (D.getD i 0).toNat :=
      Nat.div_le_self _ _
    omega
  have hinit : strides_in_range ((step_counts D C).map fun s : Nat => (s : Int))
      (List.replicate rank.toNat 0) := by
    refine ⟨by rw [List.length_replicate, hlen], ?_⟩
    intro i hi
    have hnz := prod_ne_zero_getD _ (wrap_int32_ne_zero hw) i hi
    rw [hlen] at hi
    have h0 : (List.replicate rank.toNat (0 : Int)).getD i 0 = 0 := by
      rw [List.getD_eq_getElem _ _ (by rw [List.length_replicate]; exact hi)]
      simp
    rw [h0]
    rw [getD_map_cast] at hnz ⊢
    omega
  rcases array_queries_loop file verbose name dc rank D data_type cdef chunk_flag C harr with
    ⟨h1, -⟩ | ⟨e, h1, -⟩
  · exact absurd h1 hne
  · rw [h1] at ho
    exact chunk_loop_in_range verbose (file name) e rank _ _ hsteps hlen.symm _ _ _ _ _ hinit o ho

/-- C18. For a chunked (or chunked and compressed) array with rank `> 0`, non-negative
dimension sizes `D` and positive chunk sizes `C`, whatever the product of the step counts:
every position `p` that `get_chunks_for_an_array` visits has `p[i] + C[i] <= D[i]` and
`p[i] < (D[i] div C[i]) * C[i]` in every dimension `i`. When the call returns `true`, every
descriptor it appended has such a position, so none has `p[i] = (D[i] div C[i]) * C[i]`, and an
element whose index along some dimension `i` is `(D[i] div C[i]) * C[i]` or more lies in the
chunk of no descriptor: a trailing partial chunk is never visited. -/
theorem C18_trailing_partial_chunk_never_visited (file : String → SDS) (verbose : Bool)
    (name : String) (dc : DmrppCommon) (rank : Int) (D : List Int) (data_type : Int)
    (cdef : HDF_CHUNK_DEF) (chunk_flag : Int) (C : List Int)
    (harr : ChunkedArray (file name) rank D data_type cdef chunk_flag C) :
    (∀ o ∈ array_queries file verbose name dc, ∀ i, i < rank.toNat →
      (((write_chunk_position_in_array rank (read_chunk_dimension_sizes rank chunk_flag cdef)
          o).getD i 0 : Nat) : Int) + C.getD i 0 ≤ D.getD i 0 ∧
      (write_chunk_position_in_array rank (read_chunk_dimension_sizes rank chunk_flag cdef)
          o).getD i 0 < (D.getD i 0).toNat / (C.getD i 0).toNat * (C.getD i 0).toNat) ∧
    (∀ dc1, (get_chunks_for_an_array file verbose name (some dc)).result
        = Outcome.returned (true, some dc1) →
      ∃ added, dc1.chunks = dc.chunks ++ added ∧
        ∀ c ∈ added, ∀ i, i < rank.toNat →
          ((c.position_in_array.getD i 0 : Nat) : Int) + C.getD i 0 ≤ D.getD i 0 ∧
          c.position_in_array.getD i 0
            ≠ (D.getD i 0).toNat / (C.getD i 0).toNat * (C.getD i 0).toNat ∧
          ∀ x, covers c.position_in_array C x →
            x.getD i 0 < (D.getD i 0).toNat / (C.getD i 0).toNat * (C.getD i 0).toNat) := by
  have hrange := array_queries_in_range file verbose name dc rank D data_type cdef chunk_flag C
    harr
  rw [read_chunk_dimension_sizes_wf harr]
  constructor
  · intro o ho i hi
    obtain ⟨hp1, hp2⟩ := position_inside harr o (hrange o ho) i hi
    have hiC : i < C.length := by rw [harr.C_length]; exact hi
    have hc := harr.C_range _ (getD_mem hiC)
    generalize (D.getD i 0).toNat / (C.getD i 0).toNat * (C.getD i 0).toNat = q at hp2 ⊢
    exact ⟨hp1, by omega⟩
  · intro dc1 hret
    rcases array_queries_loop file verbose name dc rank D data_type cdef chunk_flag C harr with
      ⟨-, h2⟩ | ⟨e, h1, h2⟩
    · exact absurd hret (h2 dc1)
    · obtain ⟨hcat, -⟩ := chunk_loop_returned verbose (file name) e rank _ _ _ _ _ _ _ dc1
        (h2 dc1 hret)
      rw [← h1] at hcat
      refine ⟨catalog_of (file name) e rank (C.map Int.toNat) (array_queries file verbose name dc),
        ?_, ?_⟩
      · rw [hcat]
        simp [DmrppCommon.set_chunk_dimension_sizes, ingest_compression_chunks]
      · intro c hc i hi
        have hlenp := catalog_of_position_length _ _ _ _ _ c hc
        simp only [catalog_of, descriptors_of, List.mem_flatMap, List.mem_map] at hc
        obtain ⟨o, ho, b, -, rfl⟩ := hc
        obtain ⟨hp1, hp2⟩ := position_inside harr o (hrange o ho) i hi
        have hiC : i < C.length := by rw [harr.C_length]; exact hi
        have hcr := harr.C_range _ (getD_mem hiC)
        dsimp only at hlenp ⊢
        generalize (D.getD i 0).toNat / (C.getD i 0).toNat * (C.getD i 0).toNat = q at hp2 ⊢
        refine ⟨hp1, by omega, ?_⟩
        intro x hx
        have hcov := (hx i (by rw [hlenp]; exact hi)).2
        omega

/-- C18, witness: the array with dims `[5]` and chunk dims `[2]` is queried at `[0]` and `[1]`;
the position of the second query is 2, and `2 + 2 <= 5`; the chunk at position 4, which would
hold the last element, is not visited. -/
theorem C18_witness_partial :
    array_queries (fun _ => example_partial) false "p" ⟨[], [], none⟩ = [[0], [1]] ∧
    (((write_chunk_position_in_array 1
        (read_chunk_dimension_sizes 1 HDF_CHUNK ⟨[2], [2], COMP_CODE_NONE⟩) [1]).getD 0 0 : Nat)
          : Int) + ([2] : List Int).getD 0 0 ≤ ([5] : List Int).getD 0 0 :=
  ⟨by decide,
    ((C18_trailing_partial_chunk_never_visited (fun _ => example_partial) false "p"
      ⟨[], [], none⟩ 1 [5] 5 ⟨[2], [2], COMP_CODE_NONE⟩ HDF_CHUNK [2]
      ⟨rfl, rfl, Or.inl rfl, rfl, by decide, rfl, rfl, by decide, by decide⟩).1 [1]
        (by decide) 0 (by decide)).1⟩

/-! ## The walk follows the visiting order -/

theorem bind_assoc {α β γ : Type} (x : Run α) (f : α → Run β) (g : β → Run γ) :
    Run.bind (Run.bind x f) g = Run.bind x fun a => Run.bind (f a) g := by
  cases x with
  | mk t res =>
    cases res with
    | returned a =>
      simp only [bind_mk_returned]
      cases hfa : f a with
      | mk t2 r2 => cases r2 <;> simp [Run.bind, hfa, List.append_assoc]
    | exited => simp [Run.bind]
    | thrown what => simp [Run.bind]
    | undefined => simp [Run.bind]

theorem process_nodes_nil (file : String → SDS) (verbose : Bool) :
    process_nodes file verbose [] = ⟨[], Outcome.returned ()⟩ := rfl

theorem process_nodes_cons (file : String → SDS) (verbose : Bool) (v : BaseType)
    (vs : List BaseType) :
    process_nodes file verbose (v :: vs) =
      Run.bind (get_chunks_for_a_variable file verbose v) fun _ =>
        process_nodes file verbose vs := rfl

theorem process_nodes_append (file : String → SDS) (verbose : Bool) (l1 l2 : List BaseType) :
    process_nodes file verbose (l1 ++ l2) =
      Run.bind (process_nodes file verbose l1) fun _ => process_nodes file verbose l2 := by
  induction l1 with
  | nil =>
    rw [List.nil_append, process_nodes_nil, bind_mk_returned]
    simp
  | cons v vs ih =>
    rw [List.cons_append, process_nodes_cons, process_nodes_cons, ih, bind_assoc]

theorem abort_trace_nil (file : String → SDS) (verbose : Bool) :
    abort_trace file verbose [] = [] := rfl

theorem abort_trace_cons_returned (file : String → SDS) (verbose : Bool) (v : BaseType)
    (vs : List BaseType) (r : Bool × BaseType)
    (h : (get_chunks_for_a_variable file verbose v).result = Outcome.returned r) :
    abort_trace file verbose (v :: vs) = abort_trace file verbose vs := by
  rw [abort_trace]
  simp only [h]

theorem abort_trace_cons_aborted (file : String → SDS) (verbose : Bool) (v : BaseType)
    (vs : List BaseType)
    (h : ∀ r, (get_chunks_for_a_variable file verbose v).result ≠ Outcome.returned r) :
    abort_trace file verbose (v :: vs) = (get_chunks_for_a_variable file verbose v).trace := by
  rw [abort_trace]
  cases hres : (get_chunks_for_a_variable file verbose v).result with
  | returned r => exact absurd hres (h r)
  | exited => rfl
  | thrown what => rfl
  | undefined => rfl

theorem process_nodes_cons_result (file : String → SDS) (verbose : Bool) (v : BaseType)
    (vs : List BaseType) (r : Bool × BaseType)
    (h : (get_chunks_for_a_variable file verbose v).result = Outcome.returned r) :
    (process_nodes file verbose (v :: vs)).result = (process_nodes file verbose vs).result := by
  rw [process_nodes_cons]
  cases hw : get_chunks_for_a_variable file verbose v with
  | mk t res =>
    rw [hw] at h
    simp only at h
    subst h
    rfl

theorem process_nodes_cons_aborted (file : String → SDS) (verbose : Bool) (v : BaseType)
    (vs : List BaseType)
    (h : ∀ r, (get_chunks_for_a_variable file verbose v).result ≠ Outcome.returned r) :
    (process_nodes file verbose (v :: vs)).result ≠ Outcome.returned () := by
  rw [process_nodes_cons]
  cases hw : get_chunks_for_a_variable file verbose v with
  | mk t res =>
    rw [hw] at h
    cases res with
    | returned r => exact absurd rfl (h r)
    | exited => simp [Run.bind]
    | thrown what => simp [Run.bind]
    | undefined => simp [Run.bind]

theorem abort_trace_append_returned (file : String → SDS) (verbose : Bool)
    (l1 l2 : List BaseType)
    (h : (process_nodes file verbose l1).result = Outcome.returned ()) :
    abort_trace file verbose (l1 ++ l2) = abort_trace file verbose l2 := by
  induction l1 with
  | nil => rfl
  | cons v vs ih =>
    by_cases hv : ∃ r, (get_chunks_for_a_variable file verbose v).result = Outcome.returned r
    · obtain ⟨r, hr⟩ := hv
      rw [List.cons_append, abort_trace_cons_returned file verbose v _ r hr]
      apply ih
      rw [← process_nodes_cons_result file verbose v vs r hr]
      exact h
    · exact absurd h (process_nodes_cons_aborted file verbose v vs fun r hr => hv ⟨r, hr⟩)

theorem abort_trace_append_aborted (file : String → SDS) (verbose : Bool)
    (l1 l2 : List BaseType)
    (h : (process_nodes file verbose l1).result ≠ Outcome.returned ()) :
    abort_trace file verbose (l1 ++ l2) = abort_trace file verbose l1 := by
  induction l1 with
  | nil => exact absurd rfl h
  | cons v vs ih =>
    by_cases hv : ∃ r, (get_chunks_for_a_variable file verbose v).result = Outcome.returned r
    · obtain ⟨r, hr⟩ := hv
      rw [List.cons_append, abort_trace_cons_returned file verbose v _ r hr,
        abort_trace_cons_returned file verbose v _ r hr]
      apply ih
      rw [← process_nodes_cons_result file verbose v vs r hr]
      exact h
    · rw [List.cons_append, abort_trace_cons_aborted file verbose v _ fun r hr => hv ⟨r, hr⟩,
        abort_trace_cons_aborted file verbose v _ fun r hr => hv ⟨r, hr⟩]

theorem map_unit_returned {α : Type} (x : Outcome α) (h : x.map (fun _ => ()) = Outcome.returned ()) :
    ∃ a, x = Outcome.returned a := by
  cases x with
  | returned a => exact ⟨a, rfl⟩
  | exited => simp [Outcome.map] at h
  | thrown what => simp [Outcome.map] at h
  | undefined => simp [Outcome.map] at h

theorem follows_bind {α β : Type} (file : String → SDS) (verbose : Bool) (w1 : Run α)
    (f : α → Run β) (l1 l2 : List BaseType) (ok1 : α → Prop) (ok2 : β → Prop)
    (h1 : Follows file verbose w1 l1 ok1)
    (h2 : ∀ a, ok1 a → Follows file verbose (f a) l2 ok2) :
    Follows file verbose (Run.bind w1 f) (l1 ++ l2) ok2 := by
  obtain ⟨hq, hk, hs, ha, hok⟩ := h1
  unfold Follows
  rw [process_nodes_append]
  cases w1 with
  | mk t res =>
    cases res with
    | returned a =>
      have hpr : (process_nodes file verbose l1).result = Outcome.returned () := hk.symm
      obtain ⟨hq2, hk2, hs2, ha2, hok2⟩ := h2 a (hok a rfl)
      rw [abort_trace_append_returned file verbose l1 l2 hpr]
      cases hp : process_nodes file verbose l1 with
      | mk tp rp =>
        rw [hp] at hq hs hpr
        simp only at hq hs hpr
        subst hpr
        simp only [bind_mk_returned, queries_of_append]
        exact ⟨by rw [hq, hq2], hk2, List.Sublist.append hs hs2,
          ha2.trans (List.suffix_append _ _), hok2⟩
    | exited =>
      have hpr : (process_nodes file verbose l1).result = Outcome.exited := hk.symm
      rw [abort_trace_append_aborted file verbose l1 l2 (by rw [hpr]; simp)]
      cases hp : process_nodes file verbose l1 with
      | mk tp rp =>
        rw [hp] at hq hs hpr
        simp only at hq hs hpr
        subst hpr
        simp only [Run.bind, Outcome.map]
        exact ⟨hq, trivial, hs, ha, by simp⟩
    | thrown what =>
      have hpr : (process_nodes file verbose l1).result = Outcome.thrown what := hk.symm
      rw [abort_trace_append_aborted file verbose l1 l2 (by rw [hpr]; simp)]
      cases hp : process_nodes file verbose l1 with
      | mk tp rp =>
        rw [hp] at hq hs hpr
        simp only at hq hs hpr
        subst hpr
        simp only [Run.bind, Outcome.map]
        exact ⟨hq, trivial, hs, ha, by simp⟩
    | undefined =>
      have hpr : (process_nodes file verbose l1).result = Outcome.undefined := hk.symm
      rw [abort_trace_append_aborted file verbose l1 l2 (by rw [hpr]; simp)]
      cases hp : process_nodes file verbose l1 with
      | mk tp rp =>
        rw [hp] at hq hs hpr
        simp only at hq hs hpr
        subst hpr
        simp only [Run.bind, Outcome.map]
        exact ⟨hq, trivial, hs, ha, by simp⟩

theorem follows_weaken {α : Type} (file : String → SDS) (verbose : Bool) (w : Run α)
    (l : List BaseType) (ok ok1 : α → Prop) (h : Follows file verbose w l ok)
    (hok : ∀ a, ok a → ok1 a) : Follows file verbose w l ok1 := by
  obtain ⟨hq, hk, hs, ha, h5⟩ := h
  exact ⟨hq, hk, hs, ha, fun a hr => hok a (h5 a hr)⟩

/-- A step that returns and makes no query follows the empty list of nodes. -/
theorem follows_silent {α : Type} (file : String → SDS) (verbose : Bool) (t : List Event)
    (a : α) (ok : α → Prop) (ht : queries_of t = []) (ha : ok a) :
    Follows file verbose ⟨t, Outcome.returned a⟩ [] ok := by
  refine ⟨ht, rfl, List.nil_sublist _, List.nil_suffix, ?_⟩
  intro b hb
  simp only [Outcome.returned.injEq] at hb
  rw [← hb]
  exact ha

theorem follows_ret {α : Type} (file : String → SDS) (verbose : Bool) (a : α) (ok : α → Prop)
    (ha : ok a) : Follows file verbose (Run.ret a) [] ok :=
  follows_silent file verbose [] a ok rfl ha

/-- The value returned at the end of a step is computed from what the step returned. -/
theorem follows_map {α β : Type} (file : String → SDS) (verbose : Bool) (w : Run α)
    (g : α → β) (l : List BaseType) (ok : α → Prop) (ok1 : β → Prop)
    (h : Follows file verbose w l ok) (hok : ∀ a, ok a → ok1 (g a)) :
    Follows file verbose (Run.bind w fun a => Run.ret (g a)) l ok1 := by
  have h1 := follows_bind file verbose w (fun a => Run.ret (g a)) l [] ok ok1 h
    (fun a ha => follows_ret file verbose (g a) ok1 (hok a ha))
  rw [List.append_nil] at h1
  exact h1

/-- A step that returns and makes no query, before a part of the walk, changes nothing. -/
theorem follows_after_silent {α β : Type} (file : String → SDS) (verbose : Bool)
    (t : List Event) (u : α) (f : α → Run β) (l : List BaseType) (ok : β → Prop)
    (ht : queries_of t = []) (h : Follows file verbose (f u) l ok) :
    Follows file verbose (Run.bind ⟨t, Outcome.returned u⟩ f) l ok := by
  have h1 := follows_bind file verbose ⟨t, Outcome.returned u⟩ f [] l (fun a => a = u) ok
    (follows_silent file verbose t u _ ht rfl) (fun a ha => by rw [ha]; exact h)
  rw [List.nil_append] at h1
  exact h1

theorem map_unit_bind_ret {α : Type} (w : Run α) :
    (Run.bind w fun _ => Run.ret ()).result = w.result.map (fun _ => ()) := by
  cases w with
  | mk t res => cases res <;> rfl

/-- The call on one node follows the list holding that node. -/
theorem follows_node (file : String → SDS) (verbose : Bool) (v : BaseType)
    (ok : Bool × BaseType → Prop)
    (hok : ∀ a, (get_chunks_for_a_variable file verbose v).result = Outcome.returned a → ok a) :
    Follows file verbose (get_chunks_for_a_variable file verbose v) [v] ok := by
  have hp : process_nodes file verbose [v] =
      Run.bind (get_chunks_for_a_variable file verbose v) fun _ => Run.ret () := rfl
  unfold Follows
  rw [hp, bind_ret_trace, map_unit_bind_ret]
  refine ⟨rfl, rfl, List.Sublist.refl _, ?_, hok⟩
  by_cases hv : ∃ r, (get_chunks_for_a_variable file verbose v).result = Outcome.returned r
  · obtain ⟨r, hr⟩ := hv
    rw [abort_trace_cons_returned file verbose v [] r hr]
    exact List.nil_suffix
  · rw [abort_trace_cons_aborted file verbose v [] fun r hr => hv ⟨r, hr⟩]

theorem visit_variables_group (g : D4Group) (vs : List BaseType) :
    visit_variables (BaseType.dods_group_c g :: vs) = visit_group g ++ visit_variables vs := by
  rw [visit_variables]

theorem visit_variables_var (btp : BaseType) (vs : List BaseType)
    (h : ∀ g, btp ≠ BaseType.dods_group_c g) :
    visit_variables (btp :: vs) = visit_variable btp ++ visit_variables vs := by
  cases btp with
  | dods_group_c g => exact absurd rfl (h g)
  | dods_structure_c name vars => rw [visit_variables]; exact h
  | dods_sequence_c name vars => rw [visit_variables]; exact h
  | dods_grid_c name => rw [visit_variables]; exact h
  | dods_array_c name dc => rw [visit_variables]; exact h
  | atomic name type_name => rw [visit_variables]; exact h

theorem annotate_variables_group (file : String → SDS) (verbose : Bool) (g : D4Group)
    (vs : List BaseType) :
    annotate_variables file verbose (BaseType.dods_group_c g :: vs) =
      BaseType.dods_group_c (annotate_group file verbose g) ::
        annotate_variables file verbose vs := by
  rw [annotate_variables]

theorem annotate_variables_var (file : String → SDS) (verbose : Bool) (btp : BaseType)
    (vs : List BaseType) (h : ∀ g, btp ≠ BaseType.dods_group_c g) :
    annotate_variables file verbose (btp :: vs) =
      annotate_variable file verbose btp :: annotate_variables file verbose vs := by
  cases btp with
  | dods_group_c g => exact absurd rfl (h g)
  | dods_structure_c name vars => rw [annotate_variables]; exact h
  | dods_sequence_c name vars => rw [annotate_variables]; exact h
  | dods_grid_c name => rw [annotate_variables]; exact h
  | dods_array_c name dc => rw [annotate_variables]; exact h
  | atomic name type_name => rw [annotate_variables]; exact h

/-- The walk of a group follows the processing of the nodes of `visit_group`, in that order, and
when it returns, the tree it returns is the annotated tree. -/
theorem walk_follows (file : String → SDS) (verbose : Bool) (g : D4Group) :
    Follows file verbose (get_chunks_for_all_variables file verbose g) (visit_group g)
      (fun a => a = annotate_group file verbose g) := by
  refine D4Group.rec
    (motive_1 := fun v =>
      Follows file verbose (get_chunks_for_a_variable file verbose v) (visit_variable v)
        (fun r => r.2 = annotate_variable file verbose v) ∧
      (∀ g1, v = BaseType.dods_group_c g1 →
        Follows file verbose (get_chunks_for_all_variables file verbose g1) (visit_group g1)
          (fun a => a = annotate_group file verbose g1)))
    (motive_2 := fun g1 =>
      Follows file verbose (get_chunks_for_all_variables file verbose g1) (visit_group g1)
        (fun a => a = annotate_group file verbose g1))
    (motive_3 := fun l =>
      Follows file verbose (for_each_member file verbose l) (visit_members l)
        (fun a => a = annotate_members file verbose l) ∧
      Follows file verbose (for_variables file verbose l) (visit_variables l)
        (fun a => a = annotate_variables file verbose l))
    (motive_4 := fun l =>
      Follows file verbose (for_groups file verbose l) (visit_groups l)
        (fun a => a = annotate_groups file verbose l))
    ?_ ?_ ?_ ?_ ?_ ?_ ?_ ?_ ?_ ?_ ?_ g
  · intro name vars ih
    refine ⟨?_, fun g1 h => by cases h⟩
    rw [get_chunks_for_a_variable, visit_variable]
    exact follows_map file verbose _ _ _ _ _ ih.1 (fun a ha => by rw [ha, annotate_variable])
  · intro name vars _
    refine ⟨?_, fun g1 h => by cases h⟩
    rw [get_chunks_for_a_variable, visit_variable]
    exact follows_silent file verbose _ _ _ (queries_of_VERBOSE _ _) (by rw [annotate_variable])
  · intro name
    refine ⟨?_, fun g1 h => by cases h⟩
    rw [visit_variable]
    apply follows_node
    intro a ha
    rw [get_chunks_for_a_variable] at ha
    cases ha
  · intro name dc
    refine ⟨?_, fun g1 h => by cases h⟩
    rw [visit_variable]
    apply follows_node
    intro a ha
    rw [get_chunks_for_a_variable] at ha
    obtain ⟨r, hr, hg⟩ := (bind_ret_returned _ _ a).1 ha
    rw [← hg, annotate_variable, array_after, hr]
  · intro g1 ih
    refine ⟨?_, fun g2 h => by cases h; exact ih⟩
    cases g1 with
    | mk name vars groups =>
      rw [get_chunks_for_a_variable, visit_variable]
      exact follows_silent file verbose _ _ _ (queries_of_VERBOSE _ _)
        (by rw [annotate_variable])
  · intro name type_name
    refine ⟨?_, fun g1 h => by cases h⟩
    rw [get_chunks_for_a_variable, visit_variable]
    exact follows_silent file verbose _ _ _ (queries_of_VERBOSE _ _) (by rw [annotate_variable])
  · intro name vars groups ihv ihg
    rw [get_chunks_for_all_variables, visit_group]
    apply follows_bind file verbose _ _ _ _ _ _ ihv.2
    intro a ha
    exact follows_map file verbose _ _ _ _ _ ihg (fun b hb => by rw [ha, hb, annotate_group])
  · constructor
    · rw [for_each_member, visit_members]
      exact follows_ret file verbose _ _ (by rw [annotate_members])
    · rw [for_variables, visit_variables]
      exact follows_ret file verbose _ _ (by rw [annotate_variables])
  · intro head tail ihh iht
    constructor
    · rw [for_each_member, visit_members]
      apply follows_bind file verbose _ _ _ _ _ _ ihh.1
      intro r hr
      exact follows_map file verbose _ _ _ _ _ iht.1
        (fun b hb => by rw [hr, hb, annotate_members])
    · by_cases hgrp : ∃ g1, head = BaseType.dods_group_c g1
      · obtain ⟨g1, rfl⟩ := hgrp
        rw [for_variables_group, visit_variables_group]
        apply follows_bind file verbose _ _ _ _ _ _ (ihh.2 g1 rfl)
        intro a ha
        exact follows_map file verbose _ _ _ _ _ iht.2
          (fun b hb => by rw [ha, hb, annotate_variables_group])
      · have hng : ∀ g1, head ≠ BaseType.dods_group_c g1 := fun g1 h => hgrp ⟨g1, h⟩
        rw [for_variables_var file verbose head tail hng, visit_variables_var head tail hng]
        apply follows_bind file verbose _ _ _ _ _ _ ihh.1
        intro r hr
        have hX := follows_map file verbose (for_variables file verbose tail)
          (fun vs => r.2 :: vs) _ _
          (fun a => a = annotate_variables file verbose (head :: tail)) iht.2
          (fun b hb => by rw [hr, hb, annotate_variables_var file verbose head tail hng])
        by_cases hr1 : r.1 = false
        · rw [if_pos hr1]
          exact follows_after_silent file verbose _ () _ _ _
            (by rw [queries_of_cons_ERROR, queries_of_nil]) hX
        · rw [if_neg hr1]
          exact follows_after_silent file verbose [] () _ _ _ rfl hX
  · show Follows file verbose (for_groups file verbose []) (visit_groups [])
      (fun a => a = annotate_groups file verbose [])
    rw [for_groups_nil, visit_groups]
    exact follows_silent file verbose [] _ _ rfl (by rw [annotate_groups])
  · intro head tail ihh iht
    rw [for_groups, visit_groups]
    apply follows_bind file verbose _ _ _ _ _ _ ihh
    intro a ha
    exact follows_map file verbose _ _ _ _ _ iht (fun b hb => by rw [ha, hb, annotate_groups])

/-! ## The nodes of the visiting order -/

/-- The visiting order lists Arrays and Grids only, and it lists a Grid exactly when the walk
meets one. -/
theorem visit_kinds (g : D4Group) :
    g.meets_grid = (visit_group g).any BaseType.is_grid ∧
    ∀ u ∈ visit_group g, u.is_array = true ∨ u.is_grid = true := by
  refine D4Group.rec
    (motive_1 := fun v =>
      (v.meets_grid = (visit_variable v).any BaseType.is_grid ∧
        ∀ u ∈ visit_variable v, u.is_array = true ∨ u.is_grid = true) ∧
      (∀ g1, v = BaseType.dods_group_c g1 →
        g1.meets_grid = (visit_group g1).any BaseType.is_grid ∧
        ∀ u ∈ visit_group g1, u.is_array = true ∨ u.is_grid = true))
    (motive_2 := fun g1 =>
      g1.meets_grid = (visit_group g1).any BaseType.is_grid ∧
      ∀ u ∈ visit_group g1, u.is_array = true ∨ u.is_grid = true)
    (motive_3 := fun l =>
      (members_meet_grid l = (visit_members l).any BaseType.is_grid ∧
        ∀ u ∈ visit_members l, u.is_array = true ∨ u.is_grid = true) ∧
      (variables_meet_grid l = (visit_variables l).any BaseType.is_grid ∧
        ∀ u ∈ visit_variables l, u.is_array = true ∨ u.is_grid = true))
    (motive_4 := fun l =>
      groups_meet_grid l = (visit_groups l).any BaseType.is_grid ∧
      ∀ u ∈ visit_groups l, u.is_array = true ∨ u.is_grid = true)
    ?_ ?_ ?_ ?_ ?_ ?_ ?_ ?_ ?_ ?_ ?_ g
  · intro name vars ih
    refine ⟨?_, fun g1 h => by cases h⟩
    rw [BaseType.meets_grid, visit_variable]
    exact ih.1
  · intro name vars _
    refine ⟨?_, fun g1 h => by cases h⟩
    simp [BaseType.meets_grid, visit_variable]
  · intro name
    refine ⟨?_, fun g1 h => by cases h⟩
    simp [BaseType.meets_grid, visit_variable, BaseType.is_grid]
  · intro name dc
    refine ⟨?_, fun g1 h => by cases h⟩
    simp [BaseType.meets_grid, visit_variable, BaseType.is_grid, BaseType.is_array]
  · intro g1 ih
    refine ⟨?_, fun g2 h => by cases h; exact ih⟩
    simp [BaseType.meets_grid, visit_variable]
  · intro name type_name
    refine ⟨?_, fun g1 h => by cases h⟩
    simp [BaseType.meets_grid, visit_variable]
  · intro name vars groups ihv ihg
    rw [D4Group.meets_grid, visit_group, List.any_append, ihv.2.1, ihg.1]
    refine ⟨rfl, fun u hu => ?_⟩
    rcases List.mem_append.mp hu with h | h
    · exact ihv.2.2 u h
    · exact ihg.2 u h
  · simp [members_meet_grid, variables_meet_grid, visit_members, visit_variables]
  · intro head tail ihh iht
    constructor
    · rw [members_meet_grid, visit_members, List.any_append, ihh.1.1, iht.1.1]
      refine ⟨rfl, fun u hu => ?_⟩
      rcases List.mem_append.mp hu with h | h
      · exact ihh.1.2 u h
      · exact iht.1.2 u h
    · by_cases hgrp : ∃ g1, head = BaseType.dods_group_c g1
      · obtain ⟨g1, rfl⟩ := hgrp
        rw [variables_meet_grid_group, visit_variables_group, List.any_append,
          (ihh.2 g1 rfl).1, iht.2.1]
        refine ⟨rfl, fun u hu => ?_⟩
        rcases List.mem_append.mp hu with h | h
        · exact (ihh.2 g1 rfl).2 u h
        · exact iht.2.2 u h
      · have hng : ∀ g1, head ≠ BaseType.dods_group_c g1 := fun g1 h => hgrp ⟨g1, h⟩
        rw [variables_meet_grid_var head tail hng, visit_variables_var head tail hng,
          List.any_append, ihh.1.1, iht.2.1]
        refine ⟨rfl, fun u hu => ?_⟩
        rcases List.mem_append.mp hu with h | h
        · exact ihh.1.2 u h
        · exact iht.2.2 u h
  · simp [groups_meet_grid, visit_groups]
  · intro head tail ihh iht
    rw [groups_meet_grid, visit_groups, List.any_append, ihh.1, iht.1]
    refine ⟨rfl, fun u hu => ?_⟩
    rcases List.mem_append.mp hu with h | h
    · exact ihh.2 u h
    · exact iht.2 u h

theorem is_array_eq {u : BaseType} (h : u.is_array = true) :
    ∃ name dc, u = BaseType.dods_array_c name dc := by
  cases u with
  | dods_array_c name dc => exact ⟨name, dc, rfl⟩
  | dods_structure_c name vars => simp [BaseType.is_array] at h
  | dods_sequence_c name vars => simp [BaseType.is_array] at h
  | dods_grid_c name => simp [BaseType.is_array] at h
  | dods_group_c g => simp [BaseType.is_array] at h
  | atomic name type_name => simp [BaseType.is_array] at h

/-- When a list of visited nodes holds no Grid, its nodes are Arrays. -/
theorem no_grid_arrays (l : List BaseType) (hg : l.any BaseType.is_grid = false)
    (hk : ∀ u ∈ l, u.is_array = true ∨ u.is_grid = true) :
    ∀ u ∈ l, ∃ name dc, u = BaseType.dods_array_c name dc := by
  intro u hu
  rcases hk u hu with h | h
  · exact is_array_eq h
  · have : l.any BaseType.is_grid = true := List.any_eq_true.mpr ⟨u, hu, h⟩
    rw [hg] at this
    cases this

/-! ## Annotation and removal of variables -/

theorem annotate_variable_FQN (file : String → SDS) (verbose : Bool) (v : BaseType) :
    (annotate_variable file verbose v).FQN = v.FQN := by
  cases v with
  | dods_structure_c name vars => rw [annotate_variable, BaseType.FQN, BaseType.FQN]
  | dods_sequence_c name vars => rw [annotate_variable]
  | dods_grid_c name => rw [annotate_variable]
  | dods_array_c name dc => rw [annotate_variable, BaseType.FQN, BaseType.FQN]
  | dods_group_c g => rw [annotate_variable]
  | atomic name type_name => rw [annotate_variable]

theorem annotate_group_FQN (file : String → SDS) (verbose : Bool) (g : D4Group) :
    (BaseType.dods_group_c (annotate_group file verbose g)).FQN
      = (BaseType.dods_group_c g).FQN := by
  cases g with
  | mk name vars groups => rw [annotate_group, BaseType.FQN, BaseType.FQN]

theorem annotate_variable_not_group (file : String → SDS) (verbose : Bool) (v : BaseType)
    (h : ∀ g, v ≠ BaseType.dods_group_c g) :
    ∀ g, annotate_variable file verbose v ≠ BaseType.dods_group_c g := by
  intro g
  cases v with
  | dods_structure_c name vars => rw [annotate_variable]; intro hg; cases hg
  | dods_sequence_c name vars => rw [annotate_variable]; intro hg; cases hg
  | dods_grid_c name => rw [annotate_variable]; intro hg; cases hg
  | dods_array_c name dc => rw [annotate_variable]; intro hg; cases hg
  | dods_group_c g1 => exact absurd rfl (h g1)
  | atomic name type_name => rw [annotate_variable]; intro hg; cases hg

theorem remove_in_variable_not_group (n : String) (v : BaseType)
    (h : ∀ g, v ≠ BaseType.dods_group_c g) :
    ∀ g, remove_in_variable n v ≠ BaseType.dods_group_c g := by
  intro g
  cases v with
  | dods_structure_c name vars => rw [remove_in_variable]; intro hg; cases hg
  | dods_sequence_c name vars => rw [remove_in_variable]; intro hg; cases hg
  | dods_grid_c name => rw [remove_in_variable]; intro hg; cases hg
  | dods_array_c name dc => rw [remove_in_variable]; intro hg; cases hg
  | dods_group_c g1 => exact absurd rfl (h g1)
  | atomic name type_name => rw [remove_in_variable]; intro hg; cases hg

theorem remove_variables_group (n : String) (g : D4Group) (vs : List BaseType) :
    remove_variables n (BaseType.dods_group_c g :: vs) =
      if (BaseType.dods_group_c g).FQN = n then remove_variables n vs
      else BaseType.dods_group_c (remove_group n g) :: remove_variables n vs := by
  rw [remove_variables]

theorem remove_variables_var (n : String) (btp : BaseType) (vs : List BaseType)
    (h : ∀ g, btp ≠ BaseType.dods_group_c g) :
    remove_variables n (btp :: vs) =
      if btp.FQN = n then remove_variables n vs
      else remove_in_variable n btp :: remove_variables n vs := by
  cases btp with
  | dods_group_c g => exact absurd rfl (h g)
  | dods_structure_c name vars => rw [remove_variables]; exact h
  | dods_sequence_c name vars => rw [remove_variables]; exact h
  | dods_grid_c name => rw [remove_variables]; exact h
  | dods_array_c name dc => rw [remove_variables]; exact h
  | atomic name type_name => rw [remove_variables]; exact h

/-- The visiting order of the tree after the walk is the visiting order of the tree before it,
each node replaced by the node after its own call. -/
theorem visit_annotate (file : String → SDS) (verbose : Bool) (g : D4Group) :
    visit_group (annotate_group file verbose g) =
      (visit_group g).map (annotate_variable file verbose) := by
  refine D4Group.rec
    (motive_1 := fun v =>
      visit_variable (annotate_variable file verbose v) =
        (visit_variable v).map (annotate_variable file verbose) ∧
      (∀ g1, v = BaseType.dods_group_c g1 →
        visit_group (annotate_group file verbose g1) =
          (visit_group g1).map (annotate_variable file verbose)))
    (motive_2 := fun g1 =>
      visit_group (annotate_group file verbose g1) =
        (visit_group g1).map (annotate_variable file verbose))
    (motive_3 := fun l =>
      visit_members (annotate_members file verbose l) =
        (visit_members l).map (annotate_variable file verbose) ∧
      visit_variables (annotate_variables file verbose l) =
        (visit_variables l).map (annotate_variable file verbose))
    (motive_4 := fun l =>
      visit_groups (annotate_groups file verbose l) =
        (visit_groups l).map (annotate_variable file verbose))
    ?_ ?_ ?_ ?_ ?_ ?_ ?_ ?_ ?_ ?_ ?_ g
  · intro name vars ih
    refine ⟨?_, fun g1 h => by cases h⟩
    rw [annotate_variable, visit_variable, visit_variable]
    exact ih.1
  · intro name vars _
    refine ⟨?_, fun g1 h => by cases h⟩
    rw [annotate_variable, visit_variable]
    rfl
  · intro name
    refine ⟨?_, fun g1 h => by cases h⟩
    rw [annotate_variable, visit_variable]
    simp [annotate_variable]
  · intro name dc
    refine ⟨?_, fun g1 h => by cases h⟩
    rw [annotate_variable, visit_variable, visit_variable]
    simp [annotate_variable]
  · intro g1 ih
    refine ⟨?_, fun g2 h => by cases h; exact ih⟩
    rw [annotate_variable, visit_variable]
    rfl
  · intro name type_name
    refine ⟨?_, fun g1 h => by cases h⟩
    rw [annotate_variable, visit_variable]
    rfl
  · intro name vars groups ihv ihg
    rw [annotate_group, visit_group, visit_group, List.map_append, ihv.2, ihg]
  · exact ⟨by rw [annotate_members, visit_members]; rfl,
      by rw [annotate_variables, visit_variables]; rfl⟩
  · intro head tail ihh iht
    constructor
    · rw [annotate_members, visit_members, visit_members, List.map_append, ihh.1, iht.1]
    · by_cases hgrp : ∃ g1, head = BaseType.dods_group_c g1
      · obtain ⟨g1, rfl⟩ := hgrp
        rw [annotate_variables_group, visit_variables_group, visit_variables_group,
          List.map_append, ihh.2 g1 rfl, iht.2]
      · have hng : ∀ g1, head ≠ BaseType.dods_group_c g1 := fun g1 h => hgrp ⟨g1, h⟩
        rw [annotate_variables_var file verbose head tail hng,
          visit_variables_var _ _ (annotate_variable_not_group file verbose head hng),
          visit_variables_var head tail hng, List.map_append, ihh.1, iht.2]
  · show visit_groups (annotate_groups file verbose []) =
      (visit_groups []).map (annotate_variable file verbose)
    rw [annotate_groups, visit_groups]
    rfl
  · intro head tail ihh iht
    rw [annotate_groups, visit_groups, visit_groups, List.map_append, ihh, iht]

/-- Removing variables from the tree removes nodes from the visiting order and adds none. -/
theorem visit_remove_sublist (n : String) (g : D4Group) :
    List.Sublist (visit_group (remove_group n g)) (visit_group g) := by
  refine D4Group.rec
    (motive_1 := fun v =>
      List.Sublist (visit_variable (remove_in_variable n v)) (visit_variable v) ∧
      (∀ g1, v = BaseType.dods_group_c g1 →
        List.Sublist (visit_group (remove_group n g1)) (visit_group g1)))
    (motive_2 := fun g1 => List.Sublist (visit_group (remove_group n g1)) (visit_group g1))
    (motive_3 := fun l =>
      List.Sublist (visit_members (remove_members n l)) (visit_members l) ∧
      List.Sublist (visit_variables (remove_variables n l)) (visit_variables l))
    (motive_4 := fun l => List.Sublist (visit_groups (remove_groups n l)) (visit_groups l))
    ?_ ?_ ?_ ?_ ?_ ?_ ?_ ?_ ?_ ?_ ?_ g
  · intro name vars ih
    refine ⟨?_, fun g1 h => by cases h⟩
    rw [remove_in_variable, visit_variable, visit_variable]
    exact ih.1
  · intro name vars _
    refine ⟨?_, fun g1 h => by cases h⟩
    rw [remove_in_variable, visit_variable, visit_variable]
  · intro name
    refine ⟨?_, fun g1 h => by cases h⟩
    rw [remove_in_variable]
  · intro name dc
    refine ⟨?_, fun g1 h => by cases h⟩
    rw [remove_in_variable]
  · intro g1 ih
    refine ⟨?_, fun g2 h => by cases h; exact ih⟩
    rw [remove_in_variable]
  · intro name type_name
    refine ⟨?_, fun g1 h => by cases h⟩
    rw [remove_in_variable]
  · intro name vars groups ihv ihg
    rw [remove_group, visit_group, visit_group]
    exact List.Sublist.append ihv.2 ihg
  · exact ⟨by rw [remove_members], by rw [remove_variables]⟩
  · intro head tail ihh iht
    constructor
    · rw [remove_members, visit_members]
      by_cases hn : head.FQN = n
      · rw [if_pos hn]
        exact iht.1.trans (List.sublist_append_right _ _)
      · rw [if_neg hn, visit_members]
        exact List.Sublist.append ihh.1 iht.1
    · by_cases hgrp : ∃ g1, head = BaseType.dods_group_c g1
      · obtain ⟨g1, rfl⟩ := hgrp
        rw [remove_variables_group, visit_variables_group]
        by_cases hn : (BaseType.dods_group_c g1).FQN = n
        · rw [if_pos hn]
          exact iht.2.trans (List.sublist_append_right _ _)
        · rw [if_neg hn, visit_variables_group]
          exact List.Sublist.append (ihh.2 g1 rfl) iht.2
      · have hng : ∀ g1, head ≠ BaseType.dods_group_c g1 := fun g1 h => hgrp ⟨g1, h⟩
        rw [remove_variables_var n head tail hng, visit_variables_var head tail hng]
        by_cases hn : head.FQN = n
        · rw [if_pos hn]
          exact iht.2.trans (List.sublist_append_right _ _)
        · rw [if_neg hn, visit_variables_var _ _ (remove_in_variable_not_group n head hng)]
          exact List.Sublist.append ihh.1 iht.2
  · show List.Sublist (visit_groups (remove_groups n [])) (visit_groups [])
    rw [remove_groups]
  · intro head tail ihh iht
    rw [remove_groups, visit_groups, visit_groups]
    exact List.Sublist.append ihh iht

/-- Walking a tree from which variables have been removed gives the tree after the walk with the
same variables removed: what the walk records on a variable does not depend on the others. -/
theorem annotate_remove (file : String → SDS) (verbose : Bool) (n : String) (g : D4Group) :
    annotate_group file verbose (remove_group n g) =
      remove_group n (annotate_group file verbose g) := by
  refine D4Group.rec
    (motive_1 := fun v =>
      annotate_variable file verbose (remove_in_variable n v) =
        remove_in_variable n (annotate_variable file verbose v) ∧
      (∀ g1, v = BaseType.dods_group_c g1 →
        annotate_group file verbose (remove_group n g1) =
          remove_group n (annotate_group file verbose g1)))
    (motive_2 := fun g1 =>
      annotate_group file verbose (remove_group n g1) =
        remove_group n (annotate_group file verbose g1))
    (motive_3 := fun l =>
      annotate_members file verbose (remove_members n l) =
        remove_members n (annotate_members file verbose l) ∧
      annotate_variables file verbose (remove_variables n l) =
        remove_variables n (annotate_variables file verbose l))
    (motive_4 := fun l =>
      annotate_groups file verbose (remove_groups n l) =
        remove_groups n (annotate_groups file verbose l))
    ?_ ?_ ?_ ?_ ?_ ?_ ?_ ?_ ?_ ?_ ?_ g
  · intro name vars ih
    refine ⟨?_, fun g1 h => by cases h⟩
    rw [remove_in_variable, annotate_variable, annotate_variable, remove_in_variable, ih.1]
  · intro name vars _
    refine ⟨?_, fun g1 h => by cases h⟩
    rw [remove_in_variable, annotate_variable, annotate_variable, remove_in_variable]
  · intro name
    refine ⟨?_, fun g1 h => by cases h⟩
    rw [remove_in_variable, annotate_variable, remove_in_variable]
  · intro name dc
    refine ⟨?_, fun g1 h => by cases h⟩
    rw [remove_in_variable, annotate_variable, remove_in_variable]
  · intro g1 ih
    refine ⟨?_, fun g2 h => by cases h; exact ih⟩
    rw [remove_in_variable, annotate_variable, remove_in_variable]
  · intro name type_name
    refine ⟨?_, fun g1 h => by cases h⟩
    rw [remove_in_variable, annotate_variable, remove_in_variable]
  · intro name vars groups ihv ihg
    rw [remove_group, annotate_group, annotate_group, remove_group, ihv.2, ihg]
  · exact ⟨by rw [remove_members, annotate_members, remove_members],
      by rw [remove_variables, annotate_variables, remove_variables]⟩
  · intro head tail ihh iht
    constructor
    · rw [remove_members, annotate_members, remove_members, annotate_variable_FQN]
      by_cases hn : head.FQN = n
      · rw [if_pos hn, if_pos hn]
        exact iht.1
      · rw [if_neg hn, if_neg hn, annotate_members, ihh.1, iht.1]
    · by_cases hgrp : ∃ g1, head = BaseType.dods_group_c g1
      · obtain ⟨g1, rfl⟩ := hgrp
        rw [remove_variables_group, annotate_variables_group, remove_variables_group,
          annotate_group_FQN]
        by_cases hn : (BaseType.dods_group_c g1).FQN = n
        · rw [if_pos hn, if_pos hn]
          exact iht.2
        · rw [if_neg hn, if_neg hn, annotate_variables_group, ihh.2 g1 rfl, iht.2]
      · have hng : ∀ g1, head ≠ BaseType.dods_group_c g1 := fun g1 h => hgrp ⟨g1, h⟩
        rw [remove_variables_var n head tail hng, annotate_variables_var file verbose head tail hng,
          remove_variables_var n _ _ (annotate_variable_not_group file verbose head hng),
          annotate_variable_FQN]
        by_cases hn : head.FQN = n
        · rw [if_pos hn, if_pos hn]
          exact iht.2
        · rw [if_neg hn, if_neg hn,
            annotate_variables_var file verbose _ _ (remove_in_variable_not_group n head hng),
            ihh.1, iht.2]
  · show annotate_groups file verbose (remove_groups n []) =
      remove_groups n (annotate_groups file verbose [])
    rw [remove_groups, annotate_groups, remove_groups]
  · intro head tail ihh iht
    rw [remove_groups, annotate_groups, annotate_groups, remove_groups, ihh, iht]

/-! ## Arrays served by the store -/

/-- The call on an Array served by the store returns: with `true`, or with `false` for a
recoverable skip. -/
theorem served_returns (file : String → SDS) (verbose : Bool) (name : String)
    (btp : Option DmrppCommon) (h : ServedArray (file name) btp) :
    ∃ r, (get_chunks_for_an_array file verbose name btp).result = Outcome.returned r := by
  obtain ⟨dc, hdc⟩ := Option.ne_none_iff_exists'.mp h.capable
  obtain ⟨info, hinfo⟩ := Option.ne_none_iff_exists'.mp h.getinfo
  obtain ⟨rank, D, data_type⟩ := info
  obtain ⟨ci, hchunk⟩ := Option.ne_none_iff_exists'.mp h.getchunkinfo
  obtain ⟨cdef, chunk_flag⟩ := ci
  obtain ⟨byte_order, hnt⟩ := Option.ne_none_iff_exists'.mp h.getntinfo
  obtain ⟨is_empty, hempty⟩ := Option.ne_none_iff_exists'.mp h.checkempty
  subst hdc
  rcases switch_chunk_flag_cases verbose chunk_flag rank with ⟨l, hs, hc⟩ | ⟨x, hs, hc⟩
  · by_cases he : is_empty ≠ 0
    · refine ⟨(false, some dc), ?_⟩
      unfold get_chunks_for_an_array
      simp only [hinfo, hchunk, hnt, hempty, hs, bind_mk_returned, Bool.true_eq_false, if_false,
        if_pos he]
    · have he0 : is_empty = 0 := by omega
      subst he0
      have hc1 : (chunk_flag = HDF_NONE ∧ 0 ≤ rank) ∨
          ((chunk_flag = HDF_CHUNK ∨ chunk_flag = HDF_COMP) ∧ 0 < rank ∧
            ∀ c ∈ read_chunk_dimension_sizes rank chunk_flag cdef, c ≠ 0) := by
        rcases hc with h0 | ⟨hf, hr⟩
        · subst h0
          exact Or.inl ⟨rfl, h.rank_nonneg rank D data_type cdef hinfo hchunk⟩
        · exact Or.inr ⟨hf, hr, h.chunk_sizes rank D data_type cdef chunk_flag hinfo hchunk hf hr⟩
      obtain ⟨dc1, h1⟩ := array_returns_true file verbose name dc rank D data_type cdef
        chunk_flag byte_order hinfo hchunk hnt hempty h.blocks hc1
      exact ⟨_, h1⟩
  · refine ⟨(false, some dc), ?_⟩
    unfold get_chunks_for_an_array
    simp only [hinfo, hchunk, hs, bind_mk_returned, if_true]
    rfl

theorem process_nodes_returns (file : String → SDS) (verbose : Bool) (l : List BaseType)
    (h : ∀ u ∈ l, ∃ r, (get_chunks_for_a_variable file verbose u).result = Outcome.returned r) :
    (process_nodes file verbose l).result = Outcome.returned () := by
  induction l with
  | nil => rfl
  | cons v vs ih =>
    obtain ⟨r, hr⟩ := h v (List.mem_cons_self _ _)
    rw [process_nodes_cons_result file verbose v vs r hr]
    exact ih fun u hu => h u (List.mem_cons_of_mem _ hu)

/-- Processing a list of Arrays that the store serves returns. -/
theorem process_served_returns (file : String → SDS) (verbose : Bool) (l : List BaseType)
    (hg : l.any BaseType.is_grid = false)
    (hk : ∀ u ∈ l, u.is_array = true ∨ u.is_grid = true)
    (hs : ∀ name dc, BaseType.dods_array_c name dc ∈ l → ServedArray (file name) dc) :
    (process_nodes file verbose l).result = Outcome.returned () := by
  apply process_nodes_returns
  intro u hu
  obtain ⟨name, dc, rfl⟩ := no_grid_arrays l hg hk u hu
  obtain ⟨r, hr⟩ := served_returns file verbose name dc (hs name dc hu)
  rw [get_chunks_for_a_variable_array]
  exact ⟨_, bind_ret_of_returned _ _ r hr⟩

/-! ## A failed block-location query -/

theorem exits_silent {α : Type} (sds : SDS) (r : Run α) (h : queries_of r.trace = []) :
    exits_at_failed_query sds r := by
  intro g hg
  rw [h] at hg
  exact absurd hg (List.not_mem_nil g)

theorem exits_bind {α β : Type} (sds : SDS) (x : Run α) (f : α → Run β)
    (hx : exits_at_failed_query sds x) (hf : ∀ a, exits_at_failed_query sds (f a)) :
    exits_at_failed_query sds (Run.bind x f) := by
  intro g hg hb
  cases x with
  | mk t res =>
    cases res with
    | returned a =>
      rw [bind_mk_returned] at hg ⊢
      simp only [queries_of_append, List.mem_append] at hg
      rcases hg with hg | hg
      · have := (hx g hg hb).1
        simp at this
      · obtain ⟨h1, t2, h2⟩ := hf a g hg hb
        refine ⟨h1, t ++ t2, ?_⟩
        simp only [h2, List.append_assoc]
    | exited =>
      simp only [Run.bind] at hg ⊢
      exact ⟨trivial, (hx g hg hb).2⟩
    | thrown what =>
      simp only [Run.bind] at hg
      have := (hx g hg hb).1
      simp at this
    | undefined =>
      simp only [Run.bind] at hg
      have := (hx g hg hb).1
      simp at this

theorem exits_chunk_loop (verbose : Bool) (sds : SDS) (e : String) (rank : Int)
    (cds : List Nat) (steps : List Int) (n : Nat) :
    ∀ (k : Int) (map_info : SD_mapping_info_t) (strides : List Int) (dc : DmrppCommon),
      exits_at_failed_query sds
        (chunk_loop verbose sds e rank cds steps n k map_info strides dc) := by
  induction n with
  | zero =>
    intro k map_info strides dc
    exact exits_silent sds _ rfl
  | succ n ih =>
    intro k map_info strides dc g hg hbg
    cases hb : sds.blocks strides with
    | none =>
      rw [chunk_loop_succ_none _ _ _ _ _ _ _ _ _ _ _ hb] at hg ⊢
      rw [queries_of_cons_query, queries_of_cons_ERROR, queries_of_nil,
        List.mem_singleton] at hg
      subst hg
      exact ⟨rfl, [], rfl⟩
    | some bs =>
      obtain ⟨map_info1, hstep⟩ :=
        chunk_loop_succ_some verbose sds e rank cds steps n k map_info strides dc bs hb
      rw [hstep] at hg ⊢
      cases hinc : increase_strides k steps rank.toNat 1 strides with
      | none =>
        rw [hinc] at hg
        simp only [queries_of_cons_query, queries_of_chunk_blocks_verbose,
          List.mem_singleton] at hg
        subst hg
        rw [hb] at hbg
        cases hbg
      | some next =>
        rw [hinc] at hg
        simp only [queries_of_cons_query, queries_of_append, queries_of_chunk_blocks_verbose,
          List.nil_append, List.mem_cons] at hg
        rcases hg with hg | hg
        · subst hg
          rw [hb] at hbg
          cases hbg
        · obtain ⟨h1, t2, h2⟩ := ih _ _ _ _ g hg hbg
          refine ⟨h1, Event.query strides :: (chunk_blocks_verbose verbose k map_info1 ++ t2), ?_⟩
          simp only [h2, List.cons_append, List.append_assoc]

theorem exits_chunked_array (verbose : Bool) (sds : SDS) (e : String) (rank : Int)
    (D : List Int) (data_type : Int) (cdef : HDF_CHUNK_DEF) (chunk_flag : Int)
    (dc : DmrppCommon) :
    exits_at_failed_query sds
      (chunked_array verbose sds e rank D data_type cdef chunk_flag dc) := by
  unfold chunked_array
  cases hs : steps_loop D (read_chunk_dimension_sizes rank chunk_flag cdef) rank.toNat with
  | none => simp only [hs]; exact exits_silent sds _ rfl
  | some p =>
    simp only [hs]
    exact exits_bind sds _ _ (exits_silent sds _ (queries_of_VERBOSE _ _))
      (fun _ => exits_chunk_loop _ _ _ _ _ _ _ _ _ _ _)

theorem exits_contiguous_array (verbose : Bool) (sds : SDS) (e : String) (rank : Int)
    (data_type : Int) (dc : DmrppCommon) :
    exits_at_failed_query sds (contiguous_array verbose sds e rank data_type dc) := by
  by_cases hr : rank < 0
  · unfold contiguous_array
    simp only [if_pos hr]
    exact exits_silent sds _ rfl
  · cases hb : sds.blocks (List.replicate rank.toNat 0) with
    | none =>
      rw [contiguous_array_none verbose sds e rank data_type dc (by omega) hb]
      intro g hg _
      rw [queries_of_cons_query, queries_of_cons_ERROR, queries_of_nil,
        List.mem_singleton] at hg
      subst hg
      exact ⟨rfl, [], rfl⟩
    | some bs =>
      obtain ⟨m, hm⟩ := contiguous_array_some verbose sds e rank data_type dc bs (by omega) hb
      rw [hm]
      intro g hg hbg
      rw [queries_of_cons_query, queries_of_add_blocks_verbose, List.mem_singleton] at hg
      subst hg
      rw [hb] at hbg
      cases hbg

/-- A block-location query that the store fails ends the call, and the process, on the spot:
the call does not return, neither `true` nor `false`. -/
theorem exits_array (file : String → SDS) (verbose : Bool) (name : String)
    (btp : Option DmrppCommon) :
    exits_at_failed_query (file name) (get_chunks_for_an_array file verbose name btp) := by
  unfold get_chunks_for_an_array
  apply exits_bind _ _ _ (exits_silent _ _ (queries_of_VERBOSE _ _))
  intro _
  split
  · exact exits_silent _ _ rfl
  · split
    · exact exits_silent _ _ rfl
    · apply exits_bind
      · rcases switch_chunk_flag_cases verbose _ _ with ⟨l, hs, -⟩ | ⟨x, hs, -⟩
        · rw [hs]; exact exits_silent _ _ (queries_of_VERBOSE _ _)
        · rw [hs]; exact exits_silent _ _ rfl
      · intro go_on
        split
        · exact exits_silent _ _ rfl
        · split
          · exact exits_silent _ _ rfl
          · split
            · exact exits_silent _ _ rfl
            · split
              · exact exits_silent _ _ (queries_of_VERBOSE _ _)
              · split
                · exact exits_silent _ _ rfl
                · split
                  · exact exits_bind _ _ _ (exits_chunked_array _ _ _ _ _ _ _ _ _)
                      (fun _ => exits_silent _ _ rfl)
                  · split
                    · exact exits_bind _ _ _ (exits_contiguous_array _ _ _ _ _ _)
                        (fun _ => exits_silent _ _ rfl)
                    · exact exits_silent _ _ rfl

/-! ## The order in which the walk processes the Arrays -/

/-- C19. The walk of a group processes the nodes of `visit_group`, in that order, where
`visit_group` is the depth-first pre-order of the specification: the direct variables of the
group in declared order, each expanded (an Array as itself, a Structure as its members in
declared order, a Sequence and an atomic variable as nothing), followed by the child groups in
declared order, each completed before the next. A Grid is listed as itself, since processing it
ends the walk, and a group met among the variables is visited as a group. The block-location
queries of the walk are those of processing the listed nodes one after the other, in the same
order; the walk ends in the same way; every event of the processing (catalog entries,
diagnostics) occurs in the walk in the same order; when the walk ends early, it ends with the
events of the node that ended the processing; the listed nodes are Arrays and Grids only, with a
Grid exactly when the walk meets one; and when the walk returns, the tree it returns lists, in
the same order, each Array with what its own call recorded on it. -/
theorem C19_arrays_processed_in_visit_order (file : String → SDS) (verbose : Bool)
    (root : D4Group) :
    queries_of (get_chunks_for_all_variables file verbose root).trace =
      queries_of (process_nodes file verbose (visit_group root)).trace ∧
    (get_chunks_for_all_variables file verbose root).result.map (fun _ => ()) =
      (process_nodes file verbose (visit_group root)).result ∧
    List.Sublist (process_nodes file verbose (visit_group root)).trace
      (get_chunks_for_all_variables file verbose root).trace ∧
    List.IsSuffix (abort_trace file verbose (visit_group root))
      (get_chunks_for_all_variables file verbose root).trace ∧
    (∀ u ∈ visit_group root, u.is_array = true ∨ u.is_grid = true) ∧
    root.meets_grid = (visit_group root).any BaseType.is_grid ∧
    (∀ g1, (get_chunks_for_all_variables file verbose root).result = Outcome.returned g1 →
      g1 = annotate_group file verbose root ∧
      visit_group g1 = (visit_group root).map (annotate_variable file verbose)) := by
  obtain ⟨hq, hk, hs, ha, hok⟩ := walk_follows file verbose root
  obtain ⟨hg, hkind⟩ := visit_kinds root
  refine ⟨hq, hk, hs, ha, hkind, hg, ?_⟩
  intro g1 h1
  have := hok g1 h1
  subst this
  exact ⟨rfl, visit_annotate file verbose root⟩

/-- C19, witness: a group holding the chunked Array "temp", a Structure with a Sequence and the
contiguous Array "lat", an atomic variable, and a child group holding the Array "lat2". The
nodes are visited in the order temp, lat, lat2, and the queries of the walk are the four of
"temp", then the one of "lat", then the one of "lat2". -/
theorem C19_witness_tree :
    visit_group (D4Group.mk "/"
        [BaseType.dods_array_c "temp" (some ⟨[], [], none⟩),
          BaseType.dods_structure_c "s" [BaseType.dods_sequence_c "q" [],
            BaseType.dods_array_c "lat" (some ⟨[], [], none⟩)],
          BaseType.atomic "t" "Int32"]
        [D4Group.mk "child" [BaseType.dods_array_c "lat2" (some ⟨[], [], none⟩)] []])
      = [BaseType.dods_array_c "temp" (some ⟨[], [], none⟩),
          BaseType.dods_array_c "lat" (some ⟨[], [], none⟩),
          BaseType.dods_array_c "lat2" (some ⟨[], [], none⟩)] ∧
    queries_of (get_chunks_for_all_variables
        (fun n => if n = "temp" then example_temp else example_lat) false
        (D4Group.mk "/"
          [BaseType.dods_array_c "temp" (some ⟨[], [], none⟩),
            BaseType.dods_structure_c "s" [BaseType.dods_sequence_c "q" [],
              BaseType.dods_array_c "lat" (some ⟨[], [], none⟩)],
            BaseType.atomic "t" "Int32"]
          [D4Group.mk "child" [BaseType.dods_array_c "lat2" (some ⟨[], [], none⟩)] []])).trace
      = [[0, 0], [0, 1], [1, 0], [1, 1], [0], [0]] ∧
    queries_of (get_chunks_for_all_variables
        (fun n => if n = "temp" then example_temp else example_lat) false
        (D4Group.mk "/"
          [BaseType.dods_array_c "temp" (some ⟨[], [], none⟩),
            BaseType.dods_structure_c "s" [BaseType.dods_sequence_c "q" [],
              BaseType.dods_array_c "lat" (some ⟨[], [], none⟩)],
            BaseType.atomic "t" "Int32"]
          [D4Group.mk "child" [BaseType.dods_array_c "lat2" (some ⟨[], [], none⟩)] []])).trace
      = queries_of (process_nodes
        (fun n => if n = "temp" then example_temp else example_lat) false
        (visit_group (D4Group.mk "/"
          [BaseType.dods_array_c "temp" (some ⟨[], [], none⟩),
            BaseType.dods_structure_c "s" [BaseType.dods_sequence_c "q" [],
              BaseType.dods_array_c "lat" (some ⟨[], [], none⟩)],
            BaseType.atomic "t" "Int32"]
          [D4Group.mk "child" [BaseType.dods_array_c "lat2" (some ⟨[], [], none⟩)] []]))).trace :=
  ⟨rfl, by decide,
    (C19_arrays_processed_in_visit_order
      (fun n => if n = "temp" then example_temp else example_lat) false
      (D4Group.mk "/"
        [BaseType.dods_array_c "temp" (some ⟨[], [], none⟩),
          BaseType.dods_structure_c "s" [BaseType.dods_sequence_c "q" [],
            BaseType.dods_array_c "lat" (some ⟨[], [], none⟩)],
          BaseType.atomic "t" "Int32"]
        [D4Group.mk "child" [BaseType.dods_array_c "lat2" (some ⟨[], [], none⟩)] []])).1⟩

/-! ## A failed block-location query aborts the build -/

theorem bind_of_returned {α β : Type} (x : Run α) (f : α → Run β) (a : α)
    (h : x.result = Outcome.returned a) :
    Run.bind x f = ⟨x.trace ++ (f a).trace, (f a).result⟩ := by
  cases x with
  | mk t res =>
    simp only at h
    subst h
    rfl

theorem bind_of_exited {α β : Type} (x : Run α) (f : α → Run β)
    (h : x.result = Outcome.exited) : Run.bind x f = ⟨x.trace, Outcome.exited⟩ := by
  cases x with
  | mk t res =>
    simp only at h
    subst h
    rfl

theorem map_unit_exited {α : Type} (x : Outcome α)
    (h : x.map (fun _ => ()) = Outcome.exited) : x = Outcome.exited := by
  cases x with
  | returned a => simp [Outcome.map] at h
  | exited => rfl
  | thrown what => simp [Outcome.map] at h
  | undefined => simp [Outcome.map] at h

/-- C12. Let the Array `name` be a node of the visiting order of the tree, let the processing
of every node before it return, and let the store fail a block-location query that
`get_chunks_for_an_array` makes for it, at any coordinate `g` (chunked or contiguous). Then the
call ends the process with `exit(1)`: it does not return, in particular not `false`. The walk
ends there: its last two events are the failed query and the error text, and its queries are
those of the nodes before and of this Array, none for a node after it. `add_chunk_information`
and `build_dmrpp_from_dmr_file` end in the same way, and the document is not written. -/
theorem C12_failed_block_query_aborts_the_build (file : String → SDS) (verbose : Bool)
    (root : D4Group) (pre post : List BaseType) (name : String) (dc : Option DmrppCommon)
    (g : List Int)
    (hvisit : visit_group root = pre ++ BaseType.dods_array_c name dc :: post)
    (hpre : ∀ u ∈ pre, ∃ r,
      (get_chunks_for_a_variable file verbose u).result = Outcome.returned r)
    (hg : g ∈ queries_of (get_chunks_for_an_array file verbose name dc).trace)
    (hfail : (file name).blocks g = none) :
    (get_chunks_for_an_array file verbose name dc).result = Outcome.exited ∧
    (∀ node, (get_chunks_for_an_array file verbose name dc).result
      ≠ Outcome.returned (false, node)) ∧
    (get_chunks_for_all_variables file verbose root).result = Outcome.exited ∧
    (∃ t, (get_chunks_for_all_variables file verbose root).trace = t ++
      [Event.query g, Event.ERROR "SDgetedatainfo() failed in read_chunk()."]) ∧
    queries_of (get_chunks_for_all_variables file verbose root).trace =
      queries_of (process_nodes file verbose pre).trace ++
        queries_of (get_chunks_for_an_array file verbose name dc).trace ∧
    (add_chunk_information (some file) verbose root).result = Outcome.exited ∧
    (build_dmrpp_from_dmr_file root (some file) verbose).result = Outcome.exited ∧
    Event.cout_document ∉ (build_dmrpp_from_dmr_file root (some file) verbose).trace := by
  obtain ⟨hex, t0, ht0⟩ := exits_array file verbose name dc g hg hfail
  have hvres : (get_chunks_for_a_variable file verbose (BaseType.dods_array_c name dc)).result
      = Outcome.exited := by
    rw [get_chunks_for_a_variable_array, bind_of_exited _ _ hex]
  have hvtr : (get_chunks_for_a_variable file verbose (BaseType.dods_array_c name dc)).trace
      = (get_chunks_for_an_array file verbose name dc).trace := by
    rw [get_chunks_for_a_variable_array, bind_ret_trace]
  have hvne : ∀ r, (get_chunks_for_a_variable file verbose
      (BaseType.dods_array_c name dc)).result ≠ Outcome.returned r := by
    intro r hr
    rw [hvres] at hr
    cases hr
  have hppre := process_nodes_returns file verbose pre hpre
  have hproc : process_nodes file verbose (pre ++ BaseType.dods_array_c name dc :: post) =
      ⟨(process_nodes file verbose pre).trace ++
        (get_chunks_for_an_array file verbose name dc).trace, Outcome.exited⟩ := by
    rw [process_nodes_append, bind_of_returned _ _ () hppre, process_nodes_cons,
      bind_of_exited _ _ hvres, hvtr]
  have habort : abort_trace file verbose (pre ++ BaseType.dods_array_c name dc :: post) =
      (get_chunks_for_an_array file verbose name dc).trace := by
    rw [abort_trace_append_returned file verbose pre _ hppre,
      abort_trace_cons_aborted file verbose _ _ hvne, hvtr]
  obtain ⟨hq, hk, -, ha, -⟩ := walk_follows file verbose root
  rw [hvisit, hproc] at hq hk
  rw [hvisit, habort] at ha
  simp only at hq hk
  have hwalk := map_unit_exited _ hk
  have haci : (add_chunk_information (some file) verbose root).result = Outcome.exited := by
    unfold add_chunk_information
    simp only [hwalk]
  refine ⟨hex, ?_, hwalk, ?_, ?_, haci, ?_, ?_⟩
  · intro node hn
    rw [hex] at hn
    cases hn
  · obtain ⟨t1, ht1⟩ := ha
    refine ⟨t1 ++ t0, ?_⟩
    rw [← ht1, ht0, List.append_assoc]
  · rw [hq, queries_of_append]
  · unfold build_dmrpp_from_dmr_file
    rw [bind_of_exited _ _ haci]
  · unfold build_dmrpp_from_dmr_file
    rw [bind_of_exited _ _ haci]
    exact add_chunk_information_no_document (some file) verbose root

/-- C12, witness: a group holding the Arrays "temp", "lat" and "after"; the store cannot report
the blocks of "lat". The walk processes "temp", ends in `exit(1)` at the query of "lat", and
makes no query for "after". -/
theorem C12_witness_unreadable_lat :
    (get_chunks_for_all_variables
        (fun n => if n = "lat" then example_unreadable else example_temp) false
        (D4Group.mk "/" [BaseType.dods_array_c "temp" (some ⟨[], [], none⟩),
          BaseType.dods_array_c "lat" (some ⟨[], [], none⟩),
          BaseType.dods_array_c "after" (some ⟨[], [], none⟩)] [])).result = Outcome.exited ∧
    queries_of (get_chunks_for_all_variables
        (fun n => if n = "lat" then example_unreadable else example_temp) false
        (D4Group.mk "/" [BaseType.dods_array_c "temp" (some ⟨[], [], none⟩),
          BaseType.dods_array_c "lat" (some ⟨[], [], none⟩),
          BaseType.dods_array_c "after" (some ⟨[], [], none⟩)] [])).trace
      = [[0, 0], [0, 1], [1, 0], [1, 1], [0]] :=
  ⟨(C12_failed_block_query_aborts_the_build
      (fun n => if n = "lat" then example_unreadable else example_temp) false
      (D4Group.mk "/" [BaseType.dods_array_c "temp" (some ⟨[], [], none⟩),
        BaseType.dods_array_c "lat" (some ⟨[], [], none⟩),
        BaseType.dods_array_c "after" (some ⟨[], [], none⟩)] [])
      [BaseType.dods_array_c "temp" (some ⟨[], [], none⟩)]
      [BaseType.dods_array_c "after" (some ⟨[], [], none⟩)] "lat" (some ⟨[], [], none⟩) [0]
      rfl
      (fun u hu => by
        rw [List.mem_singleton] at hu
        subst hu
        exact ⟨_, rfl⟩)
      (by decide) rfl).2.2.1,
    by decide⟩

/-! ## Recoverable failures are confined to the variable -/

/-- A call that returns `false` leaves the node as it was. -/
theorem returned_false_unchanged (file : String → SDS) (verbose : Bool) (name : String)
    (btp node : Option DmrppCommon)
    (h : (get_chunks_for_an_array file verbose name btp).result
      = Outcome.returned (false, node)) :
    node = btp := by
  unfold get_chunks_for_an_array at h
  simp only [bind_mk_returned] at h
  cases h1 : (file name).SDgetinfo with
  | none => simp [h1, FAIL_ERROR] at h
  | some p1 =>
    obtain ⟨rank, D, data_type⟩ := p1
    cases h2 : (file name).SDgetchunkinfo with
    | none => simp [h1, h2, FAIL_ERROR] at h
    | some p2 =>
      obtain ⟨cdef, chunk_flag⟩ := p2
      simp only [h1, h2] at h
      rcases switch_chunk_flag_cases verbose chunk_flag rank with ⟨l, hs, -⟩ | ⟨x, hs, -⟩
      · simp only [hs, bind_mk_returned] at h
        cases h3 : (file name).Hgetntinfo with
        | none => simp [h3, FAIL_ERROR] at h
        | some byte_order =>
          cases h4 : (file name).SDcheckempty with
          | none => simp [h3, h4, FAIL_ERROR] at h
          | some is_empty =>
            simp only [h3, h4] at h
            by_cases he : is_empty ≠ 0
            · simp [he] at h
              exact h.symm
            · simp only [he, if_false, Bool.true_eq_false] at h
              exact absurd h (after_checks_not_false verbose (file name)
                (endian_name_of byte_order) rank D data_type cdef chunk_flag btp node)
      · simp [hs, bind_mk_returned, Run.ret] at h
        exact h.symm

/-- A walk that meets a Grid is the walk of a tree that contains one: a tree without a Grid is
a tree in which the walk meets none. -/
theorem meets_grid_contains (g : D4Group) : g.meets_grid = true → g.contains_grid = true := by
  refine D4Group.rec
    (motive_1 := fun v =>
      (v.meets_grid = true → v.contains_grid = true) ∧
      (∀ g1, v = BaseType.dods_group_c g1 → g1.meets_grid = true → g1.contains_grid = true))
    (motive_2 := fun g1 => g1.meets_grid = true → g1.contains_grid = true)
    (motive_3 := fun l =>
      (members_meet_grid l = true → contains_grid_list l = true) ∧
      (variables_meet_grid l = true → contains_grid_list l = true))
    (motive_4 := fun l => groups_meet_grid l = true → contains_grid_groups l = true)
    ?_ ?_ ?_ ?_ ?_ ?_ ?_ ?_ ?_ ?_ ?_ g
  · intro name vars ih
    refine ⟨?_, fun g1 h => by cases h⟩
    rw [BaseType.meets_grid, BaseType.contains_grid]
    exact ih.1
  · intro name vars _
    exact ⟨fun hm => by simp [BaseType.meets_grid] at hm, fun g1 h => by cases h⟩
  · intro name
    exact ⟨fun _ => by rw [BaseType.contains_grid], fun g1 h => by cases h⟩
  · intro name dc
    exact ⟨fun hm => by simp [BaseType.meets_grid] at hm, fun g1 h => by cases h⟩
  · intro g1 ih
    exact ⟨fun hm => by simp [BaseType.meets_grid] at hm, fun g2 h => by cases h; exact ih⟩
  · intro name type_name
    exact ⟨fun hm => by simp [BaseType.meets_grid] at hm, fun g1 h => by cases h⟩
  · intro name vars groups ihv ihg hm
    rw [D4Group.meets_grid, Bool.or_eq_true] at hm
    rw [D4Group.contains_grid, Bool.or_eq_true]
    rcases hm with hm | hm
    · exact Or.inl (ihv.2 hm)
    · exact Or.inr (ihg hm)
  · exact ⟨fun hm => by simp [members_meet_grid] at hm,
      fun hm => by simp [variables_meet_grid] at hm⟩
  · intro head tail ihh iht
    constructor
    · intro hm
      rw [members_meet_grid, Bool.or_eq_true] at hm
      rw [contains_grid_list, Bool.or_eq_true]
      rcases hm with hm | hm
      · exact Or.inl (ihh.1 hm)
      · exact Or.inr (iht.1 hm)
    · intro hm
      rw [contains_grid_list, Bool.or_eq_true]
      by_cases hgrp : ∃ g1, head = BaseType.dods_group_c g1
      · obtain ⟨g1, rfl⟩ := hgrp
        rw [variables_meet_grid_group, Bool.or_eq_true] at hm
        rcases hm with hm | hm
        · left
          rw [BaseType.contains_grid]
          exact ihh.2 g1 rfl hm
        · exact Or.inr (iht.2 hm)
      · rw [variables_meet_grid_var head tail fun g1 h => hgrp ⟨g1, h⟩,
          Bool.or_eq_true] at hm
        rcases hm with hm | hm
        · exact Or.inl (ihh.1 hm)
        · exact Or.inr (iht.2 hm)
  · intro hm
    simp [groups_meet_grid] at hm
  · intro head tail ihh iht hm
    rw [groups_meet_grid, Bool.or_eq_true] at hm
    rw [contains_grid_groups, Bool.or_eq_true]
    rcases hm with hm | hm
    · exact Or.inl (ihh hm)
    · exact Or.inr (iht hm)

/-- The walk of a tree in which it meets no Grid and every Array it visits is served by the
store returns the annotated tree. -/
theorem walk_served_returns (file : String → SDS) (verbose : Bool) (root : D4Group)
    (hgrid : (visit_group root).any BaseType.is_grid = false)
    (hserved : ∀ name dc, BaseType.dods_array_c name dc ∈ visit_group root →
      ServedArray (file name) dc) :
    (get_chunks_for_all_variables file verbose root).result
      = Outcome.returned (annotate_group file verbose root) := by
  obtain ⟨-, hk, -, -, hok⟩ := walk_follows file verbose root
  rw [process_served_returns file verbose _ hgrid (visit_kinds root).2 hserved] at hk
  obtain ⟨a, ha⟩ := map_unit_returned _ hk
  rw [ha, hok a ha]

/-- C17. Take a tree in which the walk meets no Grid (a tree without a Grid is one) and in
which every Array the walk visits is served: its node is catalog-capable, every store query
about it succeeds, and it is an array of the data model (rank `>= 0` when contiguous, no chunk
size zero when chunked with rank `> 0`). Then `get_chunks_for_all_variables` returns, and the
tree it returns is the annotated tree, in which each visited Array carries what its own call
recorded and nothing else is changed; an Array skipped recoverably (its call returned `false`)
is unchanged. For every variable name `n`, the walk of the tree with the variables named `n`
removed also returns, and what it returns is the tree returned for the whole tree with the same
variables removed: the layout and catalog of every other variable are the same. -/
theorem C17_recoverable_failures_are_confined (file : String → SDS) (verbose : Bool)
    (root : D4Group) (n : String)
    (hgrid : root.meets_grid = false)
    (hserved : ∀ name dc, BaseType.dods_array_c name dc ∈ visit_group root →
      ServedArray (file name) dc) :
    (get_chunks_for_all_variables file verbose root).result
      = Outcome.returned (annotate_group file verbose root) ∧
    (get_chunks_for_all_variables file verbose (remove_group n root)).result
      = Outcome.returned (remove_group n (annotate_group file verbose root)) ∧
    visit_group (annotate_group file verbose root) =
      (visit_group root).map (annotate_variable file verbose) ∧
    (∀ name dc node, BaseType.dods_array_c name dc ∈ visit_group root →
      (get_chunks_for_an_array file verbose name dc).result = Outcome.returned (false, node) →
      annotate_variable file verbose (BaseType.dods_array_c name dc)
        = BaseType.dods_array_c name dc) := by
  have hg : (visit_group root).any BaseType.is_grid = false := by
    rw [← (visit_kinds root).1]
    exact hgrid
  have hsub := visit_remove_sublist n root
  have hg1 : (visit_group (remove_group n root)).any BaseType.is_grid = false := by
    cases hany : (visit_group (remove_group n root)).any BaseType.is_grid with
    | false => rfl
    | true =>
      obtain ⟨u, hu, hgu⟩ := List.any_eq_true.mp hany
      have : (visit_group root).any BaseType.is_grid = true :=
        List.any_eq_true.mpr ⟨u, hsub.subset hu, hgu⟩
      rw [hg] at this
      cases this
  refine ⟨walk_served_returns file verbose root hg hserved, ?_,
    visit_annotate file verbose root, ?_⟩
  · rw [walk_served_returns file verbose (remove_group n root) hg1
      (fun name dc h => hserved name dc (hsub.subset h)), annotate_remove]
  · intro name dc node _ hret
    have hnode := returned_false_unchanged file verbose name dc node hret
    rw [annotate_variable, array_after, hret, hnode]

/-- C17, counterexample: a tree without a Grid, every store query succeeding, whose only Array
sits on a node that is not catalog-capable: the walk does not complete, it ends with the
exception `BESInternalError`. -/
theorem C17_counterexample_node_not_capable :
    D4Group.contains_grid (D4Group.mk "/" [BaseType.dods_array_c "lat" none] []) = false ∧
    example_lat.SDgetinfo ≠ none ∧ example_lat.SDgetchunkinfo ≠ none ∧
    example_lat.Hgetntinfo ≠ none ∧ example_lat.SDcheckempty ≠ none ∧
    (∀ g, example_lat.blocks g ≠ none) ∧
    (get_chunks_for_all_variables (fun _ => example_lat) false
      (D4Group.mk "/" [BaseType.dods_array_c "lat" none] [])).result
        = Outcome.thrown "BESInternalError" :=
  ⟨by decide, by decide, by decide, by decide, by decide,
    fun _ => Option.some_ne_none _, rfl⟩

theorem served_example_temp (dc : DmrppCommon) : ServedArray example_temp (some dc) := by
  refine ⟨by simp, by decide, by decide, by decide, by decide,
    fun _ => Option.some_ne_none _, ?_, ?_⟩
  · intro rank D data_type cdef _ h2
    simp only [example_temp, Option.some.injEq, Prod.mk.injEq] at h2
    exact absurd h2.2 (by decide)
  · intro rank D data_type cdef chunk_flag h1 h2 _ _
    simp only [example_temp, Option.some.injEq, Prod.mk.injEq] at h1 h2
    obtain ⟨rfl, -, -⟩ := h1
    obtain ⟨rfl, rfl⟩ := h2
    decide

theorem served_example_empty (dc : DmrppCommon) : ServedArray example_empty (some dc) := by
  refine ⟨by simp, by decide, by decide, by decide, by decide,
    fun _ => Option.some_ne_none _, ?_, ?_⟩
  · intro rank D data_type cdef _ h2
    simp only [example_empty, Option.some.injEq, Prod.mk.injEq] at h2
    exact absurd h2.2 (by decide)
  · intro rank D data_type cdef chunk_flag h1 h2 _ _
    simp only [example_empty, Option.some.injEq, Prod.mk.injEq] at h1 h2
    obtain ⟨rfl, -, -⟩ := h1
    obtain ⟨rfl, rfl⟩ := h2
    decide

/-- C17, witness: a group holding the chunked Array "temp", a Sequence, and the Array "e" that
reports empty and is skipped recoverably. The walk returns; "temp" carries its four descriptors
and "e" is unchanged. Walking the tree without "e" returns the same tree without "e". -/
theorem C17_witness_temp_and_empty :
    (get_chunks_for_all_variables (fun n => if n = "e" then example_empty else example_temp)
        false
        (D4Group.mk "/" [BaseType.dods_array_c "temp" (some ⟨[], [], none⟩),
          BaseType.dods_sequence_c "seq" [],
          BaseType.dods_array_c "e" (some ⟨[], [], none⟩)] [])).result
      = Outcome.returned (D4Group.mk "/" [BaseType.dods_array_c "temp"
          (some ⟨[⟨"BE", 8, 0, [0, 0]⟩, ⟨"BE", 8, 1, [0, 2]⟩, ⟨"BE", 8, 100, [2, 0]⟩,
            ⟨"BE", 8, 101, [2, 2]⟩], [2, 2], none⟩),
          BaseType.dods_sequence_c "seq" [],
          BaseType.dods_array_c "e" (some ⟨[], [], none⟩)] []) ∧
    (get_chunks_for_all_variables (fun n => if n = "e" then example_empty else example_temp)
        false
        (remove_group "e"
          (D4Group.mk "/" [BaseType.dods_array_c "temp" (some ⟨[], [], none⟩),
            BaseType.dods_sequence_c "seq" [],
            BaseType.dods_array_c "e" (some ⟨[], [], none⟩)] []))).result
      = Outcome.returned (remove_group "e"
          (annotate_group (fun n => if n = "e" then example_empty else example_temp) false
            (D4Group.mk "/" [BaseType.dods_array_c "temp" (some ⟨[], [], none⟩),
              BaseType.dods_sequence_c "seq" [],
              BaseType.dods_array_c "e" (some ⟨[], [], none⟩)] []))) :=
  ⟨rfl,
    (C17_recoverable_failures_are_confined
      (fun n => if n = "e" then example_empty else example_temp) false
      (D4Group.mk "/" [BaseType.dods_array_c "temp" (some ⟨[], [], none⟩),
        BaseType.dods_sequence_c "seq" [],
        BaseType.dods_array_c "e" (some ⟨[], [], none⟩)] []) "e" (by decide)
      (fun name dc h => by
        have hv : visit_group (D4Group.mk "/" [BaseType.dods_array_c "temp"
            (some ⟨[], [], none⟩), BaseType.dods_sequence_c "seq" [],
            BaseType.dods_array_c "e" (some ⟨[], [], none⟩)] []) =
            [BaseType.dods_array_c "temp" (some ⟨[], [], none⟩),
              BaseType.dods_array_c "e" (some ⟨[], [], none⟩)] := rfl
        rw [hv] at h
        simp only [List.mem_cons, BaseType.dods_array_c.injEq, List.mem_singleton,
          List.not_mem_nil, or_false] at h
        rcases h with ⟨rfl, rfl⟩ | ⟨rfl, rfl⟩
        · exact served_example_temp _
        · exact served_example_empty _)).2.1⟩

/-! ## The codec name after a call that returns `true` -/

/-- The codec name on the node after a call that returns `true`: the literal "deflate" for
`HDF_COMP`, whatever compression type the store reports, and the name the node had before the
call for `HDF_CHUNK` and for `HDF_NONE`. -/
theorem array_compression_type (file : String → SDS) (verbose : Bool) (name : String)
    (dc dc1 : DmrppCommon) (rank : Int) (D : List Int) (data_type : Int) (cdef : HDF_CHUNK_DEF)
    (chunk_flag : Int)
    (hinfo : (file name).SDgetinfo = some (rank, D, data_type))
    (hchunk : (file name).SDgetchunkinfo = some (cdef, chunk_flag))
    (hret : (get_chunks_for_an_array file verbose name (some dc)).result
      = Outcome.returned (true, some dc1)) :
    dc1.compression_type =
      if chunk_flag = HDF_COMP then some "deflate" else dc.compression_type := by
  obtain ⟨⟨byte_order, hnt⟩, hempty, -, hc⟩ := returned_true_inv file verbose name (some dc) dc1
    rank D data_type cdef chunk_flag hinfo hchunk hret
  rcases hc with ⟨h0, hr⟩ | ⟨hf, hr⟩
  · subst h0
    obtain ⟨lines, hEq⟩ := get_chunks_for_an_array_contiguous file verbose name dc rank D
      data_type cdef byte_order hinfo hchunk hnt hempty
    rw [hEq, bind_mk_returned] at hret
    obtain ⟨dc2, hdc2, hg⟩ := (bind_ret_returned _ _ _).1 hret
    simp only [Prod.mk.injEq, Option.some.injEq, true_and] at hg
    subst hg
    rw [if_neg (by decide)]
    cases hb : (file name).blocks (List.replicate rank.toNat 0) with
    | none =>
      rw [contiguous_array_none verbose _ _ rank data_type dc hr hb] at hdc2
      simp at hdc2
    | some bs =>
      obtain ⟨l2, h2⟩ := contiguous_array_some verbose _ (endian_name_of byte_order) rank
        data_type dc bs hr hb
      rw [h2] at hdc2
      simp only [Outcome.returned.injEq] at hdc2
      rw [← hdc2]
  · obtain ⟨lines, hEq⟩ := get_chunks_for_an_array_chunked file verbose name dc rank D data_type
      cdef chunk_flag byte_order hinfo hchunk hf hr hnt hempty
    rw [hEq, bind_mk_returned] at hret
    obtain ⟨dc2, hdc2, hg⟩ := (bind_ret_returned _ _ _).1 hret
    simp only [Prod.mk.injEq, Option.some.injEq, true_and] at hg
    subst hg
    rw [chunked_array_compression verbose (file name) _ rank D data_type cdef chunk_flag dc dc2
      hdc2, ingest_compression_type_eq rank chunk_flag dc hr]
    rcases hf with h | h
    · rw [if_pos h, h, if_neg (by decide)]
    · rw [h, if_neg (by decide), if_pos rfl]

/-! ## No stale blocks -/

/-- What a `read_chunk` call that returns leaves in `map_info`: the blocks the store holds at
the coordinate just queried, whatever `map_info` held before the call. -/
theorem read_chunk_returned_inv (sds : SDS) (map_info map_info1 : SD_mapping_info_t)
    (origin : List Int) (ret : Int)
    (h : (read_chunk sds map_info origin).result = Outcome.returned (ret, map_info1)) :
    ret ≠ FAIL ∧ ∃ bs, sds.blocks origin = some bs ∧
      map_info1.nblocks = (bs.length : Int) ∧
      map_info1.offsets.getD [] = bs.map Block.offset ∧
      map_info1.lengths.getD [] = bs.map Block.length := by
  cases hb : sds.blocks origin with
  | none =>
    rw [read_chunk_none sds map_info origin hb] at h
    cases h
  | some bs =>
    obtain ⟨ret1, mi, hrc, hret, hn, ho, hl⟩ := read_chunk_some sds map_info origin bs hb
    rw [hrc] at h
    simp only [Outcome.returned.injEq, Prod.mk.injEq] at h
    obtain ⟨h1, h2⟩ := h
    subst h1
    subst h2
    exact ⟨hret, bs, rfl, hn, ho, hl⟩

/-- At a coordinate where the store holds no block, `read_chunk` leaves `map_info` with
`nblocks = 0` and null `offsets` and `lengths`, whatever it held before. -/
theorem read_chunk_zero_blocks (sds : SDS) (map_info : SD_mapping_info_t) (origin : List Int)
    (hb : sds.blocks origin = some []) :
    read_chunk sds map_info origin =
      ⟨[Event.query origin], Outcome.returned (SUCCEED,
        ⟨0, none, none, map_info.data_type, map_info.is_empty⟩)⟩ := by
  simp [read_chunk, SDgetdatainfo, hb, FAIL, SUCCEED, SDfree_mapping_info]

theorem descriptors_of_nil (e : String) (pia : List Nat) : descriptors_of e [] pia = [] := rfl

/-- Coordinates at which the store holds no block contribute nothing to the catalog. -/
theorem catalog_of_filter (sds : SDS) (e : String) (rank : Int) (cds : List Nat)
    (qs : List (List Int)) :
    catalog_of sds e rank cds qs =
      catalog_of sds e rank cds (qs.filter fun g => decide (sds.blocks g ≠ some [])) := by
  induction qs with
  | nil => rfl
  | cons g gs ih =>
    rw [catalog_of_cons, ih]
    by_cases hg : sds.blocks g = some []
    · rw [List.filter_cons_of_neg (by simpa using hg), hg]
      rfl
    · rw [List.filter_cons_of_pos (by simpa using hg), catalog_of_cons]

theorem VERBOSE_nil (verbose : Bool) : VERBOSE verbose [] = [] := by
  cases verbose <;> rfl

/-- One iteration of the enumeration loop at a coordinate where the store holds no block: the
query is made, nothing is appended to the catalog, and the loop goes on with an empty
`map_info`, whatever blocks `map_info` held from the coordinate queried before. -/
theorem chunk_loop_zero_blocks (verbose : Bool) (sds : SDS) (e : String) (rank : Int)
    (cds : List Nat) (steps : List Int) (n : Nat) (k : Int) (map_info : SD_mapping_info_t)
    (strides : List Int) (dc : DmrppCommon) (hb : sds.blocks strides = some []) :
    chunk_loop verbose sds e rank cds steps (n + 1) k map_info strides dc =
      match increase_strides k steps rank.toNat 1 strides with
      | none => ⟨[Event.query strides], Outcome.undefined⟩
      | some next =>
        ⟨Event.query strides ::
            (chunk_loop verbose sds e rank cds steps n (k + 1)
              ⟨0, none, none, map_info.data_type, map_info.is_empty⟩ next dc).trace,
          (chunk_loop verbose sds e rank cds steps n (k + 1)
              ⟨0, none, none, map_info.data_type, map_info.is_empty⟩ next dc).result⟩ := by
  have hS : ¬ (SUCCEED = FAIL) := by decide
  have hv : chunk_blocks_verbose verbose k
      ⟨0, none, none, map_info.data_type, map_info.is_empty⟩ = [] := VERBOSE_nil verbose
  have ha : add_blocks e ⟨0, none, none, map_info.data_type, map_info.is_empty⟩
      (write_chunk_position_in_array rank cds strides) dc = dc := rfl
  rw [chunk_loop, read_chunk_zero_blocks sds map_info strides hb, bind_mk_returned]
  simp only [if_neg hS, hv, ha, bind_mk_returned, List.nil_append, List.singleton_append]
  cases increase_strides k steps rank.toNat 1 strides with
  | none => rfl
  | some next => rfl

/-- C21. After every `read_chunk` call that returns, whatever the mapping record held before
the call: the value returned is not `FAIL`; the block count in the record is the number of
blocks the store holds at the coordinate just queried; the offsets and lengths in the record
are those blocks' offsets and lengths, in the store's order; and the descriptors then appended
for the record are exactly one per block of that coordinate. In particular, when the store
holds no block at the coordinate, the record has `nblocks = 0` and null `offsets` and
`lengths`, nothing is appended, and an iteration of the enumeration loop at that coordinate
leaves the catalog as it was and goes on with the empty record. For a chunked array that
`get_chunks_for_an_array` processes with `true`, the catalog appended is that of the queried
coordinates at which the store holds at least one block: the others contribute nothing. -/
theorem C21_no_stale_blocks (sds : SDS) (map_info map_info1 : SD_mapping_info_t)
    (origin : List Int) (ret : Int)
    (h : (read_chunk sds map_info origin).result = Outcome.returned (ret, map_info1)) :
    ret ≠ FAIL ∧
    (∃ bs, sds.blocks origin = some bs ∧
      map_info1.nblocks = (bs.length : Int) ∧
      map_info1.offsets.getD [] = bs.map Block.offset ∧
      map_info1.lengths.getD [] = bs.map Block.length ∧
      ∀ (e : String) (pia : List Nat) (dc : DmrppCommon),
        add_blocks e map_info1 pia dc =
          ⟨dc.chunks ++ descriptors_of e bs pia, dc.chunk_dimension_sizes,
            dc.compression_type⟩) ∧
    (sds.blocks origin = some [] →
      map_info1 = ⟨0, none, none, map_info.data_type, map_info.is_empty⟩ ∧
      (∀ (e : String) (pia : List Nat) (dc : DmrppCommon), add_blocks e map_info1 pia dc = dc) ∧
      ∀ (verbose : Bool) (e : String) (rank : Int) (cds : List Nat) (steps : List Int) (n : Nat)
        (k : Int) (dc : DmrppCommon),
        chunk_loop verbose sds e rank cds steps (n + 1) k map_info origin dc =
          match increase_strides k steps rank.toNat 1 origin with
          | none => ⟨[Event.query origin], Outcome.undefined⟩
          | some next =>
            ⟨Event.query origin ::
                (chunk_loop verbose sds e rank cds steps n (k + 1) map_info1 next dc).trace,
              (chunk_loop verbose sds e rank cds steps n (k + 1) map_info1 next dc).result⟩) ∧
    (∀ (file : String → SDS) (verbose : Bool) (name : String) (dc dc1 : DmrppCommon)
      (rank : Int) (D : List Int) (data_type : Int) (cdef : HDF_CHUNK_DEF) (chunk_flag : Int)
      (byte_order : String),
      (file name).SDgetinfo = some (rank, D, data_type) →
      (file name).SDgetchunkinfo = some (cdef, chunk_flag) →
      (chunk_flag = HDF_CHUNK ∨ chunk_flag = HDF_COMP) → 0 < rank →
      (file name).Hgetntinfo = some byte_order →
      (file name).SDcheckempty = some 0 →
      (get_chunks_for_an_array file verbose name (some dc)).result
        = Outcome.returned (true, some dc1) →
      dc1.chunks = dc.chunks ++ catalog_of (file name) (endian_name_of byte_order) rank
        (read_chunk_dimension_sizes rank chunk_flag cdef)
        ((array_queries file verbose name dc).filter fun g =>
          decide ((file name).blocks g ≠ some []))) := by
  obtain ⟨hret, bs, hb, hn, ho, hl⟩ := read_chunk_returned_inv sds map_info map_info1 origin ret h
  refine ⟨hret, ⟨bs, hb, hn, ho, hl, fun e pia dc => add_blocks_eq e map_info1 pia dc bs hn ho hl⟩,
    ?_, ?_⟩
  · intro h0
    have hmi : map_info1 = ⟨0, none, none, map_info.data_type, map_info.is_empty⟩ := by
      rw [read_chunk_zero_blocks sds map_info origin h0] at h
      simp only [Outcome.returned.injEq, Prod.mk.injEq] at h
      exact h.2.symm
    refine ⟨hmi, ?_, ?_⟩
    · intro e pia dc
      rw [hmi]
      rfl
    · intro verbose e rank cds steps n k dc
      rw [hmi]
      exact chunk_loop_zero_blocks verbose sds e rank cds steps n k map_info origin dc h0
  · intro file verbose name dc dc1 rank D data_type cdef chunk_flag byte_order hinfo hchunk hflag
      hrank hnt hempty hr
    obtain ⟨lines, hEq⟩ := get_chunks_for_an_array_chunked file verbose name dc rank D
      data_type cdef chunk_flag byte_order hinfo hchunk hflag hrank hnt hempty
    have hq : array_queries file verbose name dc =
        queries_of (chunked_array verbose (file name) (endian_name_of byte_order) rank D
          data_type cdef chunk_flag dc).trace := by
      unfold array_queries
      rw [hEq, bind_mk_returned]
      simp only [queries_of_append, queries_of_VERBOSE, List.nil_append, bind_ret_trace]
    rw [hEq, bind_mk_returned] at hr
    obtain ⟨dc2, hdc2, hg⟩ := (bind_ret_returned _ _ _).1 hr
    simp only [Prod.mk.injEq, Option.some.injEq, true_and] at hg
    subst hg
    obtain ⟨hcat, -, -⟩ := chunked_array_returned verbose (file name) _ rank D data_type cdef
      chunk_flag dc dc2 hdc2
    rw [hq, ← catalog_of_filter, hcat]

/-- C21, witness: the array with dims `[6]` and chunk dims `[2]` holds two blocks at coordinate
0, none at coordinate 1 and one at coordinate 2. A `read_chunk` call at coordinate 1 on a
record that still holds the two blocks of coordinate 0 returns a record with no block; and the
catalog of the array has the two descriptors of coordinate 0 at position 0 and the one of
coordinate 2 at position 4, none at position 2. -/
theorem C21_witness_sparse :
    (read_chunk example_sparse ⟨2, some [0, 8], some [8, 8], 5, 0⟩ [1]).result
      = Outcome.returned (0, ⟨0, none, none, 5, 0⟩) ∧
    (0 : Int) ≠ FAIL ∧
    (∀ (e : String) (pia : List Nat) (dc : DmrppCommon),
      add_blocks e ⟨0, none, none, 5, 0⟩ pia dc = dc) ∧
    (get_chunks_for_an_array (fun _ => example_sparse) false "sparse"
        (some ⟨[], [], none⟩)).result
      = Outcome.returned (true, some
          ⟨[⟨"BE", 8, 0, [0]⟩, ⟨"BE", 8, 8, [0]⟩, ⟨"BE", 8, 100, [4]⟩], [2], none⟩) ∧
    (⟨[⟨"BE", 8, 0, [0]⟩, ⟨"BE", 8, 8, [0]⟩, ⟨"BE", 8, 100, [4]⟩], [2], none⟩
        : DmrppCommon).chunks
      = (⟨[], [], none⟩ : DmrppCommon).chunks ++ catalog_of example_sparse
        (endian_name_of "bigEndian") 1
        (read_chunk_dimension_sizes 1 HDF_CHUNK ⟨[2], [2], COMP_CODE_NONE⟩)
        ((array_queries (fun _ => example_sparse) false "sparse" ⟨[], [], none⟩).filter fun g =>
          decide (example_sparse.blocks g ≠ some [])) :=
  ⟨by decide,
    (C21_no_stale_blocks example_sparse ⟨2, some [0, 8], some [8, 8], 5, 0⟩ ⟨0, none, none, 5, 0⟩
      [1] 0 (by decide)).1,
    ((C21_no_stale_blocks example_sparse ⟨2, some [0, 8], some [8, 8], 5, 0⟩
      ⟨0, none, none, 5, 0⟩ [1] 0 (by decide)).2.2.1 (by decide)).2.1,
    by decide,
    (C21_no_stale_blocks example_sparse ⟨2, some [0, 8], some [8, 8], 5, 0⟩ ⟨0, none, none, 5, 0⟩
      [1] 0 (by decide)).2.2.2 (fun _ => example_sparse) false "sparse" ⟨[], [], none⟩
      ⟨[⟨"BE", 8, 0, [0]⟩, ⟨"BE", 8, 8, [0]⟩, ⟨"BE", 8, 100, [4]⟩], [2], none⟩ 1 [6] 5
      ⟨[2], [2], COMP_CODE_NONE⟩ HDF_CHUNK "bigEndian" rfl rfl (Or.inl rfl) (by decide) rfl rfl
      (by decide)⟩

/-! ## A dimension shorter than its chunk -/

theorem ERROR_not_mem_VERBOSE (verbose : Bool) (lines : List String) (x : String) :
    Event.ERROR x ∉ VERBOSE verbose lines := by
  cases verbose
  · simp [VERBOSE]
  · simp [VERBOSE]

/-- The call on a non-empty chunked array with a dimension shorter than its chunk: only
`VERBOSE` lines are written, and the call returns `true` with the catalog as it was, the chunk
dimension sizes recorded, and the codec name set as for any chunked array. -/
theorem short_array_run (file : String → SDS) (verbose : Bool) (name : String)
    (dc : DmrppCommon) (rank : Int) (D : List Int) (data_type : Int) (cdef : HDF_CHUNK_DEF)
    (chunk_flag : Int) (C : List Int) (byte_order : String)
    (harr : ChunkedArray (file name) rank D data_type cdef chunk_flag C)
    (hnt : (file name).Hgetntinfo = some byte_order)
    (hempty : (file name).SDcheckempty = some 0)
    (hshort : ∃ i, i < rank.toNat ∧ D.getD i 0 < C.getD i 0) :
    ∃ lines, get_chunks_for_an_array file verbose name (some dc) =
      ⟨VERBOSE verbose lines, Outcome.returned (true, some
        ⟨dc.chunks, C.map Int.toNat,
          if chunk_flag = HDF_COMP then some "deflate" else dc.compression_type⟩)⟩ := by
  obtain ⟨i, hi, hlt⟩ := hshort
  have hprod : ((step_counts D C).map fun s : Nat => (s : Int)).prod = 0 := by
    by_contra hne
    have hiC : i < C.length := by rw [harr.C_length]; exact hi
    have hiD : i < D.length := by rw [harr.D_length]; exact hi
    have hc := harr.C_range _ (getD_mem hiC)
    have hd := harr.D_range _ (getD_mem hiD)
    apply prod_ne_zero_getD _ hne i (by rw [step_counts_rank harr]; exact hi)
    rw [getD_map_cast, step_counts_getD D C i hiD hiC, Nat.div_eq_of_lt (by omega)]
    rfl
  obtain ⟨lines, hEq⟩ := get_chunks_for_an_array_chunked file verbose name dc rank D data_type
    cdef chunk_flag byte_order harr.info harr.chunkinfo harr.flag harr.rank_pos hnt hempty
  obtain ⟨lines2, hEq2⟩ := chunked_array_steps verbose (file name) (endian_name_of byte_order)
    dc harr
  have hw : (wrap_int32 ((step_counts D C).map fun s : Nat => (s : Int)).prod).toNat = 0 := by
    rw [hprod]
    rfl
  have hnode : (ingest_compression rank chunk_flag dc).set_chunk_dimension_sizes
      (C.map Int.toNat) = ⟨dc.chunks, C.map Int.toNat,
        if chunk_flag = HDF_COMP then some "deflate" else dc.compression_type⟩ := by
    have h1 := ingest_compression_chunks rank chunk_flag dc
    have h2 := ingest_compression_type_eq rank chunk_flag dc harr.rank_pos
    have h3 : (if chunk_flag = HDF_CHUNK then dc.compression_type else some "deflate") =
        if chunk_flag = HDF_COMP then some "deflate" else dc.compression_type := by
      rcases harr.flag with h | h
      · rw [if_pos h, h, if_neg (by decide)]
      · rw [h, if_neg (by decide), if_pos rfl]
    rw [h3] at h2
    cases hic : ingest_compression rank chunk_flag dc with
    | mk chunks sizes codec =>
      rw [hic] at h1 h2
      simp only at h1 h2
      rw [← h1, ← h2]
      rfl
  refine ⟨lines ++ lines2, ?_⟩
  rw [hEq, hEq2, hw, chunk_loop_zero, hnode, ← VERBOSE_append]
  simp only [bind_mk_returned, Run.ret, List.append_nil]

/-- C22. For a non-empty chunked (or chunked and compressed) array of rank `> 0` with
non-negative dimension sizes and positive chunk sizes, on a catalog-capable node, with the type
information available: when some dimension has `D[i] < C[i]`, `get_chunks_for_an_array` makes
no block-location query and returns `true`; the node after the call has the catalog it had
before (no descriptor is appended), the chunk dimension sizes recorded, and the codec name
"deflate" when the flag is `HDF_COMP`; the call writes no `ERROR` text, and with verbose mode
off it writes nothing at all; and the walk of a group that holds this Array alone, with
verbose mode off, writes nothing either, so that no diagnostic is emitted for it. -/
theorem C22_short_dimension_gives_empty_catalog (file : String → SDS) (verbose : Bool)
    (name : String) (dc : DmrppCommon) (rank : Int) (D : List Int) (data_type : Int)
    (cdef : HDF_CHUNK_DEF) (chunk_flag : Int) (C : List Int) (byte_order : String)
    (harr : ChunkedArray (file name) rank D data_type cdef chunk_flag C)
    (hnt : (file name).Hgetntinfo = some byte_order)
    (hempty : (file name).SDcheckempty = some 0)
    (hshort : ∃ i, i < rank.toNat ∧ D.getD i 0 < C.getD i 0) :
    array_queries file verbose name dc = [] ∧
    (get_chunks_for_an_array file verbose name (some dc)).result =
      Outcome.returned (true, some
        ⟨dc.chunks, read_chunk_dimension_sizes rank chunk_flag cdef,
          if chunk_flag = HDF_COMP then some "deflate" else dc.compression_type⟩) ∧
    read_chunk_dimension_sizes rank chunk_flag cdef = C.map Int.toNat ∧
    (∀ x, Event.ERROR x ∉ (get_chunks_for_an_array file verbose name (some dc)).trace) ∧
    (get_chunks_for_an_array file false name (some dc)).trace = [] ∧
    (∀ gname, (get_chunks_for_all_variables file false
      (D4Group.mk gname [BaseType.dods_array_c name (some dc)] [])).trace = []) := by
  obtain ⟨lines, hrun⟩ := short_array_run file verbose name dc rank D data_type cdef chunk_flag
    C byte_order harr hnt hempty hshort
  obtain ⟨lines0, hrun0⟩ := short_array_run file false name dc rank D data_type cdef chunk_flag
    C byte_order harr hnt hempty hshort
  have hcds := read_chunk_dimension_sizes_wf harr
  refine ⟨?_, ?_, hcds, ?_, ?_, ?_⟩
  · unfold array_queries
    rw [hrun]
    exact queries_of_VERBOSE _ _
  · rw [hrun, hcds]
  · intro x
    rw [hrun]
    exact ERROR_not_mem_VERBOSE _ _ _
  · rw [hrun0]
    rfl
  · intro gname
    rw [get_chunks_for_all_variables,
      for_variables_var file false _ _ (fun g hg => by cases hg),
      get_chunks_for_a_variable_array, hrun0]
    rfl

/-- C22, witness: the array with dims `[1,4]` and chunk dims `[2,2]` has `D[0] < C[0]`: no
query, the call returns `true`, the catalog stays empty and the chunk dimension sizes `[2,2]`
are recorded. -/
theorem C22_witness_short :
    array_queries (fun _ => example_short) false "short" ⟨[], [], none⟩ = [] ∧
    (get_chunks_for_an_array (fun _ => example_short) false "short"
        (some ⟨[], [], none⟩)).result =
      Outcome.returned (true, some
        ⟨[], read_chunk_dimension_sizes 2 HDF_CHUNK ⟨[2, 2], [2, 2], COMP_CODE_NONE⟩,
          if HDF_CHUNK = HDF_COMP then some "deflate" else none⟩) ∧
    read_chunk_dimension_sizes 2 HDF_CHUNK ⟨[2, 2], [2, 2], COMP_CODE_NONE⟩ = [2, 2] :=
  ⟨(C22_short_dimension_gives_empty_catalog (fun _ => example_short) false "short"
      ⟨[], [], none⟩ 2 [1, 4] 5 ⟨[2, 2], [2, 2], COMP_CODE_NONE⟩ HDF_CHUNK [2, 2] "bigEndian"
      ⟨rfl, rfl, Or.inl rfl, rfl, by decide, rfl, rfl, by decide, by decide⟩ rfl rfl
      ⟨0, by decide, by decide⟩).1,
    (C22_short_dimension_gives_empty_catalog (fun _ => example_short) false "short"
      ⟨[], [], none⟩ 2 [1, 4] 5 ⟨[2, 2], [2, 2], COMP_CODE_NONE⟩ HDF_CHUNK [2, 2] "bigEndian"
      ⟨rfl, rfl, Or.inl rfl, rfl, by decide, rfl, rfl, by decide, by decide⟩ rfl rfl
      ⟨0, by decide, by decide⟩).2.1,
    by decide⟩

end build_dmrpp_util_h4
